import Mathlib

/-! Representative reward calculator (`icon/iiss/calculator/prep.go`).

A shallow embedding of `PRep` and `PRepInfo` from `prep.go`.

* `*big.Int` values are `Int`; `big.Int.Div` is Euclidean division, which is
  what the division sign on `Int` means here, and `big.Int.Cmp` is `bigCmp`.
* `int` and `int64` are 64-bit two's complement numbers, embedded as `Int`
  with `wrapInt64` at the two places where the source does machine arithmetic
  (`offsetLimit + 1` and `period * IScoreICXRatio`).
* A `*PRep` is an index into a heap of `PRep` objects, so that the map
  `preps` and the slice `rank` of a `PRepInfo` share objects as in the source.
* A run-time panic (division by zero in `big.Int.Div`) is the result `none`.
* `iiss4Reward.Calculate` (`iiss4.go`) is embedded over its phases, each a function
  from the state of the calculation to the state it leaves and an error or `nil`.
-/

namespace icmodule

/-- Modelled from the spec: `icmodule.EnableStatus` is declared outside `src/`.
These are the five states named by the data model (enabled, jailed, unjailing,
disabled-permanently, enabled-next-term), under the names `prep.go` uses. -/
inductive EnableStatus where
  | ESEnable
  | ESJail
  | ESUnjail
  | ESDisablePermanent
  | ESEnableAtNextTerm
  deriving DecidableEq

end icmodule

open icmodule (EnableStatus)

/-- Modelled from the spec: declarations of packages `icmodule` and `icutils`
that `prep.go` uses and that are not under `src/`, taken as parameters:
the constants `IScoreICXRatio`, `MonthBlock` and the denominator of
`icmodule.Rate`, and the capping function `icutils.CalcPower(br, bonded, voted)`. -/
structure Deps where
  IScoreICXRatio : Int
  MonthBlock : Int
  DenomInRate : Int
  CalcPower : Int → Int → Int → Int

/-- Modelled from the spec: `icmodule.Rate.MulBigInt` is declared outside `src/`;
a rate is "applied as fixed-point multiply then truncating divide". -/
def Rate.MulBigInt (E : Deps) (r : Int) (v : Int) : Int :=
  Int.tdiv (v * r) E.DenomInRate

/-- Modelled from the spec: `VoteType` of package `calculator` is declared outside
`src/`; a stake change is tagged bond or delegation. -/
inductive VoteType where
  | vtDelegate
  | vtBond
  deriving DecidableEq

/-- The result of `big.Int.Cmp`: -1, 0 or +1. -/
def bigCmp (x y : Int) : Int :=
  if x < y then -1 else if x = y then 0 else 1

/-- The result of `bytes.Compare` on two byte strings: -1, 0 or +1, lexicographically. -/
def bytesCompare : List Nat → List Nat → Int
  | [], [] => 0
  | [], _ :: _ => -1
  | _ :: _, [] => 1
  | a :: as, b :: bs => if a < b then -1 else if b < a then 1 else bytesCompare as bs

/-- Conversion of an integer to a 64-bit two's complement machine integer. -/
def wrapInt64 (x : Int) : Int :=
  (x + 2 ^ 63) % 2 ^ 64 - 2 ^ 63

/-- The struct `PRep`; `owner` is the byte string `owner.Bytes()`. -/
structure PRep where
  status : EnableStatus
  delegated : Int
  bonded : Int
  commissionRate : Int
  owner : List Nat
  power : Int
  pubkey : Bool
  rank : Int
  accumulatedVoted : Int
  accumulatedPower : Int
  commission : Int
  voterReward : Int
  wage : Int
  deriving DecidableEq

namespace PRep

def IsElectable (p : PRep) : Bool :=
  p.pubkey && (p.status == EnableStatus.ESEnable || p.status == EnableStatus.ESUnjail)

def IsRewardable (p : PRep) (electedPRepCount : Int) : Bool :=
  p.status == EnableStatus.ESEnable && decide (p.rank < electedPRepCount) &&
    decide (0 < p.accumulatedPower)

def SetStatus (p : PRep) (status : EnableStatus) : PRep :=
  { p with status := status }

def GetVotedValue (p : PRep) : Int :=
  p.delegated + p.bonded

def calcPower (E : Deps) (p : PRep) (bondRequirement : Int) : Int :=
  E.CalcPower bondRequirement p.bonded p.GetVotedValue

def UpdatePower (E : Deps) (p : PRep) (bondRequirement : Int) : PRep :=
  { p with power := p.calcPower E bondRequirement }

def SetRank (p : PRep) (rank : Int) : PRep :=
  { p with rank := rank }

def InitAccumulated (p : PRep) (termPeriod : Int) : PRep :=
  let period := termPeriod
  { p with
    accumulatedVoted := p.GetVotedValue * period
    accumulatedPower := p.power * period }

/-- `ApplyVote` applies a vote value to the PRep. -/
def ApplyVote (E : Deps) (p : PRep) (vType : VoteType) (amount : Int) (period : Int)
    (bondRequirement : Int) : PRep :=
  let pr := period
  let p1 : PRep :=
    if vType = VoteType.vtBond then { p with bonded := p.bonded + amount }
    else { p with delegated := p.delegated + amount }
  let p2 : PRep := { p1 with accumulatedVoted := p1.accumulatedVoted + amount * pr }
  let power := p2.calcPower E bondRequirement
  if bigCmp p2.power power ≠ 0 then
    let powerDiff := power - p2.power
    { p2 with power := power, accumulatedPower := p2.accumulatedPower + powerDiff * pr }
  else p2

def GetReward (p : PRep) : Int :=
  p.commission + p.wage

/-- `CalculateReward` of one PRep; `none` when `big.Int.Div` panics on a zero divisor. -/
def CalculateReward (E : Deps) (p : PRep)
    (totalPRepReward totalAccumulatedPower minBond minWage : Int) : Option PRep :=
  if totalAccumulatedPower = 0 then none
  else
    let prepReward := totalPRepReward * p.accumulatedPower / totalAccumulatedPower
    let commission := Rate.MulBigInt E p.commissionRate prepReward
    let p1 : PRep := { p with commission := commission, voterReward := prepReward - commission }
    if 0 ≤ bigCmp p1.bonded minBond then some { p1 with wage := minWage } else some p1

def Bigger (p p1 : PRep) : Bool :=
  if p.IsElectable ≠ p1.IsElectable then p.IsElectable
  else
    let c := bigCmp p.power p1.power
    if c ≠ 0 then decide (c = 1)
    else
      let c := bigCmp p.delegated p1.delegated
      if c ≠ 0 then decide (c = 1)
      else decide (0 < bytesCompare p.owner p1.owner)

end PRep

def NewPRep (owner : List Nat) (status : EnableStatus) (delegated bonded : Int)
    (commissionRate : Int) (pubkey : Bool) : PRep :=
  { owner := owner, status := status, delegated := delegated, bonded := bonded,
    commissionRate := commissionRate, pubkey := pubkey, power := 0, rank := 0,
    accumulatedVoted := 0, accumulatedPower := 0, commission := 0, voterReward := 0,
    wage := 0 }

/-- The PRep objects allocated so far; a `*PRep` is an index into this list. -/
abbrev Heap := List PRep

/-- The object read through a pointer that addresses no object; the pointers of a
well-formed `PRepInfo` all address objects, so no method reads it. -/
def PRep.zero : PRep :=
  NewPRep [] EnableStatus.ESEnable 0 0 0 false

namespace Heap

/-- Reading through a pointer. -/
def deref (h : Heap) (ptr : Nat) : PRep :=
  h.getD ptr PRep.zero

/-- Calling a mutating method through a pointer. -/
def modify (h : Heap) (ptr : Nat) (f : PRep → PRep) : Heap :=
  h.set ptr (f (h.deref ptr))

end Heap

/-- `PRepInfo` stores information for PRep reward calculation. `preps` is the map from
key (`icutils.ToKey`, the owner bytes) to object, as a list of entries in the order in
which `range` enumerates them; `rank` is the slice of pointers built by `Sort`. -/
structure PRepInfo where
  heap : Heap
  preps : List (List Nat × Nat)
  totalAccumulatedPower : Int
  electedPRepCount : Int
  bondRequirement : Int
  offsetLimit : Int
  rank : List Nat
  deriving DecidableEq

/-- `sort.Slice` inserts one element into an already ordered slice. -/
def sortInsert (less : Nat → Nat → Bool) (x : Nat) : List Nat → List Nat
  | [] => [x]
  | y :: ys => if less x y then x :: y :: ys else y :: sortInsert less x ys

/-- `sort.Slice(s, less)`, embedded as insertion sort. The library leaves only the order
of elements that `less` does not separate open; `PRep.Bigger` separates any two entries
of the map, so every correct sort returns this list. -/
def sortSlice (less : Nat → Nat → Bool) : List Nat → List Nat
  | [] => []
  | x :: xs => sortInsert less x (sortSlice less xs)

/-- The loop `for idx, prep := range orderedPreps { prep.SetRank(idx) }`, from `idx` on. -/
def setRanks : Nat → List Nat → Heap → Heap
  | _, [], h => h
  | idx, ptr :: rest, h => setRanks (idx + 1) rest (h.modify ptr (fun q => q.SetRank idx))

/-- The loop of `PRepInfo.InitAccumulated` over `rank`, from index `i`. -/
def initLoop (electedPRepCount termPeriod : Int) : Nat → List Nat → Heap → Heap
  | _, [], h => h
  | i, ptr :: rest, h =>
    if electedPRepCount ≤ i then h
    else initLoop electedPRepCount termPeriod (i + 1) rest
      (h.modify ptr (fun q => q.InitAccumulated termPeriod))

/-- The loop of `UpdateTotalAccumulatedPower`, from index `i` with running total `acc`. -/
def sumAccumulatedPower (electedPRepCount : Int) (h : Heap) : Nat → List Nat → Int → Int
  | _, [], acc => acc
  | i, ptr :: rest, acc =>
    if electedPRepCount ≤ i then acc
    else sumAccumulatedPower electedPRepCount h (i + 1) rest (acc + (h.deref ptr).accumulatedPower)

def fundToPeriodIScore (E : Deps) (reward : Int) (period : Int) : Option Int :=
  let value := reward * wrapInt64 (period * E.IScoreICXRatio)
  if E.MonthBlock = 0 then none else some (value / E.MonthBlock)

/-- The loop of `PRepInfo.CalculateReward` over `rank`, from index `i`. -/
def rewardLoop (E : Deps) (electedPRepCount tReward totalAccumulatedPower minBond
    minWagePerPRep : Int) : Nat → List Nat → Heap → Option Heap
  | _, [], h => some h
  | i, ptr :: rest, h =>
    if electedPRepCount ≤ i then some h
    else if !(h.deref ptr).IsRewardable electedPRepCount then
      rewardLoop E electedPRepCount tReward totalAccumulatedPower minBond minWagePerPRep
        (i + 1) rest h
    else
      match (h.deref ptr).CalculateReward E tReward totalAccumulatedPower minBond
          minWagePerPRep with
      | none => none
      | some q =>
        rewardLoop E electedPRepCount tReward totalAccumulatedPower minBond minWagePerPRep
          (i + 1) rest (h.modify ptr (fun _ => q))

def NewPRepInfo (bondRequirement : Int) (electedPRepCount offsetLimit : Int) : PRepInfo :=
  { heap := [], preps := [], totalAccumulatedPower := 0,
    electedPRepCount := electedPRepCount, bondRequirement := bondRequirement,
    offsetLimit := offsetLimit, rank := [] }

/-- The map assignment `m[key] = ptr`. -/
def mapSet (key : List Nat) (ptr : Nat) : List (List Nat × Nat) → List (List Nat × Nat)
  | [] => [(key, ptr)]
  | e :: es => if e.1 = key then (key, ptr) :: es else e :: mapSet key ptr es

namespace PRepInfo

/-- The objects of the map `preps`, in enumeration order. -/
def PReps (p : PRepInfo) : List PRep :=
  p.preps.map (fun e => p.heap.deref e.2)

def GetPRep (p : PRepInfo) (key : List Nat) : Option PRep :=
  (p.preps.lookup key).map p.heap.deref

def GetTermPeriod (p : PRepInfo) : Int :=
  wrapInt64 (p.offsetLimit + 1)

def Add (E : Deps) (p : PRepInfo) (target : List Nat) (status : EnableStatus)
    (delegated bonded : Int) (commissionRate : Int) (pubkey : Bool) : PRepInfo :=
  let prep := (NewPRep target status delegated bonded commissionRate pubkey).UpdatePower E
    p.bondRequirement
  { p with heap := p.heap ++ [prep], preps := mapSet target p.heap.length p.preps }

/-- The method `Sort` (the name is reserved here, hence the underscore). -/
def Sort_ (p : PRepInfo) : PRepInfo :=
  let orderedPreps := p.preps.map Prod.snd
  let orderedPreps :=
    sortSlice (fun i j => (p.heap.deref i).Bigger (p.heap.deref j)) orderedPreps
  { p with heap := setRanks 0 orderedPreps p.heap, rank := orderedPreps }

def SetStatus (E : Deps) (p : PRepInfo) (target : List Nat) (status : EnableStatus) :
    PRepInfo :=
  let key := target
  match p.preps.lookup key with
  | some prep => { p with heap := p.heap.modify prep (fun q => q.SetStatus status) }
  | none => p.Add E target status 0 0 0 false

/-- `InitAccumulated` update accumulated values of elected PReps. -/
def InitAccumulated (p : PRepInfo) : PRepInfo :=
  { p with heap := initLoop p.electedPRepCount p.GetTermPeriod 0 p.rank p.heap }

/-- One iteration of the loop of `ApplyVote`, for the vote `(To, Amount)`. -/
def applyOneVote (E : Deps) (vType : VoteType) (offset : Int) (p : PRepInfo)
    (vote : List Nat × Int) : PRepInfo :=
  let key := vote.1
  match p.preps.lookup key with
  | some prep =>
    { p with heap := p.heap.modify prep (fun q =>
        q.ApplyVote E vType vote.2 (wrapInt64 (p.offsetLimit - offset)) p.bondRequirement) }
  | none =>
    let p1 := p.Add E vote.1 EnableStatus.ESDisablePermanent 0 0 0 false
    let prep := p.heap.length
    { p1 with heap := p1.heap.modify prep (fun q =>
        q.ApplyVote E vType vote.2 (wrapInt64 (p1.offsetLimit - offset)) p1.bondRequirement) }

def ApplyVote (E : Deps) (p : PRepInfo) (vType : VoteType) (votes : List (List Nat × Int))
    (offset : Int) : PRepInfo :=
  votes.foldl (applyOneVote E vType offset) p

/-- `UpdateTotalAccumulatedPower` updates totalAccumulatedPower of PRepInfo with
accumulatedPower of elected preps. -/
def UpdateTotalAccumulatedPower (p : PRepInfo) : PRepInfo :=
  { p with totalAccumulatedPower := sumAccumulatedPower p.electedPRepCount p.heap 0 p.rank 0 }

/-- `CalculateReward` calculates commission, wage and voter reward of the PReps. The
returned error is always nil: `some q` is a return with state `q`, `none` a panic. -/
def CalculateReward (E : Deps) (p : PRepInfo) (totalReward totalMinWage minBond : Int) :
    Option PRepInfo :=
  if p.electedPRepCount = 0 then some p
  else
    match fundToPeriodIScore E totalReward p.GetTermPeriod with
    | none => none
    | some tReward =>
      match fundToPeriodIScore E totalMinWage p.GetTermPeriod with
      | none => none
      | some minWage =>
        let minWagePerPRep := minWage / p.electedPRepCount
        match rewardLoop E p.electedPRepCount tReward p.totalAccumulatedPower minBond
            minWagePerPRep 0 p.rank p.heap with
        | none => none
        | some h => some { p with heap := h }

end PRepInfo

/-! ## Data of the unit tests in `prep_test.go` -/

/-- Modelled from the spec: `icutils.CalcPower` is declared outside `src/`. Bonded stake
counts in full, and voted value counts only as far as the bond covers it at the
bond-requirement rate `br` (in units of 1/10000); a zero rate puts no cap. -/
def CalcPower (br bonded voted : Int) : Int :=
  if br = 0 then voted
  else
    let power := bonded * 10000 / br
    if voted < power then voted else power

/-- Modelled from the spec: the values of the `icmodule` constants are not under `src/`;
the worked examples use a score ratio of 1000, a month of 1296000 blocks and rates in
units of 1/10000. -/
def goloop : Deps :=
  { IScoreICXRatio := 1000, MonthBlock := 1296000, DenomInRate := 10000,
    CalcPower := CalcPower }

/-- The bytes of the address `hx<n>` for a one-digit `n`: a zero type byte and a
twenty-byte body that ends in `n`. -/
def hx (n : Nat) : List Nat :=
  0 :: (List.replicate 19 0 ++ [n])

/-- The literal `prep{owner, status, bond, delegate, pubkey, commissionRate}` passed to
`newTestPRep`. -/
def newTestPRep (owner : List Nat) (status : EnableStatus) (bond delegate : Int)
    (pubkey : Bool) (commissionRate : Int) : PRep :=
  NewPRep owner status delegate bond commissionRate pubkey

/-- The five representatives of `TestPRepInfo`, added by `newTestPRepInfo` with a bond
requirement of 5%, offset limit 100 and four elected representatives. -/
def testPRepInfo : PRepInfo :=
  let p := NewPRepInfo 500 4 100
  let p := p.Add goloop (hx 1) EnableStatus.ESEnable 1000 100 100 true
  let p := p.Add goloop (hx 2) EnableStatus.ESJail 2000 200 200 true
  let p := p.Add goloop (hx 3) EnableStatus.ESUnjail 3000 300 300 true
  let p := p.Add goloop (hx 4) EnableStatus.ESEnable 4000 40 400 true
  p.Add goloop (hx 5) EnableStatus.ESUnjail 5000 50 500 true

/-- The state of `TestPRepInfo` just before its call of `CalculateReward`: the five
representatives sorted and seeded, the three vote events and the five status events
applied, and the total accumulated power updated. -/
def testPRepInfoReplayed : PRepInfo :=
  let p := testPRepInfo.Sort_.InitAccumulated
  let p := p.ApplyVote goloop VoteType.vtDelegate
    [(hx 1, 1000), (hx 2, 2000), (hx 3, 3000), (hx 6, 6000)] 10
  let p := p.ApplyVote goloop VoteType.vtBond [(hx 1, 100), (hx 2, 200), (hx 3, 300)] 30
  let p := p.ApplyVote goloop VoteType.vtDelegate
    [(hx 1, -1000), (hx 2, -2000), (hx 3, -3000), (hx 5, -3000)] 80
  let p := p.SetStatus goloop (hx 3) EnableStatus.ESEnable
  let p := p.SetStatus goloop (hx 5) EnableStatus.ESJail
  let p := p.SetStatus goloop (hx 4) EnableStatus.ESJail
  let p := p.SetStatus goloop (hx 6) EnableStatus.ESEnable
  let p := p.SetStatus goloop (hx 7) EnableStatus.ESEnable
  p.UpdateTotalAccumulatedPower

/-- A PRepInfo whose offset limit is -3, so that its term period is -2: two elected
preps, the second jailed, each with bond 2 and accumulated power 1 after a bond vote. -/
def negativeTermInfo : PRepInfo :=
  let p := NewPRepInfo 500 2 (-3)
  let p := p.Add goloop (hx 1) EnableStatus.ESEnable 0 1 0 true
  let p := p.Add goloop (hx 2) EnableStatus.ESJail 0 1 0 true
  p.Sort_.ApplyVote goloop VoteType.vtBond [(hx 1, 1), (hx 2, 1)] (-4)

/-- The state of `TestPRepInfo` after sorting and seeding, followed by one bond vote for
`hx3` at offset 200000, far beyond the offset limit of 100, and the update of the total:
the remaining offsets are negative, and so are the accumulated power of `hx3` and the
total. -/
def negativeTotalInfo : PRepInfo :=
  (testPRepInfo.Sort_.InitAccumulated.ApplyVote goloop VoteType.vtBond [(hx 3, 1000)]
    200000).UpdateTotalAccumulatedPower

/-! ## Definitions used to state the properties -/

/-- The order that `PRep.Bigger` decides, written out on the four compared values. -/
def BiggerSpec (p q : PRep) : Prop :=
  (p.IsElectable = true ∧ q.IsElectable = false) ∨
  (p.IsElectable = q.IsElectable ∧ q.power < p.power) ∨
  (p.IsElectable = q.IsElectable ∧ p.power = q.power ∧ q.delegated < p.delegated) ∨
  (p.IsElectable = q.IsElectable ∧ p.power = q.power ∧ p.delegated = q.delegated ∧
    List.Lex (fun x y => x < y) q.owner p.owner)

/-- The arguments of one call of `PRep.ApplyVote`. -/
structure VoteCall where
  vType : VoteType
  amount : Int
  period : Int
  bondRequirement : Int

/-- A sequence of `PRep.ApplyVote` calls on one representative, in order. -/
def applyVotes (E : Deps) (p : PRep) : List VoteCall → PRep
  | [] => p
  | v :: vs => applyVotes E (p.ApplyVote E v.vType v.amount v.period v.bondRequirement) vs

/-- The naive full-history integral of the spec: the sum, over every value held, of the
value times the number of offsets it was held. `value` is held from `held` remaining
offsets on; an event `(a, r)` ends that stretch at `r` remaining offsets and changes the
value by `a`; the last value is held for all the offsets that remain. -/
def naiveIntegral (value : Int) (held : Int) : List (Int × Int) → Int
  | [] => value * held
  | (a, r) :: rest => value * (held - r) + naiveIntegral (value + a) r rest

/-- The states of a `PRepInfo` that the methods can produce: the map has one entry per
key, its entries point to distinct allocated objects whose owner is the key, and `rank`
holds distinct allocated objects. -/
def PRepInfo.WF (p : PRepInfo) : Prop :=
  (p.preps.map Prod.fst).Nodup ∧
  (p.preps.map Prod.snd).Nodup ∧
  (∀ e ∈ p.preps, e.2 < p.heap.length ∧ (p.heap.deref e.2).owner = e.1) ∧
  p.rank.Nodup ∧
  (∀ ptr ∈ p.rank, ptr < p.heap.length)

instance (p : PRepInfo) : Decidable p.WF := by
  unfold PRepInfo.WF
  infer_instance

/-- What `PRep.CalculateReward` stores in a PRep when its divisor is not zero. -/
def PRep.rewarded (E : Deps) (q : PRep) (tReward tot minBond minWage : Int) : PRep :=
  { q with
    commission := Rate.MulBigInt E q.commissionRate (tReward * q.accumulatedPower / tot)
    voterReward := tReward * q.accumulatedPower / tot
      - Rate.MulBigInt E q.commissionRate (tReward * q.accumulatedPower / tot)
    wage := if minBond ≤ q.bonded then minWage else q.wage }

/-- The elected window: the entries of `rank` that the loops reach before `break`. -/
def PRepInfo.elected (p : PRepInfo) : List Nat :=
  p.rank.take p.electedPRepCount.toNat

/-- The states that the methods of `PRepInfo` produce from `NewPRepInfo`. -/
inductive PRepInfo.Reachable (E : Deps) : PRepInfo → Prop where
  | new (bondRequirement electedPRepCount offsetLimit : Int) :
    Reachable E (NewPRepInfo bondRequirement electedPRepCount offsetLimit)
  | add {p : PRepInfo} (target : List Nat) (status : EnableStatus)
    (delegated bonded commissionRate : Int) (pubkey : Bool) :
    Reachable E p → Reachable E (p.Add E target status delegated bonded commissionRate pubkey)
  | setStatus {p : PRepInfo} (target : List Nat) (status : EnableStatus) :
    Reachable E p → Reachable E (p.SetStatus E target status)
  | sort {p : PRepInfo} : Reachable E p → Reachable E p.Sort_
  | initAccumulated {p : PRepInfo} : Reachable E p → Reachable E p.InitAccumulated
  | applyVote {p : PRepInfo} (vType : VoteType) (votes : List (List Nat × Int))
    (offset : Int) : Reachable E p → Reachable E (p.ApplyVote E vType votes offset)
  | updateTotalAccumulatedPower {p : PRepInfo} :
    Reachable E p → Reachable E p.UpdateTotalAccumulatedPower
  | calculateReward {p q : PRepInfo} (totalReward totalMinWage minBond : Int) :
    Reachable E p → p.CalculateReward E totalReward totalMinWage minBond = some q →
    Reachable E q

/-! ## The calls and events of a term -/

/-- The stake change of `PRep.ApplyVote` alone: `amount` is added to `bonded` for a bond
vote and to `delegated` otherwise. -/
def PRep.changeStake (p : PRep) (vType : VoteType) (amount : Int) : PRep :=
  if vType = VoteType.vtBond then { p with bonded := p.bonded + amount }
  else { p with delegated := p.delegated + amount }

/-- One record of the base snapshot, as `loadPRepInfo` passes it to `PRepInfo.Add`. -/
structure AddCall where
  target : List Nat
  status : EnableStatus
  delegated : Int
  bonded : Int
  commissionRate : Int
  pubkey : Bool

/-- The loop of `loadPRepInfo` (and of `newTestPRepInfo`): one `Add` per record. -/
def PRepInfo.addAll (E : Deps) (p : PRepInfo) : List AddCall → PRepInfo
  | [] => p
  | c :: cs =>
    (p.Add E c.target c.status c.delegated c.bonded c.commissionRate c.pubkey).addAll E cs

/-- One event of the term as `processEvents` dispatches it: a status change
(`TypeEventEnable`) or a stake change (`TypeEventDelegation`, `TypeEventBond`) with its
vote list and the offset of its key. -/
inductive Event where
  | enable (target : List Nat) (status : EnableStatus)
  | vote (vType : VoteType) (votes : List (List Nat × Int)) (offset : Int)

/-- The body of the loop of `processEvents`, on the PRepInfo. -/
def PRepInfo.applyEvent (E : Deps) (p : PRepInfo) : Event → PRepInfo
  | Event.enable target status => p.SetStatus E target status
  | Event.vote vType votes offset => p.ApplyVote E vType votes offset

/-- The loop of `processEvents`: the events in key order. -/
def PRepInfo.applyEvents (E : Deps) (p : PRepInfo) : List Event → PRepInfo
  | [] => p
  | e :: es => (p.applyEvent E e).applyEvents E es

/-- The parts of a `PRepInfo` that no event touches: the rank sequence, the term
parameters and the stored total. -/
def PRepInfo.fixedPart (p : PRepInfo) : List Nat × Int × Int × Int × Int :=
  (p.rank, p.electedPRepCount, p.offsetLimit, p.bondRequirement, p.totalAccumulatedPower)

/-- The call sequence of `TestPRepInfo` with five elected representatives instead of four:
the jailed `hx2` then ranks inside the elected window. -/
def testPRepInfoFive : PRepInfo :=
  (NewPRepInfo 500 5 100).addAll goloop
    [ { target := hx 1, status := EnableStatus.ESEnable, delegated := 1000, bonded := 100,
        commissionRate := 100, pubkey := true },
      { target := hx 2, status := EnableStatus.ESJail, delegated := 2000, bonded := 200,
        commissionRate := 200, pubkey := true },
      { target := hx 3, status := EnableStatus.ESUnjail, delegated := 3000, bonded := 300,
        commissionRate := 300, pubkey := true },
      { target := hx 4, status := EnableStatus.ESEnable, delegated := 4000, bonded := 40,
        commissionRate := 400, pubkey := true },
      { target := hx 5, status := EnableStatus.ESUnjail, delegated := 5000, bonded := 50,
        commissionRate := 500, pubkey := true } ]

/-- Every known prep has non-negative bonded and delegated stake. -/
def PRepInfo.stakesNonneg (p : PRepInfo) : Bool :=
  p.PReps.all (fun r => decide (0 ≤ r.bonded) && decide (0 ≤ r.delegated))

/-- No vote of the list, applied in order at `offset`, drives a stake below zero. -/
def votesKeepStake (E : Deps) (vType : VoteType) (offset : Int) :
    PRepInfo → List (List Nat × Int) → Bool
  | _, [] => true
  | p, v :: vs =>
    (PRepInfo.applyOneVote E vType offset p v).stakesNonneg &&
      votesKeepStake E vType offset (PRepInfo.applyOneVote E vType offset p v) vs

/-- The events are replayed in key order: the offsets of the vote events do not decrease
from `last` on and do not exceed `offsetLimit`, and no vote drives a stake below zero. -/
def orderlyReplay (E : Deps) : PRepInfo → Int → List Event → Bool
  | _, _, [] => true
  | p, last, Event.enable target status :: es =>
    orderlyReplay E (p.SetStatus E target status) last es
  | p, last, Event.vote vType votes offset :: es =>
    decide (last ≤ offset) && decide (offset ≤ p.offsetLimit) &&
      votesKeepStake E vType offset p votes &&
      orderlyReplay E (p.ApplyVote E vType votes offset) offset es

/-- The invariant of the replay, for `r` remaining offsets: every known prep has
non-negative stake and power, and the accumulators of a prep ranked inside the elected
window are at least its voted value and its power, held for the `r` offsets that remain. -/
def PRepInfo.accumInv (p : PRepInfo) (r : Int) : Prop :=
  ∀ (key : List Nat) (x : PRep), p.GetPRep key = some x →
    0 ≤ x.bonded ∧ 0 ≤ x.delegated ∧ 0 ≤ x.power ∧
    (x.rank < p.electedPRepCount →
      x.GetVotedValue * r ≤ x.accumulatedVoted ∧ x.power * r ≤ x.accumulatedPower)

/-- The state that `loadPRepInfo` builds: one `Add` per record, `Sort`, `InitAccumulated`. -/
def loadPRepInfo (E : Deps) (bondRequirement electedPRepCount offsetLimit : Int)
    (calls : List AddCall) : PRepInfo :=
  ((NewPRepInfo bondRequirement electedPRepCount offsetLimit).addAll E
    calls).Sort_.InitAccumulated

/-- The five records that `TestPRepInfo` adds. -/
def testAddCalls : List AddCall :=
  [ { target := hx 1, status := EnableStatus.ESEnable, delegated := 1000, bonded := 100,
      commissionRate := 100, pubkey := true },
    { target := hx 2, status := EnableStatus.ESJail, delegated := 2000, bonded := 200,
      commissionRate := 200, pubkey := true },
    { target := hx 3, status := EnableStatus.ESUnjail, delegated := 3000, bonded := 300,
      commissionRate := 300, pubkey := true },
    { target := hx 4, status := EnableStatus.ESEnable, delegated := 4000, bonded := 40,
      commissionRate := 400, pubkey := true },
    { target := hx 5, status := EnableStatus.ESUnjail, delegated := 5000, bonded := 50,
      commissionRate := 500, pubkey := true } ]

/-- The three vote events and the five status events of `TestPRepInfo`. -/
def testEvents : List Event :=
  [ Event.vote VoteType.vtDelegate [(hx 1, 1000), (hx 2, 2000), (hx 3, 3000), (hx 6, 6000)] 10,
    Event.vote VoteType.vtBond [(hx 1, 100), (hx 2, 200), (hx 3, 300)] 30,
    Event.vote VoteType.vtDelegate
      [(hx 1, -1000), (hx 2, -2000), (hx 3, -3000), (hx 5, -3000)] 80,
    Event.enable (hx 3) EnableStatus.ESEnable,
    Event.enable (hx 5) EnableStatus.ESJail,
    Event.enable (hx 4) EnableStatus.ESJail,
    Event.enable (hx 6) EnableStatus.ESEnable,
    Event.enable (hx 7) EnableStatus.ESEnable ]

/-- A power function that is non-negative everywhere but not 0 for zero stake: 5 for a
voted value of 0 and 0 otherwise. -/
def oddPowerDeps : Deps :=
  { goloop with CalcPower := fun _ _ voted => if voted = 0 then 5 else 0 }

/-! ## The snapshot record, equality of records and the phases of a term -/

/-- Modelled from the spec: `icreward.Voted` is declared outside `src/`. It is the record
of one representative in the snapshot: the four values that the write-back stores and
that `loadPRepInfo` reads back, with the bonded delegation that `TestPRep_ToVoted`
inspects. The version tag of the record is a constant of that package and is left out. -/
structure Voted where
  status : EnableStatus
  delegated : Int
  bonded : Int
  bondedDelegation : Int
  commissionRate : Int
  deriving DecidableEq

/-- `ToVoted`: the record made by `icreward.NewVotedV2` (zero bonded delegation) on which
the four setters are called; the status `ESEnableAtNextTerm` is stored as `ESEnable`. -/
def PRep.ToVoted (p : PRep) : Voted :=
  { status :=
      if p.status = EnableStatus.ESEnableAtNextTerm then EnableStatus.ESEnable else p.status
    bonded := p.bonded
    delegated := p.delegated
    bondedDelegation := 0
    commissionRate := p.commissionRate }

/-- `Equal` compares every field; `owner.Equal` compares the bytes of the addresses. -/
def PRep.Equal (p p1 : PRep) : Bool :=
  p.status == p1.status &&
  bigCmp p.delegated p1.delegated == 0 &&
  bigCmp p.bonded p1.bonded == 0 &&
  p.commissionRate == p1.commissionRate &&
  p.owner == p1.owner &&
  bigCmp p.power p1.power == 0 &&
  p.pubkey == p1.pubkey &&
  p.rank == p1.rank &&
  bigCmp p.accumulatedVoted p1.accumulatedVoted == 0 &&
  bigCmp p.accumulatedPower p1.accumulatedPower == 0 &&
  bigCmp p.commission p1.commission == 0 &&
  bigCmp p.voterReward p1.voterReward == 0 &&
  bigCmp p.wage p1.wage == 0

/-- The phases that `iiss4Reward.Calculate` calls, in the order of its text. -/
inductive Phase where
  | processClaim
  | loadPRepInfo
  | processEvents
  | processPrepReward
  | processVoterReward
  | processBTP
  | processCommissionRate
  deriving DecidableEq

/-- Modelled from the spec: the phases read and write stores that are declared outside
`src/` (and `processClaim`, `processBTP`, `processCommissionRate` are themselves outside
it), so each phase is taken as a function from the state of the calculation to the state
it leaves and the error it returns, `none` for `nil`; `GetElectedPRepCount` reads the
global elected-representative count `r.g.GetElectedPRepCount()` in a state. -/
structure Phases (σ ε : Type) where
  run : Phase → σ → σ × Option ε
  GetElectedPRepCount : σ → Int

/-- `Calculate` of `iiss4Reward`: the state it leaves and the error it returns. -/
def iiss4Reward.Calculate {σ ε : Type} (P : Phases σ ε) (r : σ) : σ × Option ε :=
  match P.run Phase.processClaim r with
  | (r, some err) => (r, some err)
  | (r, none) =>
    match P.run Phase.loadPRepInfo r with
    | (r, some err) => (r, some err)
    | (r, none) =>
      match P.run Phase.processEvents r with
      | (r, some err) => (r, some err)
      | (r, none) =>
        match (if P.GetElectedPRepCount r = 0 then (r, none)
          else
            match P.run Phase.processPrepReward r with
            | (r, some err) => (r, some err)
            | (r, none) => P.run Phase.processVoterReward r) with
        | (r, some err) => (r, some err)
        | (r, none) =>
          match P.run Phase.processBTP r with
          | (r, some err) => (r, some err)
          | (r, none) => P.run Phase.processCommissionRate r

/-- The phases of a list run in order up to the first one that returns an error: the
phases that were run, the state that is left and the error, `none` when every phase of
the list succeeded. -/
def runInOrder {σ ε : Type} (P : Phases σ ε) : List Phase → σ → List Phase × σ × Option ε
  | [], r => ([], r, none)
  | f :: fs, r =>
    match P.run f r with
    | (r1, some err) => ([f], r1, some err)
    | (r1, none) => (f :: (runInOrder P fs r1).1, (runInOrder P fs r1).2)

/-- The state after the phases of a list have run one after the other. -/
def stateAfter {σ ε : Type} (P : Phases σ ε) : List Phase → σ → σ
  | [], r => r
  | f :: fs, r => stateAfter P fs (P.run f r).1

/-- Every phase of the list, run one after the other, returns no error. -/
def allSucceed {σ ε : Type} (P : Phases σ ε) : List Phase → σ → Prop
  | [], _ => True
  | f :: fs, r => (P.run f r).2 = none ∧ allSucceed P fs (P.run f r).1

/-- The phases that `Calculate` is to run when the elected count it reads is `count`. -/
def scheduledPhases (count : Int) : List Phase :=
  [Phase.processClaim, Phase.loadPRepInfo, Phase.processEvents] ++
  (if count = 0 then [] else [Phase.processPrepReward, Phase.processVoterReward]) ++
  [Phase.processBTP, Phase.processCommissionRate]

/-- The same phases, each one recording its call in a log kept next to the state. -/
def Phases.traced {σ ε : Type} (P : Phases σ ε) : Phases (σ × List Phase) ε :=
  { run := fun f s => (((P.run f s.1).1, s.2 ++ [f]), (P.run f s.1).2)
    GetElectedPRepCount := fun s => P.GetElectedPRepCount s.1 }

/-- The phases that a call of `Calculate` runs, in the order of the calls. -/
def iiss4Reward.executed {σ ε : Type} (P : Phases σ ε) (r : σ) : List Phase :=
  (iiss4Reward.Calculate P.traced (r, [])).1.2

/-- The integral of the power over the term: `power` is held from `held` remaining offsets
on; a call `(power1, r)` ends that stretch at `r` remaining offsets and leaves the power
`power1`; the last power is held for all the offsets that remain. -/
def powerIntegral (power : Int) (held : Int) : List (Int × Int) → Int
  | [] => power * held
  | (power1, r) :: rest => power * (held - r) + powerIntegral power1 r rest

/-- The power after each call of a sequence of `PRep.ApplyVote` calls, with the remaining
offsets of the call. -/
def powerTrace (E : Deps) (p : PRep) : List VoteCall → List (Int × Int)
  | [] => []
  | v :: vs =>
    ((p.ApplyVote E v.vType v.amount v.period v.bondRequirement).power, v.period) ::
      powerTrace E (p.ApplyVote E v.vType v.amount v.period v.bondRequirement) vs

/-- The remaining offsets do not increase from `held` on and do not go below zero, and
every power of the trace is non-negative. -/
def orderlyTrace (held : Int) : List (Int × Int) → Bool
  | [] => decide (0 ≤ held)
  | (power1, r) :: rest => decide (r ≤ held) && decide (0 ≤ power1) && orderlyTrace r rest

/-- The stored power of a PRep is the power of its stored stake under `br`. -/
def PRep.powerCurrent (E : Deps) (br : Int) (q : PRep) : Prop :=
  q.power = E.CalcPower br q.bonded (q.delegated + q.bonded)

/-- What an event leaves alone in a PRep: `y` has the rank, owner, public-key flag,
commission rate and reward fields of `x`. -/
def PRep.eventFrame (x y : PRep) : Prop :=
  y.rank = x.rank ∧ y.owner = x.owner ∧ y.pubkey = x.pubkey ∧
  y.commissionRate = x.commissionRate ∧ y.commission = x.commission ∧
  y.voterReward = x.voterReward ∧ y.wage = x.wage

/-- The phases that a call of `Calculate` on `r` is to run: the elected count is read in
the state that the first three phases leave. -/
def iiss4Reward.schedule {σ ε : Type} (P : Phases σ ε) (r : σ) : List Phase :=
  scheduledPhases (P.GetElectedPRepCount
    (stateAfter P [Phase.processClaim, Phase.loadPRepInfo, Phase.processEvents] r))

/-- Test phases on a call counter: each phase adds one to the counter, the phase `bad`
fails with its own name as the error and every other phase succeeds; the elected count
is `count`. -/
def testPhases (bad : Option Phase) (count : Int) : Phases Nat Phase :=
  { run := fun f s => (s + 1, if some f = bad then some f else none)
    GetElectedPRepCount := fun _ => count }

/-- The PRep of `TestPRep_InitAccumulated`: bond 100, delegation 50, power updated under a
bond requirement of 5%. -/
def testSeededPRep : PRep :=
  (newTestPRep (hx 1) EnableStatus.ESEnable 100 50 true 0).UpdatePower goloop 500

/-- Three calls of `PRep.ApplyVote` at 80, 60 and 10 remaining offsets: a bond of 20, a
delegation of 0, which leaves the power as it is, and a withdrawal of 50. -/
def testVoteCalls : List VoteCall :=
  [ { vType := VoteType.vtBond, amount := 20, period := 80, bondRequirement := 500 },
    { vType := VoteType.vtDelegate, amount := 0, period := 60, bondRequirement := 500 },
    { vType := VoteType.vtDelegate, amount := -50, period := 10, bondRequirement := 500 } ]

/-! ## States at the ends of the `int` range -/

/-- The five records of `TestPRepInfo` added to a `PRepInfo` whose offset limit is
`2^63 - 1`, the largest `int`. -/
def maxOffsetInfo : PRepInfo :=
  (NewPRepInfo 500 4 (2 ^ 63 - 1)).addAll goloop testAddCalls

/-- The five records of `TestPRepInfo` added to a `PRepInfo` whose offset limit is
`-2^63`, the smallest `int`. -/
def minOffsetInfo : PRepInfo :=
  (NewPRepInfo 500 4 (-2 ^ 63)).addAll goloop testAddCalls

/-! ## Copies of a record -/

/-- `Clone`: a new PRep with the twelve fields that the source copies; `rank` is not
among them and keeps the zero value of a new struct. -/
def PRep.Clone (p : PRep) : PRep :=
  { owner := p.owner
    status := p.status
    delegated := p.delegated
    bonded := p.bonded
    commissionRate := p.commissionRate
    pubkey := p.pubkey
    power := p.power
    accumulatedVoted := p.accumulatedVoted
    accumulatedPower := p.accumulatedPower
    commission := p.commission
    voterReward := p.voterReward
    wage := p.wage
    rank := 0 }

/-! ## Comparisons -/

theorem bigCmp_ne_zero_iff (x y : Int) : bigCmp x y ≠ 0 ↔ x ≠ y := by
  unfold bigCmp; split_ifs <;> omega

theorem bigCmp_eq_one_iff (x y : Int) : bigCmp x y = 1 ↔ y < x := by
  unfold bigCmp
  split_ifs with h1 h2
  · constructor <;> intro h <;> first | exact h.elim | omega
  · constructor <;> intro h <;> first | exact h.elim | omega
  · constructor <;> intro h <;> first | exact h.elim | omega

theorem bigCmp_nonneg_iff (x y : Int) : 0 ≤ bigCmp x y ↔ y ≤ x := by
  unfold bigCmp; split_ifs <;> omega

theorem bytesCompare_pos_iff (a b : List Nat) :
    0 < bytesCompare a b ↔ List.Lex (fun x y => x < y) b a := by
  induction a generalizing b with
  | nil =>
    cases b with
    | nil => simp [bytesCompare]
    | cons y ys => simp [bytesCompare]
  | cons x xs ih =>
    cases b with
    | nil => simp [bytesCompare, List.Lex.nil]
    | cons y ys =>
      simp only [bytesCompare]
      rcases Nat.lt_trichotomy x y with hxy | hxy | hxy
      · rw [if_pos hxy]
        constructor
        · intro h; omega
        · intro h
          cases h with
          | cons _ => omega
          | rel h1 => omega
      · subst hxy
        rw [if_neg (lt_irrefl x), if_neg (lt_irrefl x), ih]
        constructor
        · intro h; exact List.Lex.cons h
        · intro h
          cases h with
          | cons h1 => exact h1
          | rel h1 => exact absurd h1 (lt_irrefl x)
      · rw [if_neg (by omega), if_pos hxy]
        constructor
        · intro _; exact List.Lex.rel hxy
        · intro _; omega

theorem lex_irrefl (a : List Nat) : ¬ List.Lex (fun x y => x < y) a a := by
  induction a with
  | nil => intro h; cases h
  | cons x xs ih =>
    intro h
    cases h with
    | cons h1 => exact ih h1
    | rel h1 => exact absurd h1 (lt_irrefl x)

theorem lex_trichotomy (a b : List Nat) (hne : a ≠ b) :
    List.Lex (fun x y => x < y) a b ∨ List.Lex (fun x y => x < y) b a := by
  induction a generalizing b with
  | nil =>
    cases b with
    | nil => exact absurd rfl hne
    | cons y ys => exact Or.inl List.Lex.nil
  | cons x xs ih =>
    cases b with
    | nil => exact Or.inr List.Lex.nil
    | cons y ys =>
      rcases Nat.lt_trichotomy x y with h | h | h
      · exact Or.inl (List.Lex.rel h)
      · subst h
        have hne2 : xs ≠ ys := fun e => hne (by rw [e])
        rcases ih ys hne2 with h1 | h1
        · exact Or.inl (List.Lex.cons h1)
        · exact Or.inr (List.Lex.cons h1)
      · exact Or.inr (List.Lex.rel h)

theorem lex_trans (a b c : List Nat) (h1 : List.Lex (fun x y => x < y) a b)
    (h2 : List.Lex (fun x y => x < y) b c) : List.Lex (fun x y => x < y) a c := by
  induction h1 generalizing c with
  | nil =>
    cases h2 with
    | cons _ => exact List.Lex.nil
    | rel _ => exact List.Lex.nil
  | cons _ ih =>
    cases h2 with
    | cons h => exact List.Lex.cons (ih _ h)
    | rel h => exact List.Lex.rel h
  | rel h =>
    cases h2 with
    | cons _ => exact List.Lex.rel h
    | rel h3 => exact List.Lex.rel (lt_trans h h3)

theorem lex_asymm (a b : List Nat) (h1 : List.Lex (fun x y => x < y) a b)
    (h2 : List.Lex (fun x y => x < y) b a) : False :=
  lex_irrefl a (lex_trans a b a h1 h2)

theorem Bigger_iff_spec (p q : PRep) : p.Bigger q = true ↔ BiggerSpec p q := by
  unfold PRep.Bigger BiggerSpec
  by_cases he : p.IsElectable = q.IsElectable
  · rw [if_neg (by simpa using he)]
    rcases lt_trichotomy p.power q.power with hp | hp | hp
    · have h0 : bigCmp p.power q.power = -1 := by unfold bigCmp; rw [if_pos hp]
      simp only [h0]
      constructor
      · intro h; simp at h
      · rintro (⟨h1, h2⟩ | ⟨_, h⟩ | ⟨_, h, _⟩ | ⟨_, h, _⟩)
        · rw [h1, h2] at he; exact absurd he (by decide)
        · omega
        · omega
        · omega
    · have h0 : bigCmp p.power q.power = 0 := by
        unfold bigCmp; rw [if_neg (by omega), if_pos hp]
      simp only [h0, ne_eq, not_true_eq_false, if_false]
      rcases lt_trichotomy p.delegated q.delegated with hd | hd | hd
      · have h1 : bigCmp p.delegated q.delegated = -1 := by unfold bigCmp; rw [if_pos hd]
        simp only [h1]
        constructor
        · intro h; simp at h
        · rintro (⟨h1, h2⟩ | ⟨_, h⟩ | ⟨_, _, h⟩ | ⟨_, _, h, _⟩)
          · rw [h1, h2] at he; exact absurd he (by decide)
          · omega
          · omega
          · omega
      · have h1 : bigCmp p.delegated q.delegated = 0 := by
          unfold bigCmp; rw [if_neg (by omega), if_pos hd]
        simp only [h1, not_true_eq_false, if_false, decide_eq_true_eq, bytesCompare_pos_iff]
        constructor
        · intro h; exact Or.inr (Or.inr (Or.inr ⟨he, hp, hd, h⟩))
        · rintro (⟨h1, h2⟩ | ⟨_, h⟩ | ⟨_, _, h⟩ | ⟨_, _, _, h⟩)
          · rw [h1, h2] at he; exact absurd he (by decide)
          · omega
          · omega
          · exact h
      · have h1 : bigCmp p.delegated q.delegated = 1 := by
          unfold bigCmp; rw [if_neg (by omega), if_neg (by omega)]
        simp only [h1]
        constructor
        · intro _; exact Or.inr (Or.inr (Or.inl ⟨he, hp, hd⟩))
        · intro _; simp
    · have h0 : bigCmp p.power q.power = 1 := by
        unfold bigCmp; rw [if_neg (by omega), if_neg (by omega)]
      simp only [h0]
      constructor
      · intro _; exact Or.inr (Or.inl ⟨he, hp⟩)
      · intro _; simp
  · rw [if_pos (by simpa using he)]
    constructor
    · intro h
      refine Or.inl ⟨h, ?_⟩
      cases hq : q.IsElectable
      · rfl
      · rw [h, hq] at he; exact absurd rfl he
    · rintro (⟨h1, _⟩ | ⟨h, _⟩ | ⟨h, _⟩ | ⟨h, _⟩)
      · exact h1
      · exact absurd h he
      · exact absurd h he
      · exact absurd h he

theorem BiggerSpec_irrefl (a : PRep) : ¬ BiggerSpec a a := by
  rintro (⟨h1, h2⟩ | ⟨_, h⟩ | ⟨_, _, h⟩ | ⟨_, _, _, h⟩)
  · rw [h1] at h2; exact absurd h2 (by decide)
  · omega
  · omega
  · exact lex_irrefl _ h

theorem BiggerSpec_total (a b : PRep) (hne : a.owner ≠ b.owner) :
    BiggerSpec a b ∨ BiggerSpec b a := by
  unfold BiggerSpec
  by_cases he : a.IsElectable = b.IsElectable
  · rcases lt_trichotomy a.power b.power with hp | hp | hp
    · exact Or.inr (Or.inr (Or.inl ⟨he.symm, hp⟩))
    · rcases lt_trichotomy a.delegated b.delegated with hd | hd | hd
      · exact Or.inr (Or.inr (Or.inr (Or.inl ⟨he.symm, hp.symm, hd⟩)))
      · rcases lex_trichotomy a.owner b.owner hne with ho | ho
        · exact Or.inr (Or.inr (Or.inr (Or.inr ⟨he.symm, hp.symm, hd.symm, ho⟩)))
        · exact Or.inl (Or.inr (Or.inr (Or.inr ⟨he, hp, hd, ho⟩)))
      · exact Or.inl (Or.inr (Or.inr (Or.inl ⟨he, hp, hd⟩)))
    · exact Or.inl (Or.inr (Or.inl ⟨he, hp⟩))
  · cases ha : a.IsElectable <;> cases hb : b.IsElectable
    · rw [ha, hb] at he; exact absurd rfl he
    · exact Or.inr (Or.inl ⟨rfl, rfl⟩)
    · exact Or.inl (Or.inl ⟨rfl, rfl⟩)
    · rw [ha, hb] at he; exact absurd rfl he

theorem BiggerSpec_trans (a b c : PRep) (h1 : BiggerSpec a b) (h2 : BiggerSpec b c) :
    BiggerSpec a c := by
  unfold BiggerSpec at *
  rcases h1 with ⟨e1, e2⟩ | ⟨e1, w1⟩ | ⟨e1, w1, d1⟩ | ⟨e1, w1, d1, o1⟩ <;>
  rcases h2 with ⟨f1, f2⟩ | ⟨f1, w2⟩ | ⟨f1, w2, d2⟩ | ⟨f1, w2, d2, o2⟩
  · rw [e2] at f1; exact absurd f1 (by decide)
  · exact Or.inl ⟨e1, by rw [← f1]; exact e2⟩
  · exact Or.inl ⟨e1, by rw [← f1]; exact e2⟩
  · exact Or.inl ⟨e1, by rw [← f1]; exact e2⟩
  · exact Or.inl ⟨by rw [e1]; exact f1, f2⟩
  · exact Or.inr (Or.inl ⟨e1.trans f1, by omega⟩)
  · exact Or.inr (Or.inl ⟨e1.trans f1, by omega⟩)
  · exact Or.inr (Or.inl ⟨e1.trans f1, by omega⟩)
  · exact Or.inl ⟨by rw [e1]; exact f1, f2⟩
  · exact Or.inr (Or.inl ⟨e1.trans f1, by omega⟩)
  · exact Or.inr (Or.inr (Or.inl ⟨e1.trans f1, by omega, by omega⟩))
  · exact Or.inr (Or.inr (Or.inl ⟨e1.trans f1, by omega, by omega⟩))
  · exact Or.inl ⟨by rw [e1]; exact f1, f2⟩
  · exact Or.inr (Or.inl ⟨e1.trans f1, by omega⟩)
  · exact Or.inr (Or.inr (Or.inl ⟨e1.trans f1, by omega, by omega⟩))
  · exact Or.inr (Or.inr (Or.inr ⟨e1.trans f1, by omega, by omega, lex_trans _ _ _ o2 o1⟩))

theorem Bigger_irrefl (a : PRep) : a.Bigger a = false := by
  cases h : a.Bigger a
  · rfl
  · exact absurd ((Bigger_iff_spec a a).1 h) (BiggerSpec_irrefl a)

theorem Bigger_trans (a b c : PRep) (h1 : a.Bigger b = true) (h2 : b.Bigger c = true) :
    a.Bigger c = true :=
  (Bigger_iff_spec a c).2
    (BiggerSpec_trans a b c ((Bigger_iff_spec a b).1 h1) ((Bigger_iff_spec b c).1 h2))

theorem Bigger_asymm (a b : PRep) (h1 : a.Bigger b = true) : b.Bigger a = false := by
  cases h : b.Bigger a
  · rfl
  · have := Bigger_trans a b a h1 h
    rw [Bigger_irrefl] at this
    exact absurd this (by decide)

theorem Bigger_total (a b : PRep) (hne : a.owner ≠ b.owner) :
    a.Bigger b = true ∨ b.Bigger a = true := by
  rcases BiggerSpec_total a b hne with h | h
  · exact Or.inl ((Bigger_iff_spec a b).2 h)
  · exact Or.inr ((Bigger_iff_spec b a).2 h)

/-- C6: `PRep.Bigger` is the strict lexicographic comparison on electability, power,
delegated and owner bytes; two representatives that differ only by address are ordered
with the lexicographically larger address first; the six cases of `TestPRep_Bigger` with
a bond requirement of 5% come out as the test expects. -/
theorem Bigger_lexicographic :
    (∀ p q : PRep, p.Bigger q = true ↔
      ((p.IsElectable = true ∧ q.IsElectable = false) ∨
       (p.IsElectable = q.IsElectable ∧ q.power < p.power) ∨
       (p.IsElectable = q.IsElectable ∧ p.power = q.power ∧ q.delegated < p.delegated) ∨
       (p.IsElectable = q.IsElectable ∧ p.power = q.power ∧ p.delegated = q.delegated ∧
         List.Lex (fun x y => x < y) q.owner p.owner))) ∧
    (∀ (p : PRep) (addr : List Nat),
      ({ p with owner := addr } : PRep).Bigger p = true ↔
        List.Lex (fun x y => x < y) p.owner addr) ∧
    (let br : Int := 500
     let t := fun (a b : PRep) => (a.UpdatePower goloop br).Bigger (b.UpdatePower goloop br)
     t (newTestPRep (hx 1) EnableStatus.ESEnable 100 0 true 0)
       (newTestPRep (hx 2) EnableStatus.ESEnable 100 0 true 0) = false ∧
     t (newTestPRep (hx 1) EnableStatus.ESEnable 99 1 true 0)
       (newTestPRep (hx 1) EnableStatus.ESEnable 100 0 true 0) = true ∧
     t (newTestPRep (hx 1) EnableStatus.ESEnable 99 1 true 0)
       (newTestPRep (hx 1) EnableStatus.ESEnable 100 1 true 0) = false ∧
     t (newTestPRep (hx 1) EnableStatus.ESEnable 100 0 false 0)
       (newTestPRep (hx 1) EnableStatus.ESEnable 100 0 true 0) = false ∧
     t (newTestPRep (hx 1) EnableStatus.ESEnable 100 1 true 0)
       (newTestPRep (hx 1) EnableStatus.ESJail 100 1 true 0) = true ∧
     t (newTestPRep (hx 1) EnableStatus.ESEnable 99 1 true 0)
       (newTestPRep (hx 1) EnableStatus.ESUnjail 100 1 true 0) = false) := by
  refine ⟨fun p q => Bigger_iff_spec p q, ?_, by decide⟩
  intro p addr
  rw [Bigger_iff_spec]
  unfold BiggerSpec
  have he : ({ p with owner := addr } : PRep).IsElectable = p.IsElectable := rfl
  constructor
  · rintro (⟨h1, h2⟩ | ⟨_, h⟩ | ⟨_, _, h⟩ | ⟨_, _, _, h⟩)
    · rw [he, h2] at h1; exact absurd h1 (by decide)
    · exact absurd h (lt_irrefl _)
    · exact absurd h (lt_irrefl _)
    · exact h
  · intro h
    exact Or.inr (Or.inr (Or.inr ⟨he, rfl, rfl, h⟩))

/-- C7: on representatives with pairwise distinct owner bytes `PRep.Bigger` is a strict
total order: it is irreflexive, exactly one of `a.Bigger(b)` and `b.Bigger(a)` holds, and
it is transitive (irreflexivity and transitivity need no assumption on the addresses). -/
theorem Bigger_strict_total_order (a b c : PRep) (hab : a.owner ≠ b.owner) :
    a.Bigger a = false ∧
    ((a.Bigger b = true ∧ b.Bigger a = false) ∨ (a.Bigger b = false ∧ b.Bigger a = true)) ∧
    (a.Bigger b = true → b.Bigger c = true → a.Bigger c = true) := by
  refine ⟨Bigger_irrefl a, ?_, Bigger_trans a b c⟩
  rcases Bigger_total a b hab with h | h
  · exact Or.inl ⟨h, Bigger_asymm a b h⟩
  · exact Or.inr ⟨Bigger_asymm b a h, h⟩

theorem Bigger_strict_total_order_witness :
    (testPRepInfo.heap.deref 0).owner ≠ (testPRepInfo.heap.deref 1).owner ∧
    ((testPRepInfo.heap.deref 0).Bigger (testPRepInfo.heap.deref 0) = false ∧
     (((testPRepInfo.heap.deref 0).Bigger (testPRepInfo.heap.deref 1) = true ∧
        (testPRepInfo.heap.deref 1).Bigger (testPRepInfo.heap.deref 0) = false) ∨
      ((testPRepInfo.heap.deref 0).Bigger (testPRepInfo.heap.deref 1) = false ∧
        (testPRepInfo.heap.deref 1).Bigger (testPRepInfo.heap.deref 0) = true)) ∧
     ((testPRepInfo.heap.deref 0).Bigger (testPRepInfo.heap.deref 1) = true →
      (testPRepInfo.heap.deref 1).Bigger (testPRepInfo.heap.deref 2) = true →
      (testPRepInfo.heap.deref 0).Bigger (testPRepInfo.heap.deref 2) = true)) :=
  ⟨by decide,
    Bigger_strict_total_order (testPRepInfo.heap.deref 0) (testPRepInfo.heap.deref 1)
      (testPRepInfo.heap.deref 2) (by decide)⟩

/-- C1: `PRep.ApplyVote(vType, amount, period, br)` adds `amount` to `bonded` for a bond
vote and to `delegated` otherwise and leaves the other stake field alone, adds
`amount * period` to `accumulatedVoted`, sets `power` to `CalcPower(br, bonded,
delegated + bonded)` of the new stake, adds `(power' - power) * period` to
`accumulatedPower`, and keeps status, commission rate, owner, pubkey, rank, commission,
voter reward and wage; the first case of `TestPRep_ApplyVote` gives bonded 120,
accumulated voted 4000 and accumulated power 24000. -/
theorem ApplyVote_post :
    (∀ (E : Deps) (p : PRep) (vType : VoteType) (amount period br : Int),
      (p.ApplyVote E vType amount period br).bonded =
        (if vType = VoteType.vtBond then p.bonded + amount else p.bonded) ∧
      (p.ApplyVote E vType amount period br).delegated =
        (if vType = VoteType.vtBond then p.delegated else p.delegated + amount) ∧
      (p.ApplyVote E vType amount period br).accumulatedVoted =
        p.accumulatedVoted + amount * period ∧
      (p.ApplyVote E vType amount period br).power =
        E.CalcPower br (p.ApplyVote E vType amount period br).bonded
          ((p.ApplyVote E vType amount period br).delegated +
            (p.ApplyVote E vType amount period br).bonded) ∧
      (p.ApplyVote E vType amount period br).accumulatedPower =
        p.accumulatedPower + ((p.ApplyVote E vType amount period br).power - p.power) * period ∧
      (p.ApplyVote E vType amount period br).status = p.status ∧
      (p.ApplyVote E vType amount period br).commissionRate = p.commissionRate ∧
      (p.ApplyVote E vType amount period br).owner = p.owner ∧
      (p.ApplyVote E vType amount period br).pubkey = p.pubkey ∧
      (p.ApplyVote E vType amount period br).rank = p.rank ∧
      (p.ApplyVote E vType amount period br).commission = p.commission ∧
      (p.ApplyVote E vType amount period br).voterReward = p.voterReward ∧
      (p.ApplyVote E vType amount period br).wage = p.wage) ∧
    ((newTestPRep (hx 1) EnableStatus.ESEnable 100 0 true 0).power = 0 ∧
     ((newTestPRep (hx 1) EnableStatus.ESEnable 100 0 true 0).ApplyVote goloop
        VoteType.vtBond 20 200 100).bonded = 120 ∧
     ((newTestPRep (hx 1) EnableStatus.ESEnable 100 0 true 0).ApplyVote goloop
        VoteType.vtBond 20 200 100).accumulatedVoted = 4000 ∧
     ((newTestPRep (hx 1) EnableStatus.ESEnable 100 0 true 0).ApplyVote goloop
        VoteType.vtBond 20 200 100).accumulatedPower = 24000) := by
  refine ⟨?_, by decide⟩
  intro E p vType amount period br
  unfold PRep.ApplyVote
  simp only [bigCmp_ne_zero_iff]
  by_cases hv : vType = VoteType.vtBond
  · simp only [hv, if_true]
    split_ifs with hpow
    · simp [PRep.calcPower, PRep.GetVotedValue]
    · have hpow2 := not_not.1 hpow
      simp only [PRep.calcPower, PRep.GetVotedValue] at hpow2
      simp [← hpow2]
  · simp only [hv, if_false]
    split_ifs with hpow
    · simp [PRep.calcPower, PRep.GetVotedValue]
    · have hpow2 := not_not.1 hpow
      simp only [PRep.calcPower, PRep.GetVotedValue] at hpow2
      simp [← hpow2]

/-- C10: `PRep.InitAccumulated(termPeriod)` overwrites `accumulatedVoted` with
`(delegated + bonded) * termPeriod` and `accumulatedPower` with `power * termPeriod`,
whatever they held before, and changes no other field; with bond 100, delegate 50,
power 150 and term period 100 both accumulators become 15000. -/
theorem InitAccumulated_post :
    (∀ (p : PRep) (termPeriod : Int),
      (p.InitAccumulated termPeriod).accumulatedVoted = (p.delegated + p.bonded) * termPeriod ∧
      (p.InitAccumulated termPeriod).accumulatedPower = p.power * termPeriod ∧
      p.InitAccumulated termPeriod =
        { p with accumulatedVoted := (p.InitAccumulated termPeriod).accumulatedVoted
                 accumulatedPower := (p.InitAccumulated termPeriod).accumulatedPower } ∧
      (p.InitAccumulated termPeriod).status = p.status ∧
      (p.InitAccumulated termPeriod).delegated = p.delegated ∧
      (p.InitAccumulated termPeriod).bonded = p.bonded ∧
      (p.InitAccumulated termPeriod).commissionRate = p.commissionRate ∧
      (p.InitAccumulated termPeriod).power = p.power ∧
      (p.InitAccumulated termPeriod).rank = p.rank ∧
      (p.InitAccumulated termPeriod).commission = p.commission ∧
      (p.InitAccumulated termPeriod).voterReward = p.voterReward ∧
      (p.InitAccumulated termPeriod).wage = p.wage) ∧
    (((newTestPRep (hx 1) EnableStatus.ESEnable 100 50 true 0).UpdatePower goloop 500).power
        = 150 ∧
     (((newTestPRep (hx 1) EnableStatus.ESEnable 100 50 true 0).UpdatePower goloop
        500).InitAccumulated 100).accumulatedVoted = 15000 ∧
     (((newTestPRep (hx 1) EnableStatus.ESEnable 100 50 true 0).UpdatePower goloop
        500).InitAccumulated 100).accumulatedPower = 15000) := by
  refine ⟨?_, by decide⟩
  intro p termPeriod
  simp [PRep.InitAccumulated, PRep.GetVotedValue]

/-- C3: for a PRep whose reward fields are zero, a positive `totalAccumulatedPower` and
non-negative `totalPRepReward` and `accumulatedPower`, `PRep.CalculateReward` returns;
`share` is the floor of `totalPRepReward * accumulatedPower / totalAccumulatedPower`
(one division of the product, which here is also the truncated quotient), `commission`
is `share * commissionRate` divided by the rate denominator with truncation,
`voterReward = share - commission`, `wage` is `minWage` when `bonded >= minBond` and 0
otherwise, `GetReward` is `commission + wage`, and no other field changes. -/
theorem CalculateReward_post (E : Deps) (p : PRep)
    (totalPRepReward totalAccumulatedPower minBond minWage : Int)
    (hzero : p.commission = 0 ∧ p.voterReward = 0 ∧ p.wage = 0)
    (htot : 0 < totalAccumulatedPower) (hrew : 0 ≤ totalPRepReward)
    (hacc : 0 ≤ p.accumulatedPower) :
    ∃ q : PRep, p.CalculateReward E totalPRepReward totalAccumulatedPower minBond minWage
        = some q ∧
      (∃ share : Int,
        share * totalAccumulatedPower ≤ totalPRepReward * p.accumulatedPower ∧
        totalPRepReward * p.accumulatedPower < (share + 1) * totalAccumulatedPower ∧
        share = Int.tdiv (totalPRepReward * p.accumulatedPower) totalAccumulatedPower ∧
        q.commission = Int.tdiv (share * p.commissionRate) E.DenomInRate ∧
        q.voterReward = share - q.commission ∧
        q.commission + q.voterReward = share) ∧
      q.wage = (if minBond ≤ p.bonded then minWage else 0) ∧
      q.GetReward = q.commission + q.wage ∧
      q.delegated = p.delegated ∧ q.bonded = p.bonded ∧ q.power = p.power ∧
      q.rank = p.rank ∧ q.accumulatedVoted = p.accumulatedVoted ∧
      q.accumulatedPower = p.accumulatedPower ∧
      q = { p with commission := q.commission, voterReward := q.voterReward,
                   wage := q.wage } := by
  have hne : totalAccumulatedPower ≠ 0 := by omega
  have hshare : ∃ share : Int,
      share = totalPRepReward * p.accumulatedPower / totalAccumulatedPower ∧
      share * totalAccumulatedPower ≤ totalPRepReward * p.accumulatedPower ∧
      totalPRepReward * p.accumulatedPower < (share + 1) * totalAccumulatedPower ∧
      share = Int.tdiv (totalPRepReward * p.accumulatedPower) totalAccumulatedPower := by
    refine ⟨_, rfl, Int.ediv_mul_le _ hne, ?_, ?_⟩
    · have := Int.lt_ediv_add_one_mul_self (totalPRepReward * p.accumulatedPower) htot
      exact this
    · exact (Int.tdiv_eq_ediv (Int.mul_nonneg hrew hacc) (le_of_lt htot)).symm
  obtain ⟨share, hs, h1, h2, h3⟩ := hshare
  obtain ⟨hc, hv, hw⟩ := hzero
  unfold PRep.CalculateReward
  rw [if_neg hne]
  simp only [bigCmp_nonneg_iff, ← hs, Rate.MulBigInt]
  by_cases hb : minBond ≤ p.bonded
  · rw [if_pos hb]
    refine ⟨_, rfl, ⟨share, h1, h2, h3, rfl, rfl, by ring⟩, ?_⟩
    simp [hb, PRep.GetReward]
  · rw [if_neg hb]
    refine ⟨_, rfl, ⟨share, h1, h2, h3, rfl, rfl, by ring⟩, ?_⟩
    simp [hb, PRep.GetReward, hw]

theorem CalculateReward_post_witness :
    ((testPRepInfoReplayed.heap.deref 0).commission = 0 ∧
      (testPRepInfoReplayed.heap.deref 0).voterReward = 0 ∧
      (testPRepInfoReplayed.heap.deref 0).wage = 0) ∧
    ∃ q : PRep, (testPRepInfoReplayed.heap.deref 0).CalculateReward goloop 77932098 926200
        300 194830 = some q ∧
      (∃ share : Int,
        share * 926200 ≤ 77932098 * (testPRepInfoReplayed.heap.deref 0).accumulatedPower ∧
        77932098 * (testPRepInfoReplayed.heap.deref 0).accumulatedPower
          < (share + 1) * 926200 ∧
        share = Int.tdiv (77932098 * (testPRepInfoReplayed.heap.deref 0).accumulatedPower)
          926200 ∧
        q.commission = Int.tdiv (share * (testPRepInfoReplayed.heap.deref 0).commissionRate)
          goloop.DenomInRate ∧
        q.voterReward = share - q.commission ∧
        q.commission + q.voterReward = share) ∧
      q.wage = (if 300 ≤ (testPRepInfoReplayed.heap.deref 0).bonded then 194830 else 0) ∧
      q.GetReward = q.commission + q.wage ∧
      q.delegated = (testPRepInfoReplayed.heap.deref 0).delegated ∧
      q.bonded = (testPRepInfoReplayed.heap.deref 0).bonded ∧
      q.power = (testPRepInfoReplayed.heap.deref 0).power ∧
      q.rank = (testPRepInfoReplayed.heap.deref 0).rank ∧
      q.accumulatedVoted = (testPRepInfoReplayed.heap.deref 0).accumulatedVoted ∧
      q.accumulatedPower = (testPRepInfoReplayed.heap.deref 0).accumulatedPower ∧
      q = { testPRepInfoReplayed.heap.deref 0 with
            commission := q.commission, voterReward := q.voterReward, wage := q.wage } :=
  ⟨by decide,
    CalculateReward_post goloop (testPRepInfoReplayed.heap.deref 0) 77932098 926200 300
      194830 (by decide) (by decide) (by decide) (by decide)⟩

theorem ApplyVote_accumulatedVoted (E : Deps) (p : PRep) (vType : VoteType)
    (amount period br : Int) :
    (p.ApplyVote E vType amount period br).accumulatedVoted
      = p.accumulatedVoted + amount * period := by
  unfold PRep.ApplyVote
  by_cases hv : vType = VoteType.vtBond <;> simp only [hv, if_true, if_false] <;>
    split_ifs <;> rfl

theorem ApplyVote_GetVotedValue (E : Deps) (p : PRep) (vType : VoteType)
    (amount period br : Int) :
    (p.ApplyVote E vType amount period br).GetVotedValue = p.GetVotedValue + amount := by
  unfold PRep.ApplyVote
  by_cases hv : vType = VoteType.vtBond <;> simp only [hv, if_true, if_false] <;>
    split_ifs <;> simp only [PRep.GetVotedValue] <;> ring

theorem applyVotes_accumulatedVoted (E : Deps) (votes : List VoteCall) :
    ∀ (p : PRep) (held : Int),
      (applyVotes E p votes).accumulatedVoted + p.GetVotedValue * held
        = p.accumulatedVoted
          + naiveIntegral p.GetVotedValue held (votes.map (fun v => (v.amount, v.period))) := by
  induction votes with
  | nil => intro p held; simp [applyVotes, naiveIntegral]
  | cons v vs ih =>
    intro p held
    have h := ih (p.ApplyVote E v.vType v.amount v.period v.bondRequirement) v.period
    rw [ApplyVote_accumulatedVoted, ApplyVote_GetVotedValue] at h
    simp only [applyVotes, List.map_cons, naiveIntegral]
    linarith

/-- C2: the incremental accumulation equals the naive full-history integral. For a PRep
seeded by `InitAccumulated(T)` with voted value `V0 = delegated + bonded` and any sequence
of `ApplyVote` calls of either type with amounts `a_i` and remaining offsets `r_i` (the
order `T >= r_1 >= ... >= r_n >= 0` is not needed), the final `accumulatedVoted` is
`V0*(T - r_1) + sum of V_i*(r_i - r_(i+1)) + V_n*r_n`, which `naiveIntegral` computes;
the second part writes that sum out for two events. -/
theorem accumulatedVoted_eq_naiveIntegral :
    (∀ (E : Deps) (p : PRep) (T : Int) (votes : List VoteCall),
      (applyVotes E (p.InitAccumulated T) votes).accumulatedVoted
        = naiveIntegral (p.delegated + p.bonded) T
            (votes.map (fun v => (v.amount, v.period)))) ∧
    (∀ V0 T a1 r1 a2 r2 : Int,
      naiveIntegral V0 T [] = V0 * T ∧
      naiveIntegral V0 T [(a1, r1)] = V0 * (T - r1) + (V0 + a1) * r1 ∧
      naiveIntegral V0 T [(a1, r1), (a2, r2)]
        = V0 * (T - r1) + (V0 + a1) * (r1 - r2) + (V0 + a1 + a2) * r2) := by
  constructor
  · intro E p T votes
    have h := applyVotes_accumulatedVoted E votes (p.InitAccumulated T) T
    simp only [PRep.InitAccumulated, PRep.GetVotedValue] at h ⊢
    linarith
  · intro V0 T a1 r1 a2 r2
    refine ⟨by simp [naiveIntegral], by simp [naiveIntegral], ?_⟩
    simp only [naiveIntegral]
    ring

/-! ## The heap -/

theorem Heap.length_modify (h : Heap) (ptr : Nat) (f : PRep → PRep) :
    (h.modify ptr f).length = h.length := by
  simp [Heap.modify]

theorem Heap.deref_modify_self (h : Heap) (ptr : Nat) (f : PRep → PRep)
    (hv : ptr < h.length) : (h.modify ptr f).deref ptr = f (h.deref ptr) := by
  simp [Heap.modify, Heap.deref, List.getD, List.getElem?_set, hv]

theorem Heap.deref_modify_ne (h : Heap) (ptr other : Nat) (f : PRep → PRep)
    (hne : other ≠ ptr) : (h.modify ptr f).deref other = h.deref other := by
  simp [Heap.modify, Heap.deref, List.getD, List.getElem?_set, Ne.symm hne]

/-! ## Sorting -/

theorem sortInsert_perm (less : Nat → Nat → Bool) (x : Nat) (l : List Nat) :
    (sortInsert less x l).Perm (x :: l) := by
  induction l with
  | nil => exact List.Perm.refl _
  | cons y ys ih =>
    unfold sortInsert
    split_ifs
    · exact List.Perm.refl _
    · exact (List.Perm.cons y ih).trans (List.Perm.swap x y ys)

theorem sortSlice_perm (less : Nat → Nat → Bool) (l : List Nat) :
    (sortSlice less l).Perm l := by
  induction l with
  | nil => exact List.Perm.refl _
  | cons x xs ih =>
    unfold sortSlice
    exact (sortInsert_perm less x _).trans (List.Perm.cons x ih)

theorem sortInsert_pairwise (less : Nat → Nat → Bool)
    (htrans : ∀ x y z, less x y = true → less y z = true → less x z = true)
    (x : Nat) (l : List Nat)
    (htotal : ∀ y ∈ l, less x y = true ∨ less y x = true)
    (hl : l.Pairwise (fun a b => less a b = true)) :
    (sortInsert less x l).Pairwise (fun a b => less a b = true) := by
  induction l with
  | nil => simp [sortInsert]
  | cons y ys ih =>
    unfold sortInsert
    rw [List.pairwise_cons] at hl
    split_ifs with hxy
    · refine List.Pairwise.cons ?_ (List.Pairwise.cons hl.1 hl.2)
      intro z hz
      rcases List.mem_cons.1 hz with rfl | hz
      · exact hxy
      · exact htrans _ _ _ hxy (hl.1 z hz)
    · have hyx : less y x = true := by
        rcases htotal y (List.mem_cons_self _ _) with h | h
        · exact absurd h hxy
        · exact h
      refine List.Pairwise.cons ?_ (ih (fun z hz => htotal z (List.mem_cons_of_mem _ hz)) hl.2)
      intro z hz
      rcases List.mem_cons.1 ((sortInsert_perm less x ys).mem_iff.1 hz) with rfl | hz
      · exact hyx
      · exact hl.1 z hz

theorem sortSlice_pairwise (less : Nat → Nat → Bool)
    (htrans : ∀ x y z, less x y = true → less y z = true → less x z = true)
    (l : List Nat) (hnd : l.Nodup)
    (htotal : ∀ x ∈ l, ∀ y ∈ l, x ≠ y → less x y = true ∨ less y x = true) :
    (sortSlice less l).Pairwise (fun a b => less a b = true) := by
  induction l with
  | nil => simp [sortSlice]
  | cons x xs ih =>
    unfold sortSlice
    rw [List.nodup_cons] at hnd
    refine sortInsert_pairwise less htrans x _ ?_ (ih hnd.2 ?_)
    · intro y hy
      have hy2 : y ∈ xs := (sortSlice_perm less xs).mem_iff.1 hy
      exact htotal x (List.mem_cons_self _ _) y (List.mem_cons_of_mem _ hy2)
        (fun e => hnd.1 (e ▸ hy2))
    · intro a ha b hb hab
      exact htotal a (List.mem_cons_of_mem _ ha) b (List.mem_cons_of_mem _ hb) hab

theorem pairwise_perm_unique (less : Nat → Nat → Bool)
    (hasymm : ∀ x y, less x y = true → less y x = true → False)
    (l1 l2 : List Nat) (hp : l1.Perm l2)
    (h1 : l1.Pairwise (fun a b => less a b = true))
    (h2 : l2.Pairwise (fun a b => less a b = true)) : l1 = l2 := by
  haveI : IsAntisymm Nat (fun a b => less a b = true) :=
    ⟨fun a b hab hba => (hasymm a b hab hba).elim⟩
  exact List.eq_of_perm_of_sorted hp h1 h2

theorem setRanks_length (l : List Nat) : ∀ (k : Nat) (h : Heap),
    (setRanks k l h).length = h.length := by
  induction l with
  | nil => intro k h; rfl
  | cons x xs ih =>
    intro k h
    simp only [setRanks]
    rw [ih, Heap.length_modify]

theorem setRanks_deref (l : List Nat) : ∀ (k : Nat) (h : Heap), l.Nodup →
    (∀ ptr ∈ l, ptr < h.length) → ∀ ptr,
    (setRanks k l h).deref ptr =
      if ptr ∈ l then (h.deref ptr).SetRank ((k + l.indexOf ptr : Nat) : Int)
      else h.deref ptr := by
  induction l with
  | nil => intro k h _ _ ptr; simp [setRanks]
  | cons x xs ih =>
    intro k h hnd hv ptr
    rw [List.nodup_cons] at hnd
    simp only [setRanks]
    rw [ih (k + 1) _ hnd.2 (fun q hq => by
      rw [Heap.length_modify]; exact hv q (List.mem_cons_of_mem _ hq))]
    by_cases hx : ptr = x
    · subst hx
      rw [if_neg hnd.1, if_pos (List.mem_cons_self _ _),
        Heap.deref_modify_self _ _ _ (hv ptr (List.mem_cons_self _ _))]
      simp
    · by_cases hm : ptr ∈ xs
      · rw [if_pos hm, if_pos (List.mem_cons_of_mem _ hm), Heap.deref_modify_ne _ _ _ _ hx,
          List.indexOf_cons_ne _ (Ne.symm hx)]
        congr 2
        omega
      · rw [if_neg hm, if_neg (by simp [hx, hm]), Heap.deref_modify_ne _ _ _ _ hx]

theorem Bigger_SetRank (a b : PRep) (i j : Int) :
    (a.SetRank i).Bigger (b.SetRank j) = a.Bigger b := rfl

theorem WF_owner_ne (p : PRepInfo) (hwf : p.WF) (x y : Nat)
    (hx : x ∈ p.preps.map Prod.snd) (hy : y ∈ p.preps.map Prod.snd) (hne : x ≠ y) :
    (p.heap.deref x).owner ≠ (p.heap.deref y).owner := by
  obtain ⟨hk, _, ho, _, _⟩ := hwf
  obtain ⟨e1, he1, rfl⟩ := List.mem_map.1 hx
  obtain ⟨e2, he2, rfl⟩ := List.mem_map.1 hy
  rw [(ho e1 he1).2, (ho e2 he2).2]
  intro hkey
  exact hne (congrArg Prod.snd (List.inj_on_of_nodup_map hk he1 he2 hkey))

theorem Sort_rank_pairwise (p : PRepInfo) (hwf : p.WF) :
    p.Sort_.rank.Pairwise
      (fun a b => (p.heap.deref a).Bigger (p.heap.deref b) = true) := by
  unfold PRepInfo.Sort_
  exact sortSlice_pairwise (fun i j => (p.heap.deref i).Bigger (p.heap.deref j))
    (fun x y z => Bigger_trans _ _ _) _ hwf.2.1
    (fun x hx y hy hne => Bigger_total _ _ (WF_owner_ne p hwf x y hx hy hne))

theorem Sort_rank_perm (p : PRepInfo) : p.Sort_.rank.Perm (p.preps.map Prod.snd) := by
  unfold PRepInfo.Sort_
  exact sortSlice_perm _ _

theorem Sort_heap_deref (p : PRepInfo) (hwf : p.WF) (ptr : Nat) :
    p.Sort_.heap.deref ptr =
      if ptr ∈ p.Sort_.rank then
        (p.heap.deref ptr).SetRank ((p.Sort_.rank.indexOf ptr : Nat) : Int)
      else p.heap.deref ptr := by
  have hperm := Sort_rank_perm p
  have hnd : p.Sort_.rank.Nodup := hperm.nodup_iff.2 hwf.2.1
  have hv : ∀ q ∈ p.Sort_.rank, q < p.heap.length := by
    intro q hq
    obtain ⟨e, he, rfl⟩ := List.mem_map.1 (hperm.mem_iff.1 hq)
    exact (hwf.2.2.1 e he).1
  have h := setRanks_deref p.Sort_.rank 0 p.heap hnd hv ptr
  simp only [Nat.zero_add] at h
  exact h

/-- C8: after `Sort` on a PRepInfo with `n` known preps the rank sequence has length `n`
and holds every known prep exactly once, the prep at index `i` has rank field `i`, the
prep at `i` is `Bigger` than the prep at `j` whenever `i < j`, and nothing but the rank
field of the known preps and the rank sequence has changed. -/
theorem Sort_post (p : PRepInfo) (hwf : p.WF) :
    p.Sort_.rank.length = p.preps.length ∧
    p.Sort_.rank.Perm (p.preps.map Prod.snd) ∧
    p.Sort_.rank.Nodup ∧
    (∀ (i ptr : Nat), p.Sort_.rank[i]? = some ptr → (p.Sort_.heap.deref ptr).rank = i) ∧
    p.Sort_.rank.Pairwise
      (fun a b => (p.Sort_.heap.deref a).Bigger (p.Sort_.heap.deref b) = true) ∧
    (∀ ptr, p.Sort_.heap.deref ptr =
      { p.heap.deref ptr with rank := (p.Sort_.heap.deref ptr).rank }) ∧
    (∀ ptr, ptr ∉ p.preps.map Prod.snd → p.Sort_.heap.deref ptr = p.heap.deref ptr) ∧
    p.Sort_.heap.length = p.heap.length ∧
    p.Sort_ = { p with heap := p.Sort_.heap, rank := p.Sort_.rank } := by
  have hperm := Sort_rank_perm p
  have hnd : p.Sort_.rank.Nodup := hperm.nodup_iff.2 hwf.2.1
  have hd := Sort_heap_deref p hwf
  refine ⟨?_, hperm, hnd, ?_, ?_, ?_, ?_, ?_, rfl⟩
  · rw [hperm.length_eq, List.length_map]
  · intro i ptr hi
    obtain ⟨hlt, hget⟩ := List.getElem?_eq_some_iff.1 hi
    have hmem : ptr ∈ p.Sort_.rank := hget ▸ List.getElem_mem hlt
    rw [hd, if_pos hmem]
    have hidx : p.Sort_.rank.indexOf ptr = i := by
      rw [← hget]
      exact List.indexOf_getElem hnd i hlt
    simp [PRep.SetRank, hidx]
  · refine (Sort_rank_pairwise p hwf).imp_of_mem ?_
    intro a b ha hb hab
    rw [hd a, hd b, if_pos ha, if_pos hb, Bigger_SetRank]
    exact hab
  · intro ptr
    rw [hd]
    split_ifs <;> rfl
  · intro ptr hptr
    rw [hd, if_neg (fun hm => hptr (hperm.mem_iff.1 hm))]
  · unfold PRepInfo.Sort_
    exact setRanks_length _ _ _

theorem Sort_post_witness :
    testPRepInfo.WF ∧
    (testPRepInfo.Sort_.rank.length = testPRepInfo.preps.length ∧
    testPRepInfo.Sort_.rank.Perm (testPRepInfo.preps.map Prod.snd) ∧
    testPRepInfo.Sort_.rank.Nodup ∧
    (∀ (i ptr : Nat), testPRepInfo.Sort_.rank[i]? = some ptr →
      (testPRepInfo.Sort_.heap.deref ptr).rank = i) ∧
    testPRepInfo.Sort_.rank.Pairwise
      (fun a b => (testPRepInfo.Sort_.heap.deref a).Bigger
        (testPRepInfo.Sort_.heap.deref b) = true) ∧
    (∀ ptr, testPRepInfo.Sort_.heap.deref ptr =
      { testPRepInfo.heap.deref ptr with rank := (testPRepInfo.Sort_.heap.deref ptr).rank }) ∧
    (∀ ptr, ptr ∉ testPRepInfo.preps.map Prod.snd →
      testPRepInfo.Sort_.heap.deref ptr = testPRepInfo.heap.deref ptr) ∧
    testPRepInfo.Sort_.heap.length = testPRepInfo.heap.length ∧
    testPRepInfo.Sort_ =
      { testPRepInfo with heap := testPRepInfo.Sort_.heap, rank := testPRepInfo.Sort_.rank }) ∧
    testPRepInfo.Sort_.rank.map (fun ptr => (testPRepInfo.Sort_.heap.deref ptr).owner)
      = [hx 3, hx 1, hx 5, hx 4, hx 2] ∧
    testPRepInfo.Sort_.rank.map (fun ptr => (testPRepInfo.Sort_.heap.deref ptr).rank)
      = [0, 1, 2, 3, 4] :=
  ⟨by decide, Sort_post testPRepInfo (by decide), by decide, by decide⟩

/-- C9: `Sort` does not depend on the order in which the map is enumerated. For a
PRepInfo whose preps have distinct addresses and any other enumeration `enum` of the same
entries, `Sort` builds the same rank sequence and the same objects, so every prep gets the
same rank; and any ordering of the known preps in which earlier entries are `Bigger` than
later ones, as any sorting procedure has to return, is that rank sequence. -/
theorem Sort_deterministic (p : PRepInfo) (hwf : p.WF) (enum : List (List Nat × Nat))
    (hperm : enum.Perm p.preps) :
    ({ p with preps := enum } : PRepInfo).Sort_.rank = p.Sort_.rank ∧
    ({ p with preps := enum } : PRepInfo).Sort_.heap = p.Sort_.heap ∧
    (∀ ptr, (({ p with preps := enum } : PRepInfo).Sort_.heap.deref ptr).rank
      = (p.Sort_.heap.deref ptr).rank) ∧
    (∀ s : List Nat, s.Perm (p.preps.map Prod.snd) →
      s.Pairwise (fun a b => (p.heap.deref a).Bigger (p.heap.deref b) = true) →
      s = p.Sort_.rank) := by
  have hwf2 : ({ p with preps := enum } : PRepInfo).WF := by
    obtain ⟨h1, h2, h3, h4, h5⟩ := hwf
    exact ⟨(hperm.map Prod.fst).nodup_iff.2 h1, (hperm.map Prod.snd).nodup_iff.2 h2,
      fun e he => h3 e (hperm.mem_iff.1 he), h4, h5⟩
  have huniq : ∀ s : List Nat, s.Perm (p.preps.map Prod.snd) →
      s.Pairwise (fun a b => (p.heap.deref a).Bigger (p.heap.deref b) = true) →
      s = p.Sort_.rank := by
    intro s hs hpw
    exact pairwise_perm_unique (fun i j => (p.heap.deref i).Bigger (p.heap.deref j))
      (fun x y hxy hyx => by
        have h1 := Bigger_asymm _ _ hxy
        exact absurd (h1.symm.trans hyx) (by decide))
      s p.Sort_.rank (hs.trans (Sort_rank_perm p).symm) hpw (Sort_rank_pairwise p hwf)
  have hrank : ({ p with preps := enum } : PRepInfo).Sort_.rank = p.Sort_.rank :=
    huniq _ ((Sort_rank_perm _).trans (hperm.map Prod.snd))
      (Sort_rank_pairwise _ hwf2)
  have hheap : ({ p with preps := enum } : PRepInfo).Sort_.heap = p.Sort_.heap := by
    have h1 : ({ p with preps := enum } : PRepInfo).Sort_.heap
        = setRanks 0 ({ p with preps := enum } : PRepInfo).Sort_.rank p.heap := rfl
    have h2 : p.Sort_.heap = setRanks 0 p.Sort_.rank p.heap := rfl
    rw [h1, h2, hrank]
  exact ⟨hrank, hheap, fun ptr => by rw [hheap], huniq⟩

theorem Sort_deterministic_witness :
    testPRepInfo.WF ∧ testPRepInfo.preps.reverse.Perm testPRepInfo.preps ∧
    (({ testPRepInfo with preps := testPRepInfo.preps.reverse } : PRepInfo).Sort_.rank
      = testPRepInfo.Sort_.rank ∧
    ({ testPRepInfo with preps := testPRepInfo.preps.reverse } : PRepInfo).Sort_.heap
      = testPRepInfo.Sort_.heap ∧
    (∀ ptr, (({ testPRepInfo with preps := testPRepInfo.preps.reverse } :
        PRepInfo).Sort_.heap.deref ptr).rank = (testPRepInfo.Sort_.heap.deref ptr).rank) ∧
    (∀ s : List Nat, s.Perm (testPRepInfo.preps.map Prod.snd) →
      s.Pairwise (fun a b =>
        (testPRepInfo.heap.deref a).Bigger (testPRepInfo.heap.deref b) = true) →
      s = testPRepInfo.Sort_.rank)) :=
  ⟨by decide, List.reverse_perm _,
    Sort_deterministic testPRepInfo (by decide) testPRepInfo.preps.reverse
      (List.reverse_perm _)⟩

/-! ## The loops over `rank` -/

theorem CalculateReward_eq_rewarded (E : Deps) (q : PRep) (tReward tot minBond minWage : Int)
    (htot : tot ≠ 0) :
    q.CalculateReward E tReward tot minBond minWage
      = some (q.rewarded E tReward tot minBond minWage) := by
  unfold PRep.CalculateReward PRep.rewarded
  rw [if_neg htot]
  simp only [bigCmp_nonneg_iff]
  split_ifs <;> rfl

theorem IsRewardable_rewarded (E : Deps) (q : PRep) (tReward tot minBond minWage N : Int) :
    (q.rewarded E tReward tot minBond minWage).IsRewardable N = q.IsRewardable N := rfl

theorem window_succ (N : Int) (i : Nat) (h : ¬ N ≤ (i : Int)) :
    (N - (i : Int)).toNat = (N - ((i + 1 : Nat) : Int)).toNat + 1 := by
  push_cast
  omega

theorem window_zero (N : Int) (i : Nat) (h : N ≤ (i : Int)) : (N - (i : Int)).toNat = 0 := by
  omega

theorem sumAccumulatedPower_eq (N : Int) (h : Heap) (l : List Nat) : ∀ (i : Nat) (acc : Int),
    sumAccumulatedPower N h i l acc
      = acc + ((l.take (N - (i : Int)).toNat).map
          (fun ptr => (h.deref ptr).accumulatedPower)).sum := by
  induction l with
  | nil => intro i acc; simp [sumAccumulatedPower]
  | cons x xs ih =>
    intro i acc
    unfold sumAccumulatedPower
    split_ifs with hN
    · rw [window_zero N i hN]; simp
    · rw [ih, window_succ N i hN]
      simp only [List.take_succ_cons, List.map_cons, List.sum_cons]
      ring

theorem rewardLoop_none_rewardable (E : Deps) (N tReward tot minBond w : Int) (h : Heap)
    (l : List Nat) : ∀ (i : Nat),
    (∀ ptr ∈ l.take (N - (i : Int)).toNat, (h.deref ptr).IsRewardable N = false) →
    rewardLoop E N tReward tot minBond w i l h = some h := by
  induction l with
  | nil => intro i _; rfl
  | cons x xs ih =>
    intro i hnr
    unfold rewardLoop
    split_ifs with hN hr
    · rfl
    · refine ih (i + 1) ?_
      intro ptr hptr
      refine hnr ptr ?_
      rw [window_succ N i hN, List.take_succ_cons]
      exact List.mem_cons_of_mem _ hptr
    · exfalso
      have := hnr x (by rw [window_succ N i hN, List.take_succ_cons]; exact List.mem_cons_self _ _)
      simp [this] at hr

theorem rewardLoop_spec (E : Deps) (N tReward tot minBond w : Int) (htot : tot ≠ 0)
    (l : List Nat) : ∀ (i : Nat) (h : Heap), l.Nodup → (∀ ptr ∈ l, ptr < h.length) →
    ∃ h2 : Heap, rewardLoop E N tReward tot minBond w i l h = some h2 ∧
      h2.length = h.length ∧
      ∀ ptr, h2.deref ptr =
        if ptr ∈ l.take (N - (i : Int)).toNat ∧ (h.deref ptr).IsRewardable N = true
        then (h.deref ptr).rewarded E tReward tot minBond w else h.deref ptr := by
  induction l with
  | nil => intro i h _ _; exact ⟨h, rfl, rfl, fun ptr => by simp⟩
  | cons x xs ih =>
    intro i h hnd hv
    rw [List.nodup_cons] at hnd
    unfold rewardLoop
    by_cases hN : N ≤ (i : Int)
    · rw [if_pos hN]
      exact ⟨h, rfl, rfl, fun ptr => by rw [window_zero N i hN]; simp⟩
    · rw [if_neg hN, window_succ N i hN]
      by_cases hr : (h.deref x).IsRewardable N = true
      · rw [if_neg (by simp [hr]), CalculateReward_eq_rewarded E _ _ _ _ _ htot]
        obtain ⟨h2, hloop, hlen, hd⟩ := ih (i + 1)
          (h.modify x (fun _ => (h.deref x).rewarded E tReward tot minBond w)) hnd.2
          (fun q hq => by rw [Heap.length_modify]; exact hv q (List.mem_cons_of_mem _ hq))
        refine ⟨h2, hloop, by rw [hlen, Heap.length_modify], ?_⟩
        intro ptr
        rw [hd ptr, List.take_succ_cons]
        by_cases hx : ptr = x
        · subst hx
          have hnot : ptr ∉ xs.take (N - ((i + 1 : Nat) : Int)).toNat :=
            fun hm => hnd.1 (List.mem_of_mem_take hm)
          rw [if_neg (fun hc => hnot hc.1), if_pos ⟨List.mem_cons_self _ _, hr⟩,
            Heap.deref_modify_self _ _ _ (hv ptr (List.mem_cons_self _ _))]
        · rw [Heap.deref_modify_ne _ _ _ _ hx]
          simp only [List.mem_cons, hx, false_or]
      · rw [if_pos (by simp [hr])]
        obtain ⟨h2, hloop, hlen, hd⟩ := ih (i + 1) h hnd.2
          (fun q hq => hv q (List.mem_cons_of_mem _ hq))
        refine ⟨h2, hloop, hlen, ?_⟩
        intro ptr
        rw [hd ptr, List.take_succ_cons]
        by_cases hx : ptr = x
        · subst hx
          have hnot : ptr ∉ xs.take (N - ((i + 1 : Nat) : Int)).toNat :=
            fun hm => hnd.1 (List.mem_of_mem_take hm)
          rw [if_neg (fun hc => hnot hc.1), if_neg (fun hc => hr hc.2)]
        · simp only [List.mem_cons, hx, false_or]

theorem wrapInt64_eq (x : Int) (h1 : -2 ^ 63 ≤ x) (h2 : x < 2 ^ 63) : wrapInt64 x = x := by
  unfold wrapInt64
  omega

theorem fundToPeriodIScore_eq (E : Deps) (reward period : Int) (hM : 0 < E.MonthBlock)
    (h1 : -2 ^ 63 ≤ period * E.IScoreICXRatio) (h2 : period * E.IScoreICXRatio < 2 ^ 63) :
    fundToPeriodIScore E reward period
      = some (Int.fdiv (reward * (period * E.IScoreICXRatio)) E.MonthBlock) := by
  unfold fundToPeriodIScore
  rw [if_neg (by omega), wrapInt64_eq _ h1 h2, Int.fdiv_eq_ediv _ (le_of_lt hM)]

/-- C4 does not hold as stated: (1) when `totalAccumulatedPower` is zero, as it is until
`UpdateTotalAccumulatedPower` runs, and a prep is rewardable, the call panics on a
division by zero and returns nothing; (2) a wage stored by an earlier call is kept when
`bonded < minBond`, so `GetReward` is not `commission + 0`; (3) for an offset limit of
`2^62` the product `(offsetLimit+1) * IScoreICXRatio` wraps around in `int64`, and the
scaled fund is `floor(totalReward * 1000 / MonthBlock)`; (4) when `totalAccumulatedPower`
is negative the quotient of `big.Int.Div` is not the floor: the share of `hx1` is -43449
and the floor is -43450. -/
theorem PRepInfo_CalculateReward_counterexample :
    (0 < testPRepInfo.Sort_.InitAccumulated.electedPRepCount ∧
      testPRepInfo.Sort_.InitAccumulated.elected.any
        (fun ptr => (testPRepInfo.Sort_.InitAccumulated.heap.deref ptr).IsRewardable 4) = true ∧
      testPRepInfo.Sort_.InitAccumulated.CalculateReward goloop 1000000000 10000000 300
        = none) ∧
    (((testPRepInfoReplayed.CalculateReward goloop 1000000000 10000000 300).bind
        (fun q => q.CalculateReward goloop 1000000000 10000000 1000)).map
        (fun q => ((q.heap.deref 2).IsRewardable 4, (q.heap.deref 2).bonded,
          (q.heap.deref 2).GetReward - (q.heap.deref 2).commission))
      = some (true, 600, 194830)) ∧
    ((({ testPRepInfoReplayed with offsetLimit := 2 ^ 62 } : PRepInfo).CalculateReward goloop
        1000000000 10000000 300).map
        (fun q => (q.heap.deref 2).commission + (q.heap.deref 2).voterReward)
      = some (Int.fdiv (Int.fdiv (1000000000 * 1000) 1296000 * 558300) 926200) ∧
     Int.fdiv (Int.fdiv (1000000000 * 1000) 1296000 * 558300) 926200
      ≠ Int.fdiv (Int.fdiv (1000000000 * ((2 ^ 62 + 1) * 1000)) 1296000 * 558300) 926200) ∧
    (0 < negativeTotalInfo.electedPRepCount ∧
      negativeTotalInfo.totalAccumulatedPower = -199273800 ∧
      (negativeTotalInfo.heap.deref 0).IsRewardable 4 = true ∧
      (negativeTotalInfo.heap.deref 0).accumulatedPower = 111100 ∧
      (negativeTotalInfo.CalculateReward goloop 1000000000 10000000 300).map
        (fun q => (q.heap.deref 0).commission + (q.heap.deref 0).voterReward)
        = some (-43449) ∧
      Int.fdiv (Int.fdiv (1000000000 * ((100 + 1) * 1000)) 1296000 * 111100) (-199273800)
        = -43450) := by
  decide

/-- C4, amended: on a PRepInfo with `electedPRepCount = N > 0`, a positive
`totalAccumulatedPower`, no wage stored yet in the ranked preps and `T = offsetLimit + 1`
and `T * IScoreICXRatio` within `int64`, `CalculateReward` returns, and with
`S = floor(totalReward * (T*IScoreICXRatio) / MonthBlock)` and
`W = floor(floor(totalMinWage * (T*IScoreICXRatio) / MonthBlock) / N)` every rewardable
prep among the first `N` ranked entries gets `commission` = its rate applied to
`floor(S * accumulatedPower / totalAccumulatedPower)`, `voterReward` = that share minus
the commission, and `GetReward = commission + (W if bonded >= minBond else 0)`. -/
theorem PRepInfo_CalculateReward_post (E : Deps) (p : PRepInfo)
    (totalReward totalMinWage minBond : Int) (hwf : p.WF)
    (hN : 0 < p.electedPRepCount) (hM : 0 < E.MonthBlock)
    (htot : 0 < p.totalAccumulatedPower)
    (hwage : ∀ ptr ∈ p.rank, (p.heap.deref ptr).wage = 0)
    (hT : -2 ^ 63 ≤ p.offsetLimit + 1 ∧ p.offsetLimit + 1 < 2 ^ 63)
    (hTR : -2 ^ 63 ≤ (p.offsetLimit + 1) * E.IScoreICXRatio ∧
      (p.offsetLimit + 1) * E.IScoreICXRatio < 2 ^ 63) :
    ∃ q : PRepInfo, p.CalculateReward E totalReward totalMinWage minBond = some q ∧
      ∀ ptr ∈ p.rank.take p.electedPRepCount.toNat,
        (p.heap.deref ptr).IsRewardable p.electedPRepCount = true →
        (q.heap.deref ptr).commission
          = Rate.MulBigInt E (p.heap.deref ptr).commissionRate
              (Int.fdiv
                (Int.fdiv (totalReward * ((p.offsetLimit + 1) * E.IScoreICXRatio)) E.MonthBlock
                  * (p.heap.deref ptr).accumulatedPower)
                p.totalAccumulatedPower) ∧
        (q.heap.deref ptr).voterReward
          = Int.fdiv
              (Int.fdiv (totalReward * ((p.offsetLimit + 1) * E.IScoreICXRatio)) E.MonthBlock
                * (p.heap.deref ptr).accumulatedPower)
              p.totalAccumulatedPower
            - (q.heap.deref ptr).commission ∧
        (q.heap.deref ptr).GetReward
          = (q.heap.deref ptr).commission
            + (if minBond ≤ (p.heap.deref ptr).bonded then
                Int.fdiv
                  (Int.fdiv (totalMinWage * ((p.offsetLimit + 1) * E.IScoreICXRatio))
                    E.MonthBlock)
                  p.electedPRepCount
               else 0) := by
  obtain ⟨_, _, _, hnd, hv⟩ := hwf
  have hterm : p.GetTermPeriod = p.offsetLimit + 1 := wrapInt64_eq _ hT.1 hT.2
  obtain ⟨h2, hloop, _, hd⟩ := rewardLoop_spec E p.electedPRepCount
    (Int.fdiv (totalReward * ((p.offsetLimit + 1) * E.IScoreICXRatio)) E.MonthBlock)
    p.totalAccumulatedPower minBond
    (Int.fdiv (totalMinWage * ((p.offsetLimit + 1) * E.IScoreICXRatio)) E.MonthBlock
      / p.electedPRepCount)
    (by omega) p.rank 0 p.heap hnd hv
  refine ⟨{ p with heap := h2 }, ?_, ?_⟩
  · unfold PRepInfo.CalculateReward
    rw [if_neg (by omega), hterm, fundToPeriodIScore_eq E _ _ hM hTR.1 hTR.2,
      fundToPeriodIScore_eq E _ _ hM hTR.1 hTR.2]
    simp only [hloop]
  · intro ptr hptr hr
    have hmem : ptr ∈ List.take (p.electedPRepCount - ((0 : Nat) : Int)).toNat p.rank := by
      simpa using hptr
    have hq : ({ p with heap := h2 } : PRepInfo).heap.deref ptr = h2.deref ptr := rfl
    rw [hq, hd ptr, if_pos ⟨hmem, hr⟩]
    have hw := hwage ptr (List.mem_of_mem_take hptr)
    rw [Int.fdiv_eq_ediv _ (le_of_lt htot), Int.fdiv_eq_ediv _ (le_of_lt hN)]
    refine ⟨rfl, rfl, ?_⟩
    by_cases hb : minBond ≤ (p.heap.deref ptr).bonded
    · simp only [PRep.rewarded, PRep.GetReward, hw, hb, if_true]
    · simp only [PRep.rewarded, PRep.GetReward, hw, hb, if_false]

theorem PRepInfo_CalculateReward_post_witness :
    (testPRepInfoReplayed.WF ∧ 0 < testPRepInfoReplayed.electedPRepCount ∧
      0 < goloop.MonthBlock ∧ 0 < testPRepInfoReplayed.totalAccumulatedPower ∧
      (∀ ptr ∈ testPRepInfoReplayed.rank, (testPRepInfoReplayed.heap.deref ptr).wage = 0) ∧
      (-2 ^ 63 ≤ testPRepInfoReplayed.offsetLimit + 1 ∧
        testPRepInfoReplayed.offsetLimit + 1 < 2 ^ 63) ∧
      (-2 ^ 63 ≤ (testPRepInfoReplayed.offsetLimit + 1) * goloop.IScoreICXRatio ∧
        (testPRepInfoReplayed.offsetLimit + 1) * goloop.IScoreICXRatio < 2 ^ 63)) ∧
    (∃ q : PRepInfo,
      testPRepInfoReplayed.CalculateReward goloop 1000000000 10000000 300 = some q ∧
      ∀ ptr ∈ testPRepInfoReplayed.rank.take testPRepInfoReplayed.electedPRepCount.toNat,
        (testPRepInfoReplayed.heap.deref ptr).IsRewardable
          testPRepInfoReplayed.electedPRepCount = true →
        (q.heap.deref ptr).commission
          = Rate.MulBigInt goloop (testPRepInfoReplayed.heap.deref ptr).commissionRate
              (Int.fdiv
                (Int.fdiv (1000000000 * ((testPRepInfoReplayed.offsetLimit + 1)
                    * goloop.IScoreICXRatio)) goloop.MonthBlock
                  * (testPRepInfoReplayed.heap.deref ptr).accumulatedPower)
                testPRepInfoReplayed.totalAccumulatedPower) ∧
        (q.heap.deref ptr).voterReward
          = Int.fdiv
              (Int.fdiv (1000000000 * ((testPRepInfoReplayed.offsetLimit + 1)
                  * goloop.IScoreICXRatio)) goloop.MonthBlock
                * (testPRepInfoReplayed.heap.deref ptr).accumulatedPower)
              testPRepInfoReplayed.totalAccumulatedPower
            - (q.heap.deref ptr).commission ∧
        (q.heap.deref ptr).GetReward
          = (q.heap.deref ptr).commission
            + (if 300 ≤ (testPRepInfoReplayed.heap.deref ptr).bonded then
                Int.fdiv
                  (Int.fdiv (10000000 * ((testPRepInfoReplayed.offsetLimit + 1)
                      * goloop.IScoreICXRatio)) goloop.MonthBlock)
                  testPRepInfoReplayed.electedPRepCount
               else 0)) ∧
    (testPRepInfoReplayed.CalculateReward goloop 1000000000 10000000 300).map
      (fun q => q.PReps.map (fun r => (r.commission, r.voterReward, r.GetReward)))
      = some [(156587, 15502194, 156587), (0, 0, 0), (1409290, 45567054, 1409290 + 194830),
          (0, 0, 0), (0, 0, 0), (0, 0, 0), (0, 0, 0)] :=
  ⟨by decide,
    PRepInfo_CalculateReward_post goloop testPRepInfoReplayed 1000000000 10000000 300
      (by decide) (by decide) (by decide) (by decide) (by decide) (by decide) (by decide),
    by decide⟩

/-! ## Sums of truncated shares -/

theorem sum_map_nonpos (l : List Nat) (f : Nat → Int) (h : ∀ x ∈ l, f x ≤ 0) :
    (l.map f).sum ≤ 0 := by
  induction l with
  | nil => simp
  | cons x xs ih =>
    have h1 := h x (List.mem_cons_self _ _)
    have h2 := ih (fun y hy => h y (List.mem_cons_of_mem _ hy))
    simp only [List.map_cons, List.sum_cons]
    omega

theorem sum_map_le (l : List Nat) (f g : Nat → Int) (h : ∀ x ∈ l, f x ≤ g x) :
    (l.map f).sum ≤ (l.map g).sum := by
  induction l with
  | nil => simp
  | cons x xs ih =>
    have h1 := h x (List.mem_cons_self _ _)
    have h2 := ih (fun y hy => h y (List.mem_cons_of_mem _ hy))
    simp only [List.map_cons, List.sum_cons]
    omega

theorem sum_map_congr (l : List Nat) (f g : Nat → Int) (h : ∀ x ∈ l, f x = g x) :
    (l.map f).sum = (l.map g).sum := by
  rw [List.map_congr_left h]

theorem ediv_add_ediv_le (a b d : Int) (hd : 0 < d) : a / d + b / d ≤ (a + b) / d := by
  apply Int.le_ediv_of_mul_le hd
  have h1 := Int.ediv_mul_le a (ne_of_gt hd)
  have h2 := Int.ediv_mul_le b (ne_of_gt hd)
  rw [add_mul]
  omega

theorem sum_ediv_le (l : List Nat) (f : Nat → Int) (d : Int) (hd : 0 < d) :
    (l.map (fun x => f x / d)).sum ≤ (l.map f).sum / d := by
  induction l with
  | nil => simp
  | cons x xs ih =>
    simp only [List.map_cons, List.sum_cons]
    have := ediv_add_ediv_le (f x) (xs.map f).sum d hd
    omega

theorem sum_le_of_support (M W : List Nat) (g : Nat → Int) (hM : M.Nodup) (hW : W.Nodup)
    (hg : ∀ x, 0 ≤ g x) (hsupp : ∀ x, x ∉ W → g x = 0) :
    (M.map g).sum ≤ (W.map g).sum := by
  rw [← List.sum_toFinset g hM, ← List.sum_toFinset g hW]
  calc ∑ x ∈ M.toFinset, g x
      ≤ ∑ x ∈ M.toFinset ∪ W.toFinset, g x :=
        Finset.sum_le_sum_of_subset_of_nonneg Finset.subset_union_left (fun i _ _ => hg i)
    _ = ∑ x ∈ W.toFinset, g x :=
        (Finset.sum_subset Finset.subset_union_right
          (fun x _ hx => hsupp x (fun hw => hx (List.mem_toFinset.2 hw)))).symm

theorem sum_shares_le (M W : List Nat) (ap : Nat → Int) (rew : Nat → Bool) (t tot : Int)
    (hM : M.Nodup) (hW : W.Nodup) (hap : ∀ x ∈ W, 0 ≤ ap x)
    (htot : tot = (W.map ap).sum) (hpos : 0 < tot) (ht : 0 ≤ t) :
    (M.map (fun x => if x ∈ W ∧ rew x = true then t * ap x / tot else 0)).sum ≤ t := by
  have h1 := sum_le_of_support M W
    (fun x => if x ∈ W ∧ rew x = true then t * ap x / tot else 0) hM hW
    (fun x => by
      by_cases hx : x ∈ W ∧ rew x = true
      · simp only [hx, and_self, if_true]
        exact Int.ediv_nonneg (Int.mul_nonneg ht (hap x hx.1)) (le_of_lt hpos)
      · simp only [hx, if_false, le_refl])
    (fun x hx => by simp [hx])
  have h2 : (W.map (fun x => if x ∈ W ∧ rew x = true then t * ap x / tot else 0)).sum
      ≤ (W.map (fun x => t * ap x / tot)).sum := by
    apply sum_map_le
    intro x hx
    by_cases hr : rew x = true
    · simp [hx, hr]
    · rw [if_neg (fun hc => hr hc.2)]
      exact Int.ediv_nonneg (Int.mul_nonneg ht (hap x hx)) (le_of_lt hpos)
  have h3 : (W.map (fun x => t * ap x / tot)).sum ≤ (W.map (fun x => t * ap x)).sum / tot :=
    sum_ediv_le W (fun x => t * ap x) tot hpos
  have h4 : (W.map (fun x => t * ap x)).sum / tot = t := by
    rw [List.sum_map_mul_left, ← htot, Int.mul_ediv_cancel _ (ne_of_gt hpos)]
  rw [h4] at h3
  omega

theorem wrap_term_le (offsetLimit ratio : Int) (h1 : -1 ≤ offsetLimit)
    (h2 : offsetLimit < 2 ^ 63) (hr : 0 ≤ ratio) :
    wrapInt64 (wrapInt64 (offsetLimit + 1) * ratio) ≤ (offsetLimit + 1) * ratio := by
  by_cases hmax : offsetLimit + 1 < 2 ^ 63
  · rw [wrapInt64_eq _ (by omega) hmax]
    have hy : 0 ≤ (offsetLimit + 1) * ratio := Int.mul_nonneg (by omega) hr
    generalize (offsetLimit + 1) * ratio = y at hy ⊢
    unfold wrapInt64
    omega
  · have he : offsetLimit + 1 = 2 ^ 63 := by omega
    rw [he]
    have hw : wrapInt64 (2 ^ 63) = -2 ^ 63 := by decide
    rw [hw]
    unfold wrapInt64
    omega

/-- C5 does not hold as stated: with an offset limit of -3 the term period is -2 and the
scaled fund of a total reward of 1296 is -2; the one rewardable prep holds half of the
total accumulated power and gets `commission + voterReward = -1`, which is more than -2.
All reward fields were zero and no accumulated power was negative. -/
theorem no_over_distribution_counterexample :
    (∀ r ∈ negativeTermInfo.PReps, r.commission = 0 ∧ r.voterReward = 0 ∧ r.wage = 0) ∧
    (∀ ptr ∈ negativeTermInfo.rank, 0 ≤ (negativeTermInfo.heap.deref ptr).accumulatedPower) ∧
    (negativeTermInfo.UpdateTotalAccumulatedPower.CalculateReward goloop 1296 0 0).map
      (fun q => (q.PReps.map (fun r => r.commission + r.voterReward)).sum) = some (-1) ∧
    Int.fdiv (1296 * ((negativeTermInfo.offsetLimit + 1) * goloop.IScoreICXRatio))
      goloop.MonthBlock = -2 := by
  decide

theorem no_over_distribution_aux (E : Deps) (p : PRepInfo)
    (totalReward totalMinWage minBond : Int) (hwf : p.WF)
    (hM : 0 < E.MonthBlock) (hR : 0 ≤ E.IScoreICXRatio)
    (hzero : ∀ r ∈ p.PReps, r.commission = 0 ∧ r.voterReward = 0 ∧ r.wage = 0)
    (hacc : ∀ ptr ∈ p.rank, 0 ≤ (p.heap.deref ptr).accumulatedPower)
    (hrew : 0 ≤ totalReward)
    (hT : -1 ≤ p.offsetLimit ∧ p.offsetLimit < 2 ^ 63)
    (htotdef : p.totalAccumulatedPower
        = (p.elected.map (fun ptr => (p.heap.deref ptr).accumulatedPower)).sum) :
    ∃ q : PRepInfo,
      p.CalculateReward E totalReward totalMinWage minBond = some q ∧
      (q.PReps.map (fun r => r.commission + r.voterReward)).sum
        ≤ Int.fdiv (totalReward * ((p.offsetLimit + 1) * E.IScoreICXRatio)) E.MonthBlock := by
  obtain ⟨_, hMnd, _, hnd, hv⟩ := hwf
  rw [Int.fdiv_eq_ediv _ (le_of_lt hM)]
  have hF : 0 ≤ totalReward * ((p.offsetLimit + 1) * E.IScoreICXRatio) / E.MonthBlock :=
    Int.ediv_nonneg (Int.mul_nonneg hrew (Int.mul_nonneg (by omega) hR)) (le_of_lt hM)
  have hzsum : ∀ q : PRepInfo, q.heap = p.heap → q.preps = p.preps →
      (q.PReps.map (fun r => r.commission + r.voterReward)).sum = 0 := by
    intro q hh hp
    have hP : q.PReps = p.PReps := by unfold PRepInfo.PReps; rw [hh, hp]
    rw [hP]
    apply List.sum_eq_zero
    intro x hx
    obtain ⟨r, hr, rfl⟩ := List.mem_map.1 hx
    obtain ⟨h1, h2, _⟩ := hzero r hr
    rw [h1, h2]; rfl
  unfold PRepInfo.CalculateReward
  by_cases hN : p.electedPRepCount = 0
  · rw [if_pos hN]
    exact ⟨_, rfl, le_of_eq_of_le (hzsum _ rfl rfl) hF⟩
  · rw [if_neg hN]
    have hMne : E.MonthBlock ≠ 0 := ne_of_gt hM
    simp only [fundToPeriodIScore, if_neg hMne]
    have hWnd : p.elected.Nodup := List.Nodup.sublist (List.take_sublist _ _) hnd
    have hWacc : ∀ ptr ∈ p.elected, 0 ≤ (p.heap.deref ptr).accumulatedPower :=
      fun ptr hptr => hacc ptr (List.mem_of_mem_take hptr)
    have hwin : ∀ ptr, ptr ∈ List.take
        (p.electedPRepCount - ((0 : Nat) : Int)).toNat
        p.rank ↔ ptr ∈ p.elected := by
      intro ptr
      unfold PRepInfo.elected
      simp
    have htotnn : 0 ≤ p.totalAccumulatedPower := by
      rw [htotdef]
      apply List.sum_nonneg
      intro x hx
      obtain ⟨ptr, hptr, rfl⟩ := List.mem_map.1 hx
      exact hWacc ptr hptr
    by_cases htot : p.totalAccumulatedPower = 0
    · have hnone : ∀ ptr ∈ p.elected,
          (p.heap.deref ptr).IsRewardable p.electedPRepCount
            = false := by
        intro ptr hptr
        have hle : (p.heap.deref ptr).accumulatedPower
            ≤ (p.elected.map (fun ptr => (p.heap.deref ptr).accumulatedPower)).sum :=
          List.single_le_sum (fun x hx => by
            obtain ⟨y, hy, rfl⟩ := List.mem_map.1 hx
            exact hWacc y hy) _ (List.mem_map_of_mem _ hptr)
        rw [← htotdef, htot] at hle
        unfold PRep.IsRewardable
        have : ¬ 0 < (p.heap.deref ptr).accumulatedPower := by omega
        simp [this]
      rw [rewardLoop_none_rewardable E _ _ _ _ _ _ _ 0
        (fun ptr hptr => hnone ptr ((hwin ptr).1 hptr))]
      exact ⟨_, rfl, le_of_eq_of_le (hzsum _ rfl rfl) hF⟩
    · have htpos : 0 < p.totalAccumulatedPower := by omega
      obtain ⟨h2, hloop, _, hd⟩ := rewardLoop_spec E
        p.electedPRepCount
        (totalReward * wrapInt64 (p.GetTermPeriod
          * E.IScoreICXRatio) / E.MonthBlock)
        p.totalAccumulatedPower minBond
        (totalMinWage * wrapInt64 (p.GetTermPeriod
          * E.IScoreICXRatio) / E.MonthBlock / p.electedPRepCount)
        htot p.rank 0 p.heap hnd hv
      rw [hloop]
      refine ⟨_, rfl, ?_⟩
      generalize htR : totalReward * wrapInt64 (p.GetTermPeriod
          * E.IScoreICXRatio) / E.MonthBlock = tReward at hd
      have htRle : tReward
          ≤ totalReward * ((p.offsetLimit + 1) * E.IScoreICXRatio) / E.MonthBlock := by
        rw [← htR]
        apply Int.ediv_le_ediv hM
        apply Int.mul_le_mul_of_nonneg_left _ hrew
        exact wrap_term_le p.offsetLimit E.IScoreICXRatio hT.1 hT.2 hR
      have hsum : (PRepInfo.PReps ({ p with heap := h2 } : PRepInfo)).map
            (fun r => r.commission + r.voterReward)
          = (p.preps.map Prod.snd).map (fun ptr =>
              if ptr ∈ p.elected ∧ (p.heap.deref ptr).IsRewardable
                  p.electedPRepCount = true
              then tReward * (p.heap.deref ptr).accumulatedPower
                / p.totalAccumulatedPower
              else 0) := by
        unfold PRepInfo.PReps
        rw [List.map_map, List.map_map]
        apply List.map_congr_left
        intro e he
        simp only [Function.comp]
        have hde := hd e.2
        simp only [hwin] at hde
        show (h2.deref e.2).commission + (h2.deref e.2).voterReward = _
        rw [hde]
        split_ifs with hc
        · simp only [PRep.rewarded]
          ring
        · obtain ⟨z1, z2, _⟩ := hzero (p.heap.deref e.2) (by
            unfold PRepInfo.PReps
            exact List.mem_map_of_mem _ he)
          rw [z1, z2]; rfl
      rw [hsum]
      by_cases hneg : tReward < 0
      · refine le_trans (sum_map_nonpos _ _ ?_) hF
        intro x _
        split_ifs with hc
        · have hx := hWacc x hc.1
          have hprod : tReward * (p.heap.deref x).accumulatedPower ≤ 0 :=
            Int.mul_nonpos_of_nonpos_of_nonneg (le_of_lt hneg) hx
          have := Int.ediv_le_ediv htpos hprod
          simpa using this
        · exact le_refl _
      · exact le_trans (sum_shares_le (p.preps.map Prod.snd) p.elected
          (fun ptr => (p.heap.deref ptr).accumulatedPower)
          (fun ptr => (p.heap.deref ptr).IsRewardable
            p.electedPRepCount)
          tReward p.totalAccumulatedPower hMnd hWnd hWacc htotdef
          htpos (by omega)) htRle

/-- C5, amended: no over-distribution of the representative fund when the term period is
not negative. On a PRepInfo with `offsetLimit >= -1` in which all reward fields are zero
and every ranked prep has non-negative accumulated power, `UpdateTotalAccumulatedPower`
followed by `CalculateReward` with `totalReward >= 0` returns, and the sum over all known
preps of `commission + voterReward` is at most
`floor(totalReward * ((offsetLimit+1) * IScoreICXRatio) / MonthBlock)`. -/
theorem no_over_distribution (E : Deps) (p : PRepInfo)
    (totalReward totalMinWage minBond : Int) (hwf : p.WF)
    (hM : 0 < E.MonthBlock) (hR : 0 ≤ E.IScoreICXRatio)
    (hzero : ∀ r ∈ p.PReps, r.commission = 0 ∧ r.voterReward = 0 ∧ r.wage = 0)
    (hacc : ∀ ptr ∈ p.rank, 0 ≤ (p.heap.deref ptr).accumulatedPower)
    (hrew : 0 ≤ totalReward)
    (hT : -1 ≤ p.offsetLimit ∧ p.offsetLimit < 2 ^ 63) :
    ∃ q : PRepInfo,
      p.UpdateTotalAccumulatedPower.CalculateReward E totalReward totalMinWage minBond
        = some q ∧
      (q.PReps.map (fun r => r.commission + r.voterReward)).sum
        ≤ Int.fdiv (totalReward * ((p.offsetLimit + 1) * E.IScoreICXRatio)) E.MonthBlock := by
  have htotdef : p.UpdateTotalAccumulatedPower.totalAccumulatedPower
      = (p.UpdateTotalAccumulatedPower.elected.map
          (fun ptr => (p.UpdateTotalAccumulatedPower.heap.deref ptr).accumulatedPower)).sum := by
    unfold PRepInfo.UpdateTotalAccumulatedPower PRepInfo.elected
    simp [sumAccumulatedPower_eq]
  exact no_over_distribution_aux E p.UpdateTotalAccumulatedPower totalReward totalMinWage
    minBond hwf hM hR hzero hacc hrew hT htotdef

theorem no_over_distribution_witness :
    (testPRepInfoReplayed.WF ∧ 0 < goloop.MonthBlock ∧ 0 ≤ goloop.IScoreICXRatio ∧
      (∀ r ∈ testPRepInfoReplayed.PReps, r.commission = 0 ∧ r.voterReward = 0 ∧ r.wage = 0) ∧
      (∀ ptr ∈ testPRepInfoReplayed.rank,
        0 ≤ (testPRepInfoReplayed.heap.deref ptr).accumulatedPower) ∧
      (0 : Int) ≤ 1000000000 ∧
      (-1 ≤ testPRepInfoReplayed.offsetLimit ∧ testPRepInfoReplayed.offsetLimit < 2 ^ 63)) ∧
    (∃ q : PRepInfo,
      testPRepInfoReplayed.UpdateTotalAccumulatedPower.CalculateReward goloop 1000000000
        10000000 300 = some q ∧
      (q.PReps.map (fun r => r.commission + r.voterReward)).sum
        ≤ Int.fdiv (1000000000 * ((testPRepInfoReplayed.offsetLimit + 1)
            * goloop.IScoreICXRatio)) goloop.MonthBlock) ∧
    ((testPRepInfoReplayed.UpdateTotalAccumulatedPower.CalculateReward goloop 1000000000
        10000000 300).map
        (fun q => (q.PReps.map (fun r => r.commission + r.voterReward)).sum) = some 62635125 ∧
      Int.fdiv (1000000000 * ((testPRepInfoReplayed.offsetLimit + 1)
        * goloop.IScoreICXRatio)) goloop.MonthBlock = 77932098) :=
  ⟨by decide,
    no_over_distribution goloop testPRepInfoReplayed 1000000000 10000000 300
      (by decide) (by decide) (by decide) (by decide) (by decide) (by decide) (by decide),
    by decide⟩

/-! ## Every method keeps the representation well formed -/

theorem WF_NewPRepInfo (br N offsetLimit : Int) : (NewPRepInfo br N offsetLimit).WF := by
  simp [NewPRepInfo, PRepInfo.WF]

theorem WF_of_heap (p : PRepInfo) (h2 : Heap) (hlen : h2.length = p.heap.length)
    (hown : ∀ ptr, (h2.deref ptr).owner = (p.heap.deref ptr).owner) (hwf : p.WF) :
    ({ p with heap := h2 } : PRepInfo).WF := by
  obtain ⟨h1, h2', h3, h4, h5⟩ := hwf
  refine ⟨h1, h2', ?_, h4, ?_⟩
  · intro e he
    show e.2 < h2.length ∧ (h2.deref e.2).owner = e.1
    rw [hlen, hown]
    exact h3 e he
  · intro ptr hptr
    show ptr < h2.length
    rw [hlen]
    exact h5 ptr hptr

theorem Heap.modify_invalid (h : Heap) (ptr : Nat) (f : PRep → PRep)
    (hv : ¬ ptr < h.length) : h.modify ptr f = h := by
  unfold Heap.modify
  exact List.set_eq_of_length_le (by omega)

theorem Heap.owner_modify (h : Heap) (ptr : Nat) (f : PRep → PRep)
    (hf : ∀ q, (f q).owner = q.owner) (other : Nat) :
    ((h.modify ptr f).deref other).owner = (h.deref other).owner := by
  by_cases hx : other = ptr
  · subst hx
    by_cases hv : other < h.length
    · rw [Heap.deref_modify_self _ _ _ hv, hf]
    · rw [Heap.modify_invalid _ _ _ hv]
  · rw [Heap.deref_modify_ne _ _ _ _ hx]

theorem WF_modify (p : PRepInfo) (ptr : Nat) (f : PRep → PRep)
    (hf : ∀ q, (f q).owner = q.owner) (hwf : p.WF) :
    ({ p with heap := p.heap.modify ptr f } : PRepInfo).WF :=
  WF_of_heap p _ (Heap.length_modify _ _ _) (Heap.owner_modify _ _ _ hf) hwf

theorem mem_mapSet (key : List Nat) (ptr : Nat) (es : List (List Nat × Nat))
    (e : List Nat × Nat) (he : e ∈ mapSet key ptr es) : e = (key, ptr) ∨ e ∈ es := by
  induction es with
  | nil =>
    simp only [mapSet, List.mem_singleton] at he
    exact Or.inl he
  | cons x xs ih =>
    unfold mapSet at he
    split_ifs at he with hk
    · rcases List.mem_cons.1 he with h | h
      · exact Or.inl h
      · exact Or.inr (List.mem_cons_of_mem _ h)
    · rcases List.mem_cons.1 he with h | h
      · exact Or.inr (h ▸ List.mem_cons_self _ _)
      · rcases ih h with h1 | h1
        · exact Or.inl h1
        · exact Or.inr (List.mem_cons_of_mem _ h1)

theorem mapSet_keys (key : List Nat) (ptr : Nat) (es : List (List Nat × Nat)) :
    (mapSet key ptr es).map Prod.fst =
      if key ∈ es.map Prod.fst then es.map Prod.fst else es.map Prod.fst ++ [key] := by
  induction es with
  | nil => simp [mapSet]
  | cons x xs ih =>
    unfold mapSet
    by_cases hk : x.1 = key
    · rw [if_pos hk]
      simp [hk]
    · rw [if_neg hk, List.map_cons, ih]
      have hk2 : ¬ key = x.1 := fun e => hk e.symm
      by_cases hm : key ∈ xs.map Prod.fst
      · rw [if_pos hm, if_pos (by simp only [List.map_cons, List.mem_cons]; exact Or.inr hm)]
        rfl
      · rw [if_neg hm, if_neg (by
          simp only [List.map_cons, List.mem_cons]
          exact fun hc => hc.elim hk2 hm)]
        rfl

theorem mapSet_keys_nodup (key : List Nat) (ptr : Nat) (es : List (List Nat × Nat))
    (h : (es.map Prod.fst).Nodup) : ((mapSet key ptr es).map Prod.fst).Nodup := by
  rw [mapSet_keys]
  split_ifs with hm
  · exact h
  · exact List.Nodup.append h (List.nodup_singleton _) (by
      intro a ha hb
      rw [List.mem_singleton] at hb
      exact hm (hb ▸ ha))

theorem mapSet_ptrs_nodup (key : List Nat) (ptr : Nat) (es : List (List Nat × Nat))
    (h : (es.map Prod.snd).Nodup) (hnew : ptr ∉ es.map Prod.snd) :
    ((mapSet key ptr es).map Prod.snd).Nodup := by
  induction es with
  | nil => simp [mapSet]
  | cons x xs ih =>
    rw [List.map_cons, List.nodup_cons] at h
    rw [List.map_cons, List.mem_cons, not_or] at hnew
    unfold mapSet
    split_ifs with hk
    · rw [List.map_cons, List.nodup_cons]
      exact ⟨hnew.2, h.2⟩
    · rw [List.map_cons, List.nodup_cons]
      refine ⟨?_, ih h.2 hnew.2⟩
      intro hc
      obtain ⟨e, he, hx⟩ := List.mem_map.1 hc
      rcases mem_mapSet key ptr xs e he with h1 | h1
      · rw [h1] at hx
        exact hnew.1 hx
      · exact h.1 (hx ▸ List.mem_map_of_mem _ h1)

theorem Heap.deref_append_old (h : Heap) (q : PRep) (ptr : Nat) (hv : ptr < h.length) :
    Heap.deref (h ++ [q]) ptr = h.deref ptr := by
  simp [Heap.deref, List.getD, List.getElem?_append_left hv]

theorem Heap.deref_append_new (h : Heap) (q : PRep) :
    Heap.deref (h ++ [q]) h.length = q := by
  simp [Heap.deref, List.getD]

theorem WF_Add (E : Deps) (p : PRepInfo) (target : List Nat) (status : EnableStatus)
    (delegated bonded commissionRate : Int) (pubkey : Bool) (hwf : p.WF) :
    (p.Add E target status delegated bonded commissionRate pubkey).WF := by
  obtain ⟨h1, h2, h3, h4, h5⟩ := hwf
  unfold PRepInfo.Add
  refine ⟨mapSet_keys_nodup _ _ _ h1, mapSet_ptrs_nodup _ _ _ h2 ?_, ?_, h4, ?_⟩
  · intro hc
    obtain ⟨e, he, hx⟩ := List.mem_map.1 hc
    have := (h3 e he).1
    omega
  · intro e he
    rcases mem_mapSet _ _ _ e he with h | h
    · subst h
      refine ⟨by simp, ?_⟩
      show (Heap.deref (p.heap ++ [_]) p.heap.length).owner = target
      rw [Heap.deref_append_new]
      rfl
    · obtain ⟨hv, ho⟩ := h3 e h
      refine ⟨by simp only [List.length_append, List.length_singleton]; omega, ?_⟩
      show (Heap.deref (p.heap ++ [_]) e.2).owner = e.1
      rw [Heap.deref_append_old _ _ _ hv]
      exact ho
  · intro ptr hptr
    have := h5 ptr hptr
    simp only [List.length_append, List.length_singleton]
    omega

theorem WF_Sort (p : PRepInfo) (hwf : p.WF) : p.Sort_.WF := by
  have hperm := Sort_rank_perm p
  have hd := Sort_heap_deref p hwf
  obtain ⟨h1, h2, h3, _, _⟩ := hwf
  have hlen : p.Sort_.heap.length = p.heap.length := by
    unfold PRepInfo.Sort_
    exact setRanks_length _ _ _
  refine ⟨h1, h2, ?_, hperm.nodup_iff.2 h2, ?_⟩
  · intro e he
    rw [hlen, hd]
    refine ⟨(h3 e he).1, ?_⟩
    split_ifs
    · exact (h3 e he).2
    · exact (h3 e he).2
  · intro ptr hptr
    rw [hlen]
    obtain ⟨e, he, rfl⟩ := List.mem_map.1 (hperm.mem_iff.1 hptr)
    exact (h3 e he).1

theorem WF_SetStatus (E : Deps) (p : PRepInfo) (target : List Nat) (status : EnableStatus)
    (hwf : p.WF) : (p.SetStatus E target status).WF := by
  unfold PRepInfo.SetStatus
  dsimp only
  split
  · exact WF_modify p _ _ (fun _ => rfl) hwf
  · exact WF_Add E p _ _ _ _ _ _ hwf

theorem ApplyVote_owner (E : Deps) (q : PRep) (vType : VoteType) (amount period br : Int) :
    (q.ApplyVote E vType amount period br).owner = q.owner := by
  unfold PRep.ApplyVote
  by_cases hv : vType = VoteType.vtBond <;> simp only [hv, if_true, if_false] <;>
    split_ifs <;> rfl

theorem WF_applyOneVote (E : Deps) (vType : VoteType) (offset : Int) (p : PRepInfo)
    (vote : List Nat × Int) (hwf : p.WF) : (PRepInfo.applyOneVote E vType offset p vote).WF := by
  unfold PRepInfo.applyOneVote
  dsimp only
  split
  · exact WF_modify p _ _ (fun q => ApplyVote_owner E q _ _ _ _) hwf
  · exact WF_modify _ _ _ (fun q => ApplyVote_owner E q _ _ _ _) (WF_Add E p _ _ _ _ _ _ hwf)

theorem WF_ApplyVote (E : Deps) (vType : VoteType) (votes : List (List Nat × Int))
    (offset : Int) : ∀ (p : PRepInfo), p.WF → (p.ApplyVote E vType votes offset).WF := by
  induction votes with
  | nil => intro p hwf; exact hwf
  | cons v vs ih =>
    intro p hwf
    exact ih _ (WF_applyOneVote E vType offset p v hwf)

theorem initLoop_heap (N T : Int) (l : List Nat) : ∀ (i : Nat) (h : Heap),
    (initLoop N T i l h).length = h.length ∧
    ∀ ptr, ((initLoop N T i l h).deref ptr).owner = (h.deref ptr).owner := by
  induction l with
  | nil => intro i h; exact ⟨rfl, fun _ => rfl⟩
  | cons x xs ih =>
    intro i h
    unfold initLoop
    split_ifs
    · exact ⟨rfl, fun _ => rfl⟩
    · obtain ⟨hl, ho⟩ := ih (i + 1) (h.modify x (fun q => q.InitAccumulated T))
      refine ⟨by rw [hl, Heap.length_modify], fun ptr => ?_⟩
      rw [ho, Heap.owner_modify h x (fun q => q.InitAccumulated T) (fun _ => rfl) ptr]

theorem WF_InitAccumulated (p : PRepInfo) (hwf : p.WF) : p.InitAccumulated.WF := by
  obtain ⟨hl, ho⟩ := initLoop_heap p.electedPRepCount p.GetTermPeriod p.rank 0 p.heap
  exact WF_of_heap p _ hl ho hwf

theorem WF_UpdateTotalAccumulatedPower (p : PRepInfo) (hwf : p.WF) :
    p.UpdateTotalAccumulatedPower.WF := hwf

theorem rewardLoop_heap (E : Deps) (N tReward tot minBond w : Int) (l : List Nat) :
    ∀ (i : Nat) (h h2 : Heap), rewardLoop E N tReward tot minBond w i l h = some h2 →
    h2.length = h.length ∧ ∀ ptr, (h2.deref ptr).owner = (h.deref ptr).owner := by
  induction l with
  | nil =>
    intro i h h2 he
    simp only [rewardLoop, Option.some.injEq] at he
    subst he
    exact ⟨rfl, fun _ => rfl⟩
  | cons x xs ih =>
    intro i h h2 he
    unfold rewardLoop at he
    split_ifs at he with hN hr
    · simp only [Option.some.injEq] at he
      subst he
      exact ⟨rfl, fun _ => rfl⟩
    · exact ih _ _ _ he
    · by_cases htot : tot = 0
      · simp [PRep.CalculateReward, htot] at he
      · rw [CalculateReward_eq_rewarded E _ _ _ _ _ htot] at he
        obtain ⟨hl, ho⟩ := ih _ _ _ he
        refine ⟨by rw [hl, Heap.length_modify], fun ptr => ?_⟩
        rw [ho]
        by_cases hx : ptr = x
        · subst hx
          by_cases hv : ptr < h.length
          · rw [Heap.deref_modify_self _ _ _ hv]
            rfl
          · rw [Heap.modify_invalid _ _ _ hv]
        · rw [Heap.deref_modify_ne _ _ _ _ hx]

theorem WF_CalculateReward (E : Deps) (p q : PRepInfo) (totalReward totalMinWage minBond : Int)
    (hwf : p.WF) (hq : p.CalculateReward E totalReward totalMinWage minBond = some q) :
    q.WF := by
  unfold PRepInfo.CalculateReward at hq
  split_ifs at hq with hN
  · simp only [Option.some.injEq] at hq
    subst hq
    exact hwf
  · split at hq
    · exact absurd hq (by simp)
    · split at hq
      · exact absurd hq (by simp)
      · dsimp only at hq
        split at hq
        · exact absurd hq (by simp)
        · rename_i h2 hloop
          simp only [Option.some.injEq] at hq
          subst hq
          obtain ⟨hl, ho⟩ := rewardLoop_heap E _ _ _ _ _ _ _ _ _ hloop
          exact WF_of_heap p _ hl ho hwf

theorem WF_of_Reachable (E : Deps) (p : PRepInfo) (h : PRepInfo.Reachable E p) : p.WF := by
  induction h with
  | new br N offsetLimit => exact WF_NewPRepInfo br N offsetLimit
  | add target status delegated bonded commissionRate pubkey _ ih =>
    exact WF_Add E _ target status delegated bonded commissionRate pubkey ih
  | setStatus target status _ ih => exact WF_SetStatus E _ target status ih
  | sort _ ih => exact WF_Sort _ ih
  | initAccumulated _ ih => exact WF_InitAccumulated _ ih
  | applyVote vType votes offset _ ih => exact WF_ApplyVote E vType votes offset _ ih
  | updateTotalAccumulatedPower _ ih => exact WF_UpdateTotalAccumulatedPower _ ih
  | calculateReward totalReward totalMinWage minBond _ hq ih =>
    exact WF_CalculateReward E _ _ totalReward totalMinWage minBond ih hq

/-! ## Electability and rewardability -/

/-- C18: `PRep.IsRewardable(N)` is true exactly when the status is enabled, the rank is
below `N` and the accumulated power is positive; a prep whose status is unjailing is
electable when it has the public key, yet it is rewardable for no `N`. -/
theorem IsRewardable_iff :
    (∀ (p : PRep) (N : Int), p.IsRewardable N = true ↔
      (p.status = EnableStatus.ESEnable ∧ p.rank < N ∧ 0 < p.accumulatedPower)) ∧
    (∀ (p : PRep) (N : Int),
      ({ p with status := EnableStatus.ESUnjail } : PRep).IsRewardable N = false ∧
      ({ p with status := EnableStatus.ESUnjail, pubkey := true } : PRep).IsElectable = true ∧
      ({ p with status := EnableStatus.ESUnjail, pubkey := true } : PRep).IsRewardable N
        = false) := by
  constructor
  · intro p N
    simp [PRep.IsRewardable, and_assoc]
  · intro p N
    simp [PRep.IsRewardable, PRep.IsElectable]

/-- C19: `PRep.IsElectable()` is true exactly when the prep has the public key and its
status is enabled or unjailing; two preps with the same status and public-key flag are
equally electable, whatever their owner, stake, commission rate, power, rank,
accumulators and reward fields. -/
theorem IsElectable_iff :
    (∀ p : PRep, p.IsElectable = true ↔
      (p.pubkey = true ∧
        (p.status = EnableStatus.ESEnable ∨ p.status = EnableStatus.ESUnjail))) ∧
    (∀ (p : PRep) (owner : List Nat) (delegated bonded commissionRate power rank
        accumulatedVoted accumulatedPower commission voterReward wage : Int),
      ({ status := p.status, pubkey := p.pubkey, owner := owner, delegated := delegated,
         bonded := bonded, commissionRate := commissionRate, power := power, rank := rank,
         accumulatedVoted := accumulatedVoted, accumulatedPower := accumulatedPower,
         commission := commission, voterReward := voterReward, wage := wage } :
        PRep).IsElectable = p.IsElectable) := by
  constructor
  · intro p
    simp [PRep.IsElectable]
  · intros
    rfl

/-! ## Continuity at the term boundary -/

/-- C13: seeding with `InitAccumulated(T)` and then applying a vote with the full term
`T` as remaining offsets gives the same PRep, in every field, as changing the stake by
the amount, recomputing the power with `UpdatePower(br)` and seeding with
`InitAccumulated(T)`; this holds whether or not the power was current before. -/
theorem InitAccumulated_ApplyVote_continuity (E : Deps) (p : PRep) (vType : VoteType)
    (amount T br : Int) :
    (p.InitAccumulated T).ApplyVote E vType amount T br
      = ((p.changeStake vType amount).UpdatePower E br).InitAccumulated T ∧
    ((p.InitAccumulated T).ApplyVote E vType amount T br).bonded
      = (if vType = VoteType.vtBond then p.bonded + amount else p.bonded) ∧
    ((p.InitAccumulated T).ApplyVote E vType amount T br).delegated
      = (if vType = VoteType.vtBond then p.delegated else p.delegated + amount) ∧
    ((p.InitAccumulated T).ApplyVote E vType amount T br).accumulatedVoted
      = (p.delegated + p.bonded + amount) * T ∧
    ((p.InitAccumulated T).ApplyVote E vType amount T br).accumulatedPower
      = ((p.InitAccumulated T).ApplyVote E vType amount T br).power * T := by
  have key : (p.InitAccumulated T).ApplyVote E vType amount T br
      = ((p.changeStake vType amount).UpdatePower E br).InitAccumulated T := by
    unfold PRep.ApplyVote PRep.changeStake PRep.UpdatePower PRep.InitAccumulated
    simp only [bigCmp_ne_zero_iff]
    by_cases hv : vType = VoteType.vtBond
    · simp only [hv, if_true]
      split_ifs with hpow
      · simp only [PRep.calcPower, PRep.GetVotedValue, PRep.mk.injEq, true_and, and_true]
        constructor <;> ring
      · have hpow2 := not_not.1 hpow
        simp only [PRep.calcPower, PRep.GetVotedValue] at hpow2
        simp only [PRep.calcPower, PRep.GetVotedValue, PRep.mk.injEq, true_and, and_true,
          ← hpow2]
        ring
    · simp only [hv, if_false]
      split_ifs with hpow
      · simp only [PRep.calcPower, PRep.GetVotedValue, PRep.mk.injEq, true_and, and_true]
        constructor <;> ring
      · have hpow2 := not_not.1 hpow
        simp only [PRep.calcPower, PRep.GetVotedValue] at hpow2
        simp only [PRep.calcPower, PRep.GetVotedValue, PRep.mk.injEq, true_and, and_true,
          ← hpow2]
        ring
  refine ⟨key, ?_⟩
  rw [key]
  unfold PRep.changeStake PRep.UpdatePower PRep.InitAccumulated
  by_cases hv : vType = VoteType.vtBond
  · rw [if_pos hv, if_pos hv, if_pos hv]
    refine ⟨rfl, rfl, ?_, rfl⟩
    simp only [PRep.GetVotedValue]
    ring
  · rw [if_neg hv, if_neg hv, if_neg hv]
    refine ⟨rfl, rfl, ?_, rfl⟩
    simp only [PRep.GetVotedValue]
    ring

/-! ## What the events leave alone -/

theorem SetStatus_fixedPart (E : Deps) (p : PRepInfo) (target : List Nat)
    (status : EnableStatus) : (p.SetStatus E target status).fixedPart = p.fixedPart := by
  unfold PRepInfo.SetStatus
  dsimp only
  split <;> rfl

theorem applyOneVote_fixedPart (E : Deps) (vType : VoteType) (offset : Int) (p : PRepInfo)
    (vote : List Nat × Int) :
    (PRepInfo.applyOneVote E vType offset p vote).fixedPart = p.fixedPart := by
  unfold PRepInfo.applyOneVote
  dsimp only
  split <;> rfl

theorem ApplyVote_fixedPart (E : Deps) (vType : VoteType) (votes : List (List Nat × Int))
    (offset : Int) : ∀ p : PRepInfo, (p.ApplyVote E vType votes offset).fixedPart = p.fixedPart := by
  induction votes with
  | nil => intro p; rfl
  | cons v vs ih =>
    intro p
    show (PRepInfo.ApplyVote E (PRepInfo.applyOneVote E vType offset p v) vType vs
      offset).fixedPart = p.fixedPart
    rw [ih, applyOneVote_fixedPart]

theorem applyEvent_fixedPart (E : Deps) (p : PRepInfo) (e : Event) :
    (p.applyEvent E e).fixedPart = p.fixedPart := by
  cases e with
  | enable target status => exact SetStatus_fixedPart E p target status
  | vote vType votes offset => exact ApplyVote_fixedPart E vType votes offset p

theorem applyEvents_fixedPart (E : Deps) (events : List Event) :
    ∀ p : PRepInfo, (p.applyEvents E events).fixedPart = p.fixedPart := by
  induction events with
  | nil => intro p; rfl
  | cons e es ih =>
    intro p
    show ((p.applyEvent E e).applyEvents E es).fixedPart = p.fixedPart
    rw [ih, applyEvent_fixedPart]

theorem fixedPart_rank (p q : PRepInfo) (h : q.fixedPart = p.fixedPart) :
    q.rank = p.rank ∧ q.electedPRepCount = p.electedPRepCount ∧
    q.offsetLimit = p.offsetLimit ∧ q.bondRequirement = p.bondRequirement ∧
    q.totalAccumulatedPower = p.totalAccumulatedPower := by
  unfold PRepInfo.fixedPart at h
  simp only [Prod.mk.injEq] at h
  exact h

/-- C15: `UpdateTotalAccumulatedPower` stores the sum of `accumulatedPower` over the first
`min(electedPRepCount, n)` entries of the rank sequence and changes nothing else; status
and vote events leave the rank sequence and `electedPRepCount` as the last `Sort` left
them, so after any events the sum runs over that same window, with the accumulated
power the events produced; in `TestPRepInfo` the total is 926200. -/
theorem UpdateTotalAccumulatedPower_post :
    (∀ p : PRepInfo,
      p.UpdateTotalAccumulatedPower.totalAccumulatedPower
        = ((p.rank.take p.electedPRepCount.toNat).map
            (fun ptr => (p.heap.deref ptr).accumulatedPower)).sum ∧
      (p.rank.take p.electedPRepCount.toNat).length
        = min p.electedPRepCount.toNat p.rank.length ∧
      p.UpdateTotalAccumulatedPower
        = { p with totalAccumulatedPower
              := p.UpdateTotalAccumulatedPower.totalAccumulatedPower } ∧
      p.UpdateTotalAccumulatedPower.heap = p.heap ∧
      p.UpdateTotalAccumulatedPower.preps = p.preps ∧
      p.UpdateTotalAccumulatedPower.rank = p.rank) ∧
    (∀ (E : Deps) (p : PRepInfo) (events : List Event),
      (p.applyEvents E events).rank = p.rank ∧
      (p.applyEvents E events).electedPRepCount = p.electedPRepCount ∧
      (p.applyEvents E events).UpdateTotalAccumulatedPower.totalAccumulatedPower
        = ((p.rank.take p.electedPRepCount.toNat).map
            (fun ptr => ((p.applyEvents E events).heap.deref ptr).accumulatedPower)).sum) ∧
    (testPRepInfoReplayed.totalAccumulatedPower = 926200 ∧
     testPRepInfoReplayed.totalAccumulatedPower
      = ((testPRepInfoReplayed.PReps.filter
            (fun r => decide (r.rank < testPRepInfoReplayed.electedPRepCount))).map
          (fun r => r.accumulatedPower)).sum) := by
  have h1 : ∀ p : PRepInfo,
      p.UpdateTotalAccumulatedPower.totalAccumulatedPower
        = ((p.rank.take p.electedPRepCount.toNat).map
            (fun ptr => (p.heap.deref ptr).accumulatedPower)).sum := by
    intro p
    unfold PRepInfo.UpdateTotalAccumulatedPower
    simp [sumAccumulatedPower_eq]
  refine ⟨fun p => ⟨h1 p, List.length_take _ _, rfl, rfl, rfl, rfl⟩, ?_, by decide⟩
  intro E p events
  obtain ⟨hr, hN, _, _, _⟩ := fixedPart_rank p _ (applyEvents_fixedPart E events p)
  refine ⟨hr, hN, ?_⟩
  rw [h1, hr, hN]

/-- C16: with `electedPRepCount = 0`, `PRepInfo.CalculateReward` returns with a nil error
for every reward fund, wage fund, minimum bond and set of preps, also when `MonthBlock`
or `totalAccumulatedPower` is zero, and the PRepInfo it leaves is the one it was given. -/
theorem CalculateReward_without_elected_prep (E : Deps) (p : PRepInfo)
    (totalReward totalMinWage minBond : Int) (hN : p.electedPRepCount = 0) :
    p.CalculateReward E totalReward totalMinWage minBond = some p := by
  unfold PRepInfo.CalculateReward
  rw [if_pos hN]

theorem CalculateReward_without_elected_prep_witness :
    (NewPRepInfo 500 0 100).electedPRepCount = 0 ∧
    (NewPRepInfo 500 0 100).CalculateReward goloop 1000 1000 300
      = some (NewPRepInfo 500 0 100) :=
  ⟨rfl, CalculateReward_without_elected_prep goloop (NewPRepInfo 500 0 100) 1000 1000 300 rfl⟩

/-! ## Seeding the elected window -/

theorem initLoop_spec (N T : Int) (l : List Nat) : ∀ (i : Nat) (h : Heap), l.Nodup →
    (∀ ptr ∈ l, ptr < h.length) →
    (initLoop N T i l h).length = h.length ∧
    ∀ ptr, (initLoop N T i l h).deref ptr =
      if ptr ∈ l.take (N - (i : Int)).toNat then (h.deref ptr).InitAccumulated T
      else h.deref ptr := by
  induction l with
  | nil => intro i h _ _; exact ⟨rfl, fun ptr => by simp [initLoop]⟩
  | cons x xs ih =>
    intro i h hnd hv
    rw [List.nodup_cons] at hnd
    unfold initLoop
    by_cases hN : N ≤ (i : Int)
    · rw [if_pos hN, window_zero N i hN]
      exact ⟨rfl, fun ptr => by simp⟩
    · rw [if_neg hN, window_succ N i hN]
      obtain ⟨hlen, hd⟩ := ih (i + 1) (h.modify x (fun q => q.InitAccumulated T)) hnd.2
        (fun q hq => by rw [Heap.length_modify]; exact hv q (List.mem_cons_of_mem _ hq))
      refine ⟨by rw [hlen, Heap.length_modify], ?_⟩
      intro ptr
      rw [hd ptr, List.take_succ_cons]
      by_cases hx : ptr = x
      · subst hx
        have hnot : ptr ∉ xs.take (N - ((i + 1 : Nat) : Int)).toNat :=
          fun hm => hnd.1 (List.mem_of_mem_take hm)
        rw [if_neg hnot, if_pos (List.mem_cons_self _ _),
          Heap.deref_modify_self _ _ _ (hv ptr (List.mem_cons_self _ _))]
      · rw [Heap.deref_modify_ne _ _ _ _ hx]
        simp only [List.mem_cons, hx, false_or]

theorem InitAccumulated_deref (p : PRepInfo) (hwf : p.WF) (ptr : Nat) :
    p.InitAccumulated.heap.deref ptr =
      if ptr ∈ p.elected then (p.heap.deref ptr).InitAccumulated p.GetTermPeriod
      else p.heap.deref ptr := by
  obtain ⟨_, _, _, hnd, hv⟩ := hwf
  have h := (initLoop_spec p.electedPRepCount p.GetTermPeriod p.rank 0 p.heap hnd hv).2 ptr
  simp only [Nat.cast_zero, sub_zero] at h
  exact h

theorem mem_take_of_indexOf_lt (l : List Nat) (x : Nat) (n : Nat) (hx : x ∈ l)
    (h : l.indexOf x < n) : x ∈ l.take n := by
  induction l generalizing n with
  | nil => cases hx
  | cons y ys ih =>
    cases n with
    | zero => omega
    | succ m =>
      rw [List.take_succ_cons]
      by_cases hxy : x = y
      · subst hxy; exact List.mem_cons_self _ _
      · have hx2 : x ∈ ys := by
          rcases List.mem_cons.1 hx with h1 | h1
          · exact absurd h1 hxy
          · exact h1
        rw [List.indexOf_cons_ne _ (Ne.symm hxy)] at h
        exact List.mem_cons_of_mem _ (ih m hx2 (by omega))

theorem indexOf_lt_of_mem_take (l : List Nat) (x : Nat) (n : Nat) (hx : x ∈ l.take n) :
    l.indexOf x < n := by
  induction l generalizing n with
  | nil => simp at hx
  | cons y ys ih =>
    cases n with
    | zero => simp at hx
    | succ m =>
      rw [List.take_succ_cons] at hx
      by_cases hxy : x = y
      · subst hxy; simp
      · have hx2 : x ∈ ys.take m := by
          rcases List.mem_cons.1 hx with h1 | h1
          · exact absurd h1 hxy
          · exact h1
        rw [List.indexOf_cons_ne _ (Ne.symm hxy)]
        have := ih m hx2
        omega

theorem Sort_elected_iff (p : PRepInfo) (hwf : p.WF) (ptr : Nat)
    (hptr : ptr ∈ p.preps.map Prod.snd) :
    ptr ∈ p.Sort_.elected ↔ (p.Sort_.heap.deref ptr).rank < p.Sort_.electedPRepCount := by
  have hmem : ptr ∈ p.Sort_.rank := (Sort_rank_perm p).mem_iff.2 hptr
  have hrank : (p.Sort_.heap.deref ptr).rank = ((p.Sort_.rank.indexOf ptr : Nat) : Int) := by
    rw [Sort_heap_deref p hwf, if_pos hmem]
    rfl
  rw [hrank]
  unfold PRepInfo.elected
  constructor
  · intro h
    have := indexOf_lt_of_mem_take _ _ _ h
    omega
  · intro h
    exact mem_take_of_indexOf_lt _ _ _ hmem (by omega)

/-- C11 does not hold as stated: the term period is `int64(offsetLimit + 1)`, which
wraps. With the five test records and an offset limit of `2^63 - 1`, the largest `int`,
the term period is `-2^63`; `hx3`, the first entry of the rank sequence, has a voted
value of 3300 and is seeded with `accumulatedVoted = 3300 * -2^63`, while
`PRep.InitAccumulated(offsetLimit + 1)` would give `3300 * 2^63`. -/
theorem InitAccumulated_period_counterexample :
    maxOffsetInfo.offsetLimit = 2 ^ 63 - 1 ∧
    maxOffsetInfo.Sort_.GetTermPeriod = -2 ^ 63 ∧
    maxOffsetInfo.Sort_.rank.take maxOffsetInfo.Sort_.electedPRepCount.toNat = [2, 0, 4, 3] ∧
    ((maxOffsetInfo.Sort_.heap.deref 2).owner = hx 3 ∧
      (maxOffsetInfo.Sort_.heap.deref 2).GetVotedValue = 3300) ∧
    (maxOffsetInfo.Sort_.InitAccumulated.heap.deref 2).accumulatedVoted
      = -30437127721620760166400 ∧
    ((maxOffsetInfo.Sort_.heap.deref 2).InitAccumulated
      (maxOffsetInfo.offsetLimit + 1)).accumulatedVoted = 30437127721620760166400 ∧
    maxOffsetInfo.Sort_.InitAccumulated.heap.deref 2
      ≠ (maxOffsetInfo.Sort_.heap.deref 2).InitAccumulated (maxOffsetInfo.offsetLimit + 1) :=
  ⟨by decide, by decide, by decide, ⟨by decide, by decide⟩, by decide, by decide, by decide⟩

/-- C11, amended: when `offsetLimit + 1` lies within `int64`, after `Sort`,
`PRepInfo.InitAccumulated` applies `PRep.InitAccumulated(offsetLimit + 1)` to the first
`min(electedPRepCount, n)` entries of the rank sequence and changes no other object and
nothing else in the PRepInfo; a known prep is in that window exactly when its rank is
below `electedPRepCount`, so every prep with `rank >= electedPRepCount` keeps its
accumulators (zero if they were zero). -/
theorem PRepInfo_InitAccumulated_post (p : PRepInfo) (hwf : p.WF)
    (hT : -2 ^ 63 ≤ p.offsetLimit + 1 ∧ p.offsetLimit + 1 < 2 ^ 63) :
    (∀ ptr ∈ p.Sort_.rank.take p.Sort_.electedPRepCount.toNat,
      p.Sort_.InitAccumulated.heap.deref ptr
        = (p.Sort_.heap.deref ptr).InitAccumulated (p.offsetLimit + 1)) ∧
    (∀ ptr, ptr ∉ p.Sort_.rank.take p.Sort_.electedPRepCount.toNat →
      p.Sort_.InitAccumulated.heap.deref ptr = p.Sort_.heap.deref ptr) ∧
    (p.Sort_.rank.take p.Sort_.electedPRepCount.toNat).length
      = min p.Sort_.electedPRepCount.toNat p.preps.length ∧
    (∀ ptr ∈ p.preps.map Prod.snd,
      (ptr ∈ p.Sort_.rank.take p.Sort_.electedPRepCount.toNat
        ↔ (p.Sort_.heap.deref ptr).rank < p.Sort_.electedPRepCount)) ∧
    (∀ ptr ∈ p.preps.map Prod.snd,
      p.Sort_.electedPRepCount ≤ (p.Sort_.heap.deref ptr).rank →
      p.Sort_.InitAccumulated.heap.deref ptr = p.Sort_.heap.deref ptr) ∧
    p.Sort_.InitAccumulated
      = { p.Sort_ with heap := p.Sort_.InitAccumulated.heap } ∧
    p.Sort_.InitAccumulated.heap.length = p.Sort_.heap.length ∧
    p.Sort_.GetTermPeriod = p.offsetLimit + 1 := by
  have hwfS := WF_Sort p hwf
  have hd := InitAccumulated_deref p.Sort_ hwfS
  have helect : p.Sort_.elected = p.Sort_.rank.take p.Sort_.electedPRepCount.toNat := rfl
  have hperiod : p.Sort_.GetTermPeriod = p.offsetLimit + 1 := wrapInt64_eq _ hT.1 hT.2
  refine ⟨?_, ?_, ?_, ?_, ?_, rfl, ?_, hperiod⟩
  · intro ptr hptr
    rw [hd, helect, if_pos hptr, hperiod]
  · intro ptr hptr
    rw [hd, helect, if_neg hptr]
  · rw [List.length_take, (Sort_rank_perm p).length_eq, List.length_map]
  · intro ptr hptr
    rw [← helect]
    exact Sort_elected_iff p hwf ptr hptr
  · intro ptr hptr hrank
    rw [hd, if_neg]
    intro hc
    have := (Sort_elected_iff p hwf ptr hptr).1 hc
    omega
  · obtain ⟨_, _, _, hnd, hv⟩ := hwfS
    exact (initLoop_spec _ _ _ 0 _ hnd hv).1

theorem PRepInfo_InitAccumulated_post_witness :
    (testPRepInfo.WF ∧
      (-2 ^ 63 ≤ testPRepInfo.offsetLimit + 1 ∧ testPRepInfo.offsetLimit + 1 < 2 ^ 63)) ∧
    ((∀ ptr ∈ testPRepInfo.Sort_.rank.take testPRepInfo.Sort_.electedPRepCount.toNat,
      testPRepInfo.Sort_.InitAccumulated.heap.deref ptr
        = (testPRepInfo.Sort_.heap.deref ptr).InitAccumulated
            (testPRepInfo.offsetLimit + 1)) ∧
    (∀ ptr, ptr ∉ testPRepInfo.Sort_.rank.take testPRepInfo.Sort_.electedPRepCount.toNat →
      testPRepInfo.Sort_.InitAccumulated.heap.deref ptr = testPRepInfo.Sort_.heap.deref ptr) ∧
    (testPRepInfo.Sort_.rank.take testPRepInfo.Sort_.electedPRepCount.toNat).length
      = min testPRepInfo.Sort_.electedPRepCount.toNat testPRepInfo.preps.length ∧
    (∀ ptr ∈ testPRepInfo.preps.map Prod.snd,
      (ptr ∈ testPRepInfo.Sort_.rank.take testPRepInfo.Sort_.electedPRepCount.toNat
        ↔ (testPRepInfo.Sort_.heap.deref ptr).rank < testPRepInfo.Sort_.electedPRepCount)) ∧
    (∀ ptr ∈ testPRepInfo.preps.map Prod.snd,
      testPRepInfo.Sort_.electedPRepCount ≤ (testPRepInfo.Sort_.heap.deref ptr).rank →
      testPRepInfo.Sort_.InitAccumulated.heap.deref ptr = testPRepInfo.Sort_.heap.deref ptr) ∧
    testPRepInfo.Sort_.InitAccumulated
      = { testPRepInfo.Sort_ with heap := testPRepInfo.Sort_.InitAccumulated.heap } ∧
    testPRepInfo.Sort_.InitAccumulated.heap.length = testPRepInfo.Sort_.heap.length ∧
    testPRepInfo.Sort_.GetTermPeriod = testPRepInfo.offsetLimit + 1) ∧
    (testPRepInfo.Sort_.GetTermPeriod = 101 ∧
     testPRepInfo.Sort_.rank.take testPRepInfo.Sort_.electedPRepCount.toNat = [2, 0, 4, 3] ∧
     testPRepInfo.Sort_.InitAccumulated.heap.map
        (fun r => (r.owner, r.rank, r.accumulatedVoted, r.accumulatedPower))
      = [(hx 1, 1, 111100, 111100), (hx 2, 4, 0, 0), (hx 3, 0, 333300, 333300),
         (hx 4, 3, 408040, 80800), (hx 5, 2, 510050, 101000)]) :=
  ⟨⟨by decide, by decide, by decide⟩,
    PRepInfo_InitAccumulated_post testPRepInfo (by decide) ⟨by decide, by decide⟩,
    ⟨by decide, by decide, by decide⟩⟩

theorem WF_addAll (E : Deps) (calls : List AddCall) :
    ∀ p : PRepInfo, p.WF → (p.addAll E calls).WF := by
  induction calls with
  | nil => intro p h; exact h
  | cons c cs ih =>
    intro p h
    exact ih _ (WF_Add E p _ _ _ _ _ _ h)

theorem Heap.deref_mem (h : Heap) (ptr : Nat) (hv : ptr < h.length) : h.deref ptr ∈ h := by
  unfold Heap.deref
  rw [List.getD_eq_getElem _ _ hv]
  exact List.getElem_mem hv

theorem addAll_fresh (E : Deps) (calls : List AddCall) : ∀ p : PRepInfo,
    (∀ x ∈ p.heap, x.accumulatedVoted = 0 ∧ x.accumulatedPower = 0) →
    ∀ x ∈ (p.addAll E calls).heap, x.accumulatedVoted = 0 ∧ x.accumulatedPower = 0 := by
  induction calls with
  | nil => intro p h; exact h
  | cons c cs ih =>
    intro p h
    refine ih _ ?_
    intro x hx
    unfold PRepInfo.Add at hx
    rcases List.mem_append.1 hx with h1 | h1
    · exact h x h1
    · rw [List.mem_singleton] at h1
      subst h1
      exact ⟨rfl, rfl⟩

theorem seeding_of_fresh (p : PRepInfo) (hwf : p.WF)
    (hfresh : ∀ x ∈ p.heap, x.accumulatedVoted = 0 ∧ x.accumulatedPower = 0) :
    ∀ r ∈ p.Sort_.InitAccumulated.PReps,
      (r.rank < p.electedPRepCount →
        r.accumulatedVoted = (r.delegated + r.bonded) * p.GetTermPeriod ∧
        r.accumulatedPower = r.power * p.GetTermPeriod) ∧
      (p.electedPRepCount ≤ r.rank → r.accumulatedVoted = 0 ∧ r.accumulatedPower = 0) := by
  intro r hr
  unfold PRepInfo.PReps at hr
  obtain ⟨e, he, rfl⟩ := List.mem_map.1 hr
  have he2 : e ∈ p.preps := he
  have hptr : e.2 ∈ p.preps.map Prod.snd := List.mem_map_of_mem _ he2
  have hd := InitAccumulated_deref p.Sort_ (WF_Sort p hwf) e.2
  have hiff := Sort_elected_iff p hwf e.2 hptr
  have hN : p.Sort_.electedPRepCount = p.electedPRepCount := rfl
  have hT : p.Sort_.GetTermPeriod = p.GetTermPeriod := rfl
  rw [hN] at hiff
  rw [hT] at hd
  have hold : (p.Sort_.heap.deref e.2).accumulatedVoted = 0 ∧
      (p.Sort_.heap.deref e.2).accumulatedPower = 0 := by
    have hx := hfresh _ (Heap.deref_mem p.heap e.2 (hwf.2.2.1 e he2).1)
    rw [Sort_heap_deref p hwf]
    split_ifs
    · exact hx
    · exact hx
  by_cases hin : e.2 ∈ p.Sort_.elected
  · rw [if_pos hin] at hd
    rw [hd]
    have hlt := hiff.1 hin
    refine ⟨fun _ => ⟨rfl, rfl⟩, fun hge => ?_⟩
    have hrk : ((p.Sort_.heap.deref e.2).InitAccumulated p.GetTermPeriod).rank
        = (p.Sort_.heap.deref e.2).rank := rfl
    rw [hrk] at hge
    omega
  · rw [if_neg hin] at hd
    rw [hd]
    refine ⟨fun hlt => absurd (hiff.2 hlt) hin, fun _ => hold⟩

/-- C12 does not hold as stated: with the five preps of `TestPRepInfo` and five elected
representatives instead of four, the jailed `hx2` is not electable, has rank 4 inside the
elected window, and is seeded with `accumulatedVoted = 2200 * 101`, not 0. -/
theorem seeding_counterexample :
    testPRepInfoFive.Sort_.InitAccumulated.electedPRepCount = 5 ∧
    (testPRepInfoFive.Sort_.InitAccumulated.GetPRep (hx 2)).map
      (fun r => (r.IsElectable, r.rank, r.accumulatedVoted)) = some (false, 4, 222200) := by
  decide

/-- C12, amended: for every set of freshly added preps, after `Sort` and
`InitAccumulated` every prep with `rank < electedPRepCount`, electable or not, has
`accumulatedVoted = (delegated + bonded) * termPeriod` and
`accumulatedPower = power * termPeriod`, and every prep with
`rank >= electedPRepCount` has both accumulators 0. So the assertion of `TestPRepInfo`
holds whenever no prep that is not electable ranks inside the window, as in the test,
where the seeded values are those of `a3`, `a1`, `a5`, `a4` and `a2` keeps 0. -/
theorem seeding_by_rank :
    (∀ (E : Deps) (bondRequirement electedPRepCount offsetLimit : Int)
        (calls : List AddCall),
      ∀ r ∈ (((NewPRepInfo bondRequirement electedPRepCount offsetLimit).addAll E
          calls).Sort_.InitAccumulated).PReps,
        (r.rank < electedPRepCount →
          r.accumulatedVoted = (r.delegated + r.bonded) * wrapInt64 (offsetLimit + 1) ∧
          r.accumulatedPower = r.power * wrapInt64 (offsetLimit + 1)) ∧
        (electedPRepCount ≤ r.rank → r.accumulatedVoted = 0 ∧ r.accumulatedPower = 0)) ∧
    (∀ (E : Deps) (bondRequirement electedPRepCount offsetLimit : Int)
        (calls : List AddCall),
      (∀ r ∈ (((NewPRepInfo bondRequirement electedPRepCount offsetLimit).addAll E
          calls).Sort_.InitAccumulated).PReps,
        r.IsElectable = false → electedPRepCount ≤ r.rank) →
      ∀ r ∈ (((NewPRepInfo bondRequirement electedPRepCount offsetLimit).addAll E
          calls).Sort_.InitAccumulated).PReps,
        (r.rank < electedPRepCount ∧ r.IsElectable = true →
          r.accumulatedVoted = (r.delegated + r.bonded) * wrapInt64 (offsetLimit + 1) ∧
          r.accumulatedPower = r.power * wrapInt64 (offsetLimit + 1)) ∧
        (¬ (r.rank < electedPRepCount ∧ r.IsElectable = true) → r.accumulatedVoted = 0)) ∧
    (testPRepInfo.Sort_.InitAccumulated.PReps.map
        (fun r => (r.rank, r.IsElectable, r.accumulatedVoted, r.accumulatedPower))
      = [(1, true, 1100 * 101, 1100 * 101), (4, false, 0, 0), (0, true, 3300 * 101, 3300 * 101),
         (3, true, 4040 * 101, 800 * 101), (2, true, 5050 * 101, 1000 * 101)]) := by
  have main : ∀ (E : Deps) (bondRequirement electedPRepCount offsetLimit : Int)
      (calls : List AddCall),
      ∀ r ∈ (((NewPRepInfo bondRequirement electedPRepCount offsetLimit).addAll E
          calls).Sort_.InitAccumulated).PReps,
        (r.rank < electedPRepCount →
          r.accumulatedVoted = (r.delegated + r.bonded) * wrapInt64 (offsetLimit + 1) ∧
          r.accumulatedPower = r.power * wrapInt64 (offsetLimit + 1)) ∧
        (electedPRepCount ≤ r.rank → r.accumulatedVoted = 0 ∧ r.accumulatedPower = 0) := by
    intro E br N ol calls r hr
    have hwf := WF_addAll E calls _ (WF_NewPRepInfo br N ol)
    have hfresh := addAll_fresh E calls (NewPRepInfo br N ol) (fun x hx => by
      simp [NewPRepInfo] at hx)
    have hfix : ∀ cs : List AddCall, ∀ p : PRepInfo,
        (p.addAll E cs).electedPRepCount = p.electedPRepCount ∧
        (p.addAll E cs).offsetLimit = p.offsetLimit := by
      intro cs
      induction cs with
      | nil => intro p; exact ⟨rfl, rfl⟩
      | cons c cs ih => intro p; exact ih _
    have h := seeding_of_fresh _ hwf hfresh r hr
    have hN := (hfix calls (NewPRepInfo br N ol)).1
    have hO := (hfix calls (NewPRepInfo br N ol)).2
    unfold PRepInfo.GetTermPeriod at h
    rw [hN, hO] at h
    exact h
  refine ⟨main, ?_, by decide⟩
  intro E br N ol calls hne r hr
  obtain ⟨h1, h2⟩ := main E br N ol calls r hr
  refine ⟨fun hc => h1 hc.1, fun hc => ?_⟩
  by_cases hlt : r.rank < N
  · have hel : r.IsElectable = false := by
      cases hx : r.IsElectable
      · rfl
      · exact absurd ⟨hlt, hx⟩ hc
    have := hne r hr hel
    omega
  · exact (h2 (by omega)).1

/-! ## The frame of `CalculateReward` -/

theorem rewardLoop_zero (E : Deps) (N tReward minBond w : Int) (l : List Nat) :
    ∀ (i : Nat) (h h2 : Heap), rewardLoop E N tReward 0 minBond w i l h = some h2 →
    h2 = h ∧ ∀ ptr ∈ l.take (N - (i : Int)).toNat, (h.deref ptr).IsRewardable N = false := by
  induction l with
  | nil =>
    intro i h h2 he
    simp only [rewardLoop, Option.some.injEq] at he
    exact ⟨he.symm, fun ptr hptr => by simp at hptr⟩
  | cons x xs ih =>
    intro i h h2 he
    unfold rewardLoop at he
    by_cases hN : N ≤ (i : Int)
    · rw [if_pos hN] at he
      simp only [Option.some.injEq] at he
      exact ⟨he.symm, fun ptr hptr => by rw [window_zero N i hN] at hptr; simp at hptr⟩
    · rw [if_neg hN] at he
      by_cases hr : (h.deref x).IsRewardable N = true
      · rw [if_neg (by simp [hr])] at he
        simp [PRep.CalculateReward] at he
      · rw [if_pos (by simp [hr])] at he
        obtain ⟨h1, h2'⟩ := ih _ _ _ he
        refine ⟨h1, ?_⟩
        intro ptr hptr
        rw [window_succ N i hN, List.take_succ_cons] at hptr
        rcases List.mem_cons.1 hptr with hx | hx
        · subst hx
          cases hb : (h.deref ptr).IsRewardable N
          · rfl
          · exact absurd hb hr
        · exact h2' ptr hx

theorem CalculateReward_heap (E : Deps) (p q : PRepInfo)
    (totalReward totalMinWage minBond : Int) (hwf : p.WF)
    (hq : p.CalculateReward E totalReward totalMinWage minBond = some q) :
    q = { p with heap := q.heap } ∧ q.heap.length = p.heap.length ∧
    ∃ t w : Int, ∀ ptr, q.heap.deref ptr =
      if ptr ∈ p.elected ∧ (p.heap.deref ptr).IsRewardable p.electedPRepCount = true
      then (p.heap.deref ptr).rewarded E t p.totalAccumulatedPower minBond w
      else p.heap.deref ptr := by
  obtain ⟨_, _, _, hnd, hv⟩ := hwf
  unfold PRepInfo.CalculateReward at hq
  split_ifs at hq with hN
  · simp only [Option.some.injEq] at hq
    subst hq
    refine ⟨rfl, rfl, 0, 0, fun ptr => ?_⟩
    have : p.elected = [] := by
      unfold PRepInfo.elected
      rw [hN]
      rfl
    rw [this]
    simp
  · split at hq
    · exact absurd hq (by simp)
    · split at hq
      · exact absurd hq (by simp)
      · dsimp only at hq
        split at hq
        · exact absurd hq (by simp)
        · rename_i tReward _ _ minWage _ _ h2 hloop
          simp only [Option.some.injEq] at hq
          subst hq
          refine ⟨rfl, ?_, tReward, minWage / p.electedPRepCount, ?_⟩
          · exact (rewardLoop_heap E _ _ _ _ _ _ _ _ _ hloop).1
          · intro ptr
            have hwin : ptr ∈ List.take (p.electedPRepCount - ((0 : Nat) : Int)).toNat p.rank
                ↔ ptr ∈ p.elected := by
              unfold PRepInfo.elected
              simp
            by_cases htot : p.totalAccumulatedPower = 0
            · rw [htot] at hloop
              obtain ⟨he, hnone⟩ := rewardLoop_zero E _ _ _ _ _ _ _ _ hloop
              show h2.deref ptr = _
              rw [he, if_neg]
              intro hc
              have := hnone ptr (hwin.2 hc.1)
              rw [this] at hc
              exact absurd hc.2 (by decide)
            · obtain ⟨h3, hloop3, _, hd⟩ := rewardLoop_spec E p.electedPRepCount tReward
                p.totalAccumulatedPower minBond (minWage / p.electedPRepCount) htot p.rank 0
                p.heap hnd hv
              rw [hloop3] at hloop
              simp only [Option.some.injEq] at hloop
              subst hloop
              show h3.deref ptr = _
              rw [hd ptr]
              simp only [hwin]

/-- C17: `PRepInfo.CalculateReward` rewards only rewardable elected preps. When it
returns, every prep outside the first `electedPRepCount` entries of the rank sequence, and
every prep inside them that is not `IsRewardable` (status other than enabled, or
`accumulatedPower <= 0`), is unchanged, so that its `GetReward` is 0 if its commission and
wage were 0; of every prep only commission, voter reward and wage can differ, and the
map, the rank sequence and the parameters are unchanged. The call does return when
`MonthBlock` and `totalAccumulatedPower` are not zero. -/
theorem CalculateReward_frame (E : Deps) (p : PRepInfo)
    (totalReward totalMinWage minBond : Int) (hwf : p.WF) :
    (∀ q : PRepInfo, p.CalculateReward E totalReward totalMinWage minBond = some q →
      (∀ ptr, (ptr ∉ p.rank.take p.electedPRepCount.toNat ∨
          (p.heap.deref ptr).IsRewardable p.electedPRepCount = false) →
        q.heap.deref ptr = p.heap.deref ptr ∧
        ((p.heap.deref ptr).commission = 0 ∧ (p.heap.deref ptr).wage = 0 →
          (q.heap.deref ptr).GetReward = 0)) ∧
      (∀ ptr, q.heap.deref ptr =
        { p.heap.deref ptr with
          commission := (q.heap.deref ptr).commission
          voterReward := (q.heap.deref ptr).voterReward
          wage := (q.heap.deref ptr).wage }) ∧
      q = { p with heap := q.heap } ∧ q.heap.length = p.heap.length) ∧
    (∀ (r : PRep) (N : Int), r.IsRewardable N = false ↔
      (r.status ≠ EnableStatus.ESEnable ∨ N ≤ r.rank ∨ r.accumulatedPower ≤ 0)) ∧
    (E.MonthBlock ≠ 0 ∧ p.totalAccumulatedPower ≠ 0 →
      ∃ q : PRepInfo, p.CalculateReward E totalReward totalMinWage minBond = some q) := by
  refine ⟨?_, ?_, ?_⟩
  · intro q hq
    obtain ⟨h1, h2, t, w, hd⟩ := CalculateReward_heap E p q totalReward totalMinWage minBond
      hwf hq
    refine ⟨?_, ?_, h1, h2⟩
    · intro ptr hout
      have hsame : q.heap.deref ptr = p.heap.deref ptr := by
        rw [hd ptr, if_neg]
        intro hc
        rcases hout with ho | ho
        · exact ho hc.1
        · rw [ho] at hc
          exact absurd hc.2 (by decide)
      refine ⟨hsame, fun hz => ?_⟩
      rw [hsame]
      unfold PRep.GetReward
      rw [hz.1, hz.2]
      rfl
    · intro ptr
      rw [hd ptr]
      split_ifs <;> rfl
  · intro r N
    unfold PRep.IsRewardable
    cases r.status <;> simp
    omega
  · intro hne
    obtain ⟨_, _, _, hnd, hv⟩ := hwf
    unfold PRepInfo.CalculateReward
    split_ifs with hN
    · exact ⟨_, rfl⟩
    · simp only [fundToPeriodIScore, if_neg hne.1]
      obtain ⟨h3, hloop3, _, _⟩ := rewardLoop_spec E p.electedPRepCount
        (totalReward * wrapInt64 (p.GetTermPeriod * E.IScoreICXRatio) / E.MonthBlock)
        p.totalAccumulatedPower minBond
        (totalMinWage * wrapInt64 (p.GetTermPeriod * E.IScoreICXRatio) / E.MonthBlock
          / p.electedPRepCount) hne.2 p.rank 0 p.heap hnd hv
      rw [hloop3]
      exact ⟨_, rfl⟩

theorem CalculateReward_frame_witness :
    testPRepInfoReplayed.WF ∧
    ((∀ q : PRepInfo, testPRepInfoReplayed.CalculateReward goloop 1000000000 10000000 300
        = some q →
      (∀ ptr, (ptr ∉ testPRepInfoReplayed.rank.take
            testPRepInfoReplayed.electedPRepCount.toNat ∨
          (testPRepInfoReplayed.heap.deref ptr).IsRewardable
            testPRepInfoReplayed.electedPRepCount = false) →
        q.heap.deref ptr = testPRepInfoReplayed.heap.deref ptr ∧
        ((testPRepInfoReplayed.heap.deref ptr).commission = 0 ∧
            (testPRepInfoReplayed.heap.deref ptr).wage = 0 →
          (q.heap.deref ptr).GetReward = 0)) ∧
      (∀ ptr, q.heap.deref ptr =
        { testPRepInfoReplayed.heap.deref ptr with
          commission := (q.heap.deref ptr).commission
          voterReward := (q.heap.deref ptr).voterReward
          wage := (q.heap.deref ptr).wage }) ∧
      q = { testPRepInfoReplayed with heap := q.heap } ∧
      q.heap.length = testPRepInfoReplayed.heap.length) ∧
    (∀ (r : PRep) (N : Int), r.IsRewardable N = false ↔
      (r.status ≠ EnableStatus.ESEnable ∨ N ≤ r.rank ∨ r.accumulatedPower ≤ 0)) ∧
    (goloop.MonthBlock ≠ 0 ∧ testPRepInfoReplayed.totalAccumulatedPower ≠ 0 →
      ∃ q : PRepInfo, testPRepInfoReplayed.CalculateReward goloop 1000000000 10000000 300
        = some q)) ∧
    ((testPRepInfoReplayed.CalculateReward goloop 1000000000 10000000 300).map
        (fun q => [hx 2, hx 4, hx 5, hx 6, hx 7].map (fun key =>
          (q.GetPRep key).map (fun r => (r.commission, r.voterReward, r.GetReward))))
      = some [some (0, 0, 0), some (0, 0, 0), some (0, 0, 0), some (0, 0, 0),
          some (0, 0, 0)] ∧
     [hx 2, hx 4, hx 5, hx 6, hx 7].map (fun key =>
        (testPRepInfoReplayed.GetPRep key).map
          (fun r => (r.status, r.rank, decide (0 < r.accumulatedPower))))
      = [some (EnableStatus.ESJail, 4, true), some (EnableStatus.ESJail, 3, true),
         some (EnableStatus.ESJail, 2, true), some (EnableStatus.ESEnable, 0, false),
         some (EnableStatus.ESEnable, 0, false)]) :=
  ⟨by decide,
    CalculateReward_frame goloop testPRepInfoReplayed 1000000000 10000000 300 (by decide),
    ⟨by decide, by decide⟩⟩

/-! ## Votes on the PRepInfo -/

theorem lookup_mapSet_self (key : List Nat) (ptr : Nat) (es : List (List Nat × Nat)) :
    (mapSet key ptr es).lookup key = some ptr := by
  induction es with
  | nil => simp [mapSet, List.lookup]
  | cons e es ih =>
    unfold mapSet
    split_ifs with hk
    · simp [List.lookup]
    · have hne : (key == e.1) = false := by
        simp only [beq_eq_false_iff_ne, ne_eq]
        exact fun h => hk h.symm
      rw [show e = (e.1, e.2) from rfl, List.lookup_cons, hne]
      exact ih

theorem lookup_mapSet_ne (key other : List Nat) (ptr : Nat) (es : List (List Nat × Nat))
    (hne : other ≠ key) : (mapSet key ptr es).lookup other = es.lookup other := by
  induction es with
  | nil =>
    have h : (other == key) = false := by simpa using hne
    simp [mapSet, List.lookup, h]
  | cons e es ih =>
    unfold mapSet
    split_ifs with hk
    · have h1 : (other == key) = false := by simpa using hne
      have h2 : (other == e.1) = false := by rw [hk]; exact h1
      rw [List.lookup_cons, h1, show e = (e.1, e.2) from rfl, List.lookup_cons, h2]
    · rw [show e = (e.1, e.2) from rfl, List.lookup_cons, List.lookup_cons, ih]

theorem lookup_some_mem (key : List Nat) (ptr : Nat) (es : List (List Nat × Nat))
    (h : es.lookup key = some ptr) : (key, ptr) ∈ es := by
  induction es with
  | nil => simp [List.lookup] at h
  | cons e es ih =>
    rw [show e = (e.1, e.2) from rfl, List.lookup_cons] at h
    by_cases hk : (key == e.1) = true
    · rw [hk] at h
      simp only [Option.some.injEq] at h
      have hk2 : key = e.1 := by simpa using hk
      rw [hk2, ← h]
      exact List.mem_cons_self _ _
    · have hk3 : (key == e.1) = false := by simpa using hk
      rw [hk3] at h
      exact List.mem_cons_of_mem _ (ih h)

theorem WF_lookup_ne (p : PRepInfo) (hwf : p.WF) (k1 k2 : List Nat) (p1 p2 : Nat)
    (h1 : p.preps.lookup k1 = some p1) (h2 : p.preps.lookup k2 = some p2) (hne : k2 ≠ k1) :
    p2 ≠ p1 := by
  intro he
  have m1 := lookup_some_mem _ _ _ h1
  have m2 := lookup_some_mem _ _ _ h2
  have := List.inj_on_of_nodup_map hwf.2.1 m2 m1 he
  exact hne (congrArg Prod.fst this)

theorem WF_lookup_valid (p : PRepInfo) (hwf : p.WF) (k : List Nat) (ptr : Nat)
    (h : p.preps.lookup k = some ptr) : ptr < p.heap.length :=
  (hwf.2.2.1 _ (lookup_some_mem _ _ _ h)).1

theorem applyOneVote_GetPRep (E : Deps) (vType : VoteType) (offset : Int) (p : PRepInfo)
    (hwf : p.WF) (target : List Nat) (amount : Int) :
    (PRepInfo.applyOneVote E vType offset p (target, amount)).GetPRep target
      = some (((p.GetPRep target).getD
          ((NewPRep target EnableStatus.ESDisablePermanent 0 0 0 false).UpdatePower E
            p.bondRequirement)).ApplyVote E vType amount (wrapInt64 (p.offsetLimit - offset))
          p.bondRequirement) ∧
    ∀ key, key ≠ target →
      (PRepInfo.applyOneVote E vType offset p (target, amount)).GetPRep key
        = p.GetPRep key := by
  unfold PRepInfo.applyOneVote PRepInfo.GetPRep
  dsimp only
  cases hl : p.preps.lookup target with
  | some ptr =>
    have hv := WF_lookup_valid p hwf target ptr hl
    simp only [hl, Option.map_some', Option.getD_some]
    refine ⟨by rw [Heap.deref_modify_self _ _ _ hv], ?_⟩
    intro key hkey
    cases hk : p.preps.lookup key with
    | none => rfl
    | some ptr2 =>
      simp only [Option.map_some']
      rw [Heap.deref_modify_ne _ _ _ _ (WF_lookup_ne p hwf target key ptr ptr2 hl hk hkey)]
  | none =>
    simp only [Option.map_none', Option.getD_none]
    unfold PRepInfo.Add
    dsimp only
    refine ⟨?_, ?_⟩
    · rw [lookup_mapSet_self]
      simp only [Option.map_some']
      rw [Heap.deref_modify_self _ _ _ (by simp), Heap.deref_append_new]
    · intro key hkey
      rw [lookup_mapSet_ne _ _ _ _ hkey]
      cases hk : p.preps.lookup key with
      | none => rfl
      | some ptr2 =>
        have hv2 := WF_lookup_valid p hwf key ptr2 hk
        simp only [Option.map_some']
        rw [Heap.deref_modify_ne _ _ _ _ (by omega), Heap.deref_append_old _ _ _ hv2]

theorem ApplyVote_GetPRep_other (E : Deps) (vType : VoteType) (offset : Int)
    (votes : List (List Nat × Int)) : ∀ (p : PRepInfo), p.WF → ∀ key,
    key ∉ votes.map Prod.fst → (p.ApplyVote E vType votes offset).GetPRep key = p.GetPRep key := by
  induction votes with
  | nil => intro p _ key _; rfl
  | cons v vs ih =>
    intro p hwf key hkey
    rw [List.map_cons, List.mem_cons, not_or] at hkey
    show (PRepInfo.ApplyVote E (PRepInfo.applyOneVote E vType offset p v) vType vs
      offset).GetPRep key = p.GetPRep key
    rw [ih _ (WF_applyOneVote E vType offset p v hwf) key hkey.2]
    exact (applyOneVote_GetPRep E vType offset p hwf v.1 v.2).2 key hkey.1

theorem ApplyVote_fields (E : Deps) (p : PRep) (vType : VoteType) (amount period br : Int) :
    (p.ApplyVote E vType amount period br).bonded =
      (if vType = VoteType.vtBond then p.bonded + amount else p.bonded) ∧
    (p.ApplyVote E vType amount period br).delegated =
      (if vType = VoteType.vtBond then p.delegated else p.delegated + amount) ∧
    (p.ApplyVote E vType amount period br).power =
      E.CalcPower br (p.ApplyVote E vType amount period br).bonded
        ((p.ApplyVote E vType amount period br).delegated +
          (p.ApplyVote E vType amount period br).bonded) ∧
    (p.ApplyVote E vType amount period br).accumulatedPower =
      p.accumulatedPower + ((p.ApplyVote E vType amount period br).power - p.power) * period ∧
    (p.ApplyVote E vType amount period br).rank = p.rank := by
  unfold PRep.ApplyVote
  simp only [bigCmp_ne_zero_iff]
  by_cases hv : vType = VoteType.vtBond
  · simp only [hv, if_true]
    split_ifs with hpow
    · simp [PRep.calcPower, PRep.GetVotedValue]
    · have hpow2 := not_not.1 hpow
      simp only [PRep.calcPower, PRep.GetVotedValue] at hpow2
      simp [← hpow2]
  · simp only [hv, if_false]
    split_ifs with hpow
    · simp [PRep.calcPower, PRep.GetVotedValue]
    · have hpow2 := not_not.1 hpow
      simp only [PRep.calcPower, PRep.GetVotedValue] at hpow2
      simp [← hpow2]

/-- C14 does not hold as stated: the period of a vote is the `int` difference
`offsetLimit - offset`, which wraps. With an offset limit of `-2^63`, the smallest `int`,
a delegation vote of 1 to `hx1` at offset 1 has the period `2^63 - 1`: the
`accumulatedVoted` of `hx1` grows from 0 to `2^63 - 1` and its `accumulatedPower` as
well, while `amount * (offsetLimit - offset)` is `-2^63 - 1`. -/
theorem ApplyVote_period_counterexample :
    minOffsetInfo.offsetLimit = -2 ^ 63 ∧
    wrapInt64 (minOffsetInfo.offsetLimit - 1) = 2 ^ 63 - 1 ∧
    (minOffsetInfo.GetPRep (hx 1)).map
        (fun r => (r.delegated, r.power, r.accumulatedVoted, r.accumulatedPower))
      = some (1000, 1100, 0, 0) ∧
    ((minOffsetInfo.ApplyVote goloop VoteType.vtDelegate [(hx 1, 1)] 1).GetPRep (hx 1)).map
        (fun r => (r.delegated, r.power, r.accumulatedVoted, r.accumulatedPower))
      = some (1001, 1101, 9223372036854775807, 9223372036854775807) ∧
    (0 : Int) + 1 * (minOffsetInfo.offsetLimit - 1) = -9223372036854775809 ∧
    (0 : Int) + (1101 - 1100) * (minOffsetInfo.offsetLimit - 1) = -9223372036854775809 :=
  ⟨by decide, by decide, by decide, by decide, by decide, by decide⟩

/-- C14, amended: when `offsetLimit - offset` lies within `int64`,
`PRepInfo.ApplyVote(vType, votes, offset)` applies the votes in list order. For one vote
`(target, amount)` the target is the known prep or, if unknown, a new prep with zero
delegated, zero bonded, commission rate 0, no public key, status disabled-permanently and
the power of zero stake; its bonded (bond vote) or delegated (otherwise) grows by
`amount`, its `accumulatedVoted` by `amount * (offsetLimit - offset)` and its
`accumulatedPower` by `(new power - previous power) * (offsetLimit - offset)`; every
other known prep is unchanged, and so is every prep that is no target of the list, the
rank sequence and the parameters. -/
theorem PRepInfo_ApplyVote_post (E : Deps) (p : PRepInfo) (hwf : p.WF) (vType : VoteType)
    (offset : Int)
    (hR : -2 ^ 63 ≤ p.offsetLimit - offset ∧ p.offsetLimit - offset < 2 ^ 63) :
    p.ApplyVote E vType [] offset = p ∧
    (∀ (v : List Nat × Int) (vs : List (List Nat × Int)),
      p.ApplyVote E vType (v :: vs) offset
        = (p.ApplyVote E vType [v] offset).ApplyVote E vType vs offset) ∧
    (∀ votes : List (List Nat × Int), (p.ApplyVote E vType votes offset).WF) ∧
    (∀ (target : List Nat) (amount : Int), ∃ r0 r : PRep,
      r0 = (p.GetPRep target).getD
        ((NewPRep target EnableStatus.ESDisablePermanent 0 0 0 false).UpdatePower E
          p.bondRequirement) ∧
      (p.ApplyVote E vType [(target, amount)] offset).GetPRep target = some r ∧
      r = r0.ApplyVote E vType amount (p.offsetLimit - offset) p.bondRequirement ∧
      r.bonded = (if vType = VoteType.vtBond then r0.bonded + amount else r0.bonded) ∧
      r.delegated = (if vType = VoteType.vtBond then r0.delegated else r0.delegated + amount) ∧
      r.accumulatedVoted = r0.accumulatedVoted + amount * (p.offsetLimit - offset) ∧
      r.power = E.CalcPower p.bondRequirement r.bonded (r.delegated + r.bonded) ∧
      r.accumulatedPower
        = r0.accumulatedPower + (r.power - r0.power) * (p.offsetLimit - offset) ∧
      ∀ key, key ≠ target →
        (p.ApplyVote E vType [(target, amount)] offset).GetPRep key = p.GetPRep key) ∧
    (∀ target : List Nat,
      (NewPRep target EnableStatus.ESDisablePermanent 0 0 0 false).UpdatePower E
          p.bondRequirement
        = { status := EnableStatus.ESDisablePermanent, delegated := 0, bonded := 0,
            commissionRate := 0, owner := target, power := E.CalcPower p.bondRequirement 0 0,
            pubkey := false, rank := 0, accumulatedVoted := 0, accumulatedPower := 0,
            commission := 0, voterReward := 0, wage := 0 }) ∧
    (∀ (votes : List (List Nat × Int)) (key : List Nat), key ∉ votes.map Prod.fst →
      (p.ApplyVote E vType votes offset).GetPRep key = p.GetPRep key) ∧
    (∀ votes : List (List Nat × Int),
      (p.ApplyVote E vType votes offset).rank = p.rank ∧
      (p.ApplyVote E vType votes offset).electedPRepCount = p.electedPRepCount ∧
      (p.ApplyVote E vType votes offset).offsetLimit = p.offsetLimit ∧
      (p.ApplyVote E vType votes offset).bondRequirement = p.bondRequirement ∧
      (p.ApplyVote E vType votes offset).totalAccumulatedPower = p.totalAccumulatedPower) ∧
    wrapInt64 (p.offsetLimit - offset) = p.offsetLimit - offset := by
  have hw : wrapInt64 (p.offsetLimit - offset) = p.offsetLimit - offset :=
    wrapInt64_eq _ hR.1 hR.2
  refine ⟨rfl, fun _ _ => rfl, fun votes => WF_ApplyVote E vType votes offset p hwf, ?_, ?_,
    fun votes key hkey => ApplyVote_GetPRep_other E vType offset votes p hwf key hkey,
    fun votes => fixedPart_rank p _ (ApplyVote_fixedPart E vType votes offset p), hw⟩
  · intro target amount
    obtain ⟨h1, h2⟩ := applyOneVote_GetPRep E vType offset p hwf target amount
    obtain ⟨f1, f2, f3, f4, _⟩ := ApplyVote_fields E
      ((p.GetPRep target).getD
        ((NewPRep target EnableStatus.ESDisablePermanent 0 0 0 false).UpdatePower E
          p.bondRequirement))
      vType amount (wrapInt64 (p.offsetLimit - offset)) p.bondRequirement
    have h3 := ApplyVote_accumulatedVoted E
      ((p.GetPRep target).getD
        ((NewPRep target EnableStatus.ESDisablePermanent 0 0 0 false).UpdatePower E
          p.bondRequirement))
      vType amount (wrapInt64 (p.offsetLimit - offset)) p.bondRequirement
    rw [hw] at h1 f1 f2 f3 f4 h3
    exact ⟨_, _, rfl, h1, rfl, f1, f2, h3, f3, f4, h2⟩
  · intro target
    rfl

theorem PRepInfo_ApplyVote_post_witness :
    (testPRepInfo.Sort_.InitAccumulated.WF ∧
      (-2 ^ 63 ≤ testPRepInfo.Sort_.InitAccumulated.offsetLimit - 10 ∧
        testPRepInfo.Sort_.InitAccumulated.offsetLimit - 10 < 2 ^ 63)) ∧
    (testPRepInfo.Sort_.InitAccumulated.ApplyVote goloop VoteType.vtDelegate [] 10
      = testPRepInfo.Sort_.InitAccumulated ∧
    (∀ (v : List Nat × Int) (vs : List (List Nat × Int)),
      testPRepInfo.Sort_.InitAccumulated.ApplyVote goloop VoteType.vtDelegate (v :: vs) 10
        = (testPRepInfo.Sort_.InitAccumulated.ApplyVote goloop VoteType.vtDelegate [v]
            10).ApplyVote goloop VoteType.vtDelegate vs 10) ∧
    (∀ votes : List (List Nat × Int),
      (testPRepInfo.Sort_.InitAccumulated.ApplyVote goloop VoteType.vtDelegate votes 10).WF) ∧
    (∀ (target : List Nat) (amount : Int), ∃ r0 r : PRep,
      r0 = (testPRepInfo.Sort_.InitAccumulated.GetPRep target).getD
        ((NewPRep target EnableStatus.ESDisablePermanent 0 0 0 false).UpdatePower goloop
          testPRepInfo.Sort_.InitAccumulated.bondRequirement) ∧
      (testPRepInfo.Sort_.InitAccumulated.ApplyVote goloop VoteType.vtDelegate
        [(target, amount)] 10).GetPRep target = some r ∧
      r = r0.ApplyVote goloop VoteType.vtDelegate amount
        (testPRepInfo.Sort_.InitAccumulated.offsetLimit - 10)
        testPRepInfo.Sort_.InitAccumulated.bondRequirement ∧
      r.bonded = (if VoteType.vtDelegate = VoteType.vtBond then r0.bonded + amount
        else r0.bonded) ∧
      r.delegated = (if VoteType.vtDelegate = VoteType.vtBond then r0.delegated
        else r0.delegated + amount) ∧
      r.accumulatedVoted = r0.accumulatedVoted
        + amount * (testPRepInfo.Sort_.InitAccumulated.offsetLimit - 10) ∧
      r.power = goloop.CalcPower testPRepInfo.Sort_.InitAccumulated.bondRequirement r.bonded
        (r.delegated + r.bonded) ∧
      r.accumulatedPower = r0.accumulatedPower
        + (r.power - r0.power) * (testPRepInfo.Sort_.InitAccumulated.offsetLimit - 10) ∧
      ∀ key, key ≠ target →
        (testPRepInfo.Sort_.InitAccumulated.ApplyVote goloop VoteType.vtDelegate
          [(target, amount)] 10).GetPRep key = testPRepInfo.Sort_.InitAccumulated.GetPRep key) ∧
    (∀ target : List Nat,
      (NewPRep target EnableStatus.ESDisablePermanent 0 0 0 false).UpdatePower goloop
          testPRepInfo.Sort_.InitAccumulated.bondRequirement
        = { status := EnableStatus.ESDisablePermanent, delegated := 0, bonded := 0,
            commissionRate := 0, owner := target,
            power := goloop.CalcPower testPRepInfo.Sort_.InitAccumulated.bondRequirement 0 0,
            pubkey := false, rank := 0, accumulatedVoted := 0, accumulatedPower := 0,
            commission := 0, voterReward := 0, wage := 0 }) ∧
    (∀ (votes : List (List Nat × Int)) (key : List Nat), key ∉ votes.map Prod.fst →
      (testPRepInfo.Sort_.InitAccumulated.ApplyVote goloop VoteType.vtDelegate votes
        10).GetPRep key = testPRepInfo.Sort_.InitAccumulated.GetPRep key) ∧
    (∀ votes : List (List Nat × Int),
      (testPRepInfo.Sort_.InitAccumulated.ApplyVote goloop VoteType.vtDelegate votes 10).rank
        = testPRepInfo.Sort_.InitAccumulated.rank ∧
      (testPRepInfo.Sort_.InitAccumulated.ApplyVote goloop VoteType.vtDelegate votes
        10).electedPRepCount = testPRepInfo.Sort_.InitAccumulated.electedPRepCount ∧
      (testPRepInfo.Sort_.InitAccumulated.ApplyVote goloop VoteType.vtDelegate votes
        10).offsetLimit = testPRepInfo.Sort_.InitAccumulated.offsetLimit ∧
      (testPRepInfo.Sort_.InitAccumulated.ApplyVote goloop VoteType.vtDelegate votes
        10).bondRequirement = testPRepInfo.Sort_.InitAccumulated.bondRequirement ∧
      (testPRepInfo.Sort_.InitAccumulated.ApplyVote goloop VoteType.vtDelegate votes
        10).totalAccumulatedPower
        = testPRepInfo.Sort_.InitAccumulated.totalAccumulatedPower) ∧
    wrapInt64 (testPRepInfo.Sort_.InitAccumulated.offsetLimit - 10)
      = testPRepInfo.Sort_.InitAccumulated.offsetLimit - 10) ∧
    ((((testPRepInfo.Sort_.InitAccumulated.ApplyVote goloop VoteType.vtDelegate
          [(hx 1, 1000), (hx 2, 2000), (hx 3, 3000), (hx 6, 6000)] 10).ApplyVote goloop
          VoteType.vtBond [(hx 1, 100), (hx 2, 200), (hx 3, 300)] 30).ApplyVote goloop
          VoteType.vtDelegate [(hx 1, -1000), (hx 2, -2000), (hx 3, -3000), (hx 5, -3000)]
          80).PReps.map
        (fun r => (r.bonded, r.delegated, r.power, r.accumulatedVoted, r.accumulatedPower))
      = [(200, 1000, 1200, 188100, 186100), (400, 2000, 2400, 154000, 150000),
         (600, 3000, 3600, 564300, 558300), (40, 4000, 800, 408040, 80800),
         (50, 2000, 1000, 450050, 101000), (0, 6000, 0, 540000, 0)]) :=
  ⟨⟨by decide, by decide, by decide⟩,
    PRepInfo_ApplyVote_post goloop testPRepInfo.Sort_.InitAccumulated (by decide)
      VoteType.vtDelegate 10 ⟨by decide, by decide⟩,
    by decide⟩

/-! ## Non-negative accumulators along the replay -/

theorem lookup_of_mem (es : List (List Nat × Nat)) (hnd : (es.map Prod.fst).Nodup)
    (e : List Nat × Nat) (he : e ∈ es) : es.lookup e.1 = some e.2 := by
  induction es with
  | nil => cases he
  | cons y ys ih =>
    rw [List.map_cons, List.nodup_cons] at hnd
    rw [show y = (y.1, y.2) from rfl, List.lookup_cons]
    rcases List.mem_cons.1 he with h | h
    · subst h
      simp
    · have hne : (e.1 == y.1) = false := by
        simp only [beq_eq_false_iff_ne, ne_eq]
        intro hc
        exact hnd.1 (hc ▸ List.mem_map_of_mem _ h)
      rw [hne]
      exact ih hnd.2 h

theorem GetPRep_of_mem (p : PRepInfo) (hwf : p.WF) (x : PRep) (hx : x ∈ p.PReps) :
    ∃ key, p.GetPRep key = some x := by
  unfold PRepInfo.PReps at hx
  obtain ⟨e, he, rfl⟩ := List.mem_map.1 hx
  refine ⟨e.1, ?_⟩
  unfold PRepInfo.GetPRep
  rw [lookup_of_mem _ hwf.1 e he]
  rfl

theorem mem_of_GetPRep (p : PRepInfo) (key : List Nat) (x : PRep)
    (h : p.GetPRep key = some x) : x ∈ p.PReps := by
  unfold PRepInfo.GetPRep at h
  cases hl : p.preps.lookup key with
  | none => rw [hl] at h; simp at h
  | some ptr =>
    rw [hl] at h
    simp only [Option.map_some', Option.some.injEq] at h
    unfold PRepInfo.PReps
    rw [← h]
    exact List.mem_map_of_mem (fun e => p.heap.deref e.2) (lookup_some_mem _ _ _ hl)

theorem stakesNonneg_GetPRep (p : PRepInfo) (h : p.stakesNonneg = true) (key : List Nat)
    (x : PRep) (hx : p.GetPRep key = some x) : 0 ≤ x.bonded ∧ 0 ≤ x.delegated := by
  unfold PRepInfo.stakesNonneg at h
  rw [List.all_eq_true] at h
  have := h x (mem_of_GetPRep p key x hx)
  simpa using this

theorem SetStatus_GetPRep (E : Deps) (p : PRepInfo) (hwf : p.WF) (target : List Nat)
    (status : EnableStatus) :
    (p.SetStatus E target status).GetPRep target
      = some (match p.GetPRep target with
          | some x => x.SetStatus status
          | none => (NewPRep target status 0 0 0 false).UpdatePower E p.bondRequirement) ∧
    ∀ key, key ≠ target → (p.SetStatus E target status).GetPRep key = p.GetPRep key := by
  unfold PRepInfo.SetStatus PRepInfo.GetPRep
  dsimp only
  cases hl : p.preps.lookup target with
  | some ptr =>
    have hv := WF_lookup_valid p hwf target ptr hl
    simp only [hl, Option.map_some']
    refine ⟨by rw [Heap.deref_modify_self _ _ _ hv], ?_⟩
    intro key hkey
    cases hk : p.preps.lookup key with
    | none => rfl
    | some ptr2 =>
      simp only [Option.map_some']
      rw [Heap.deref_modify_ne _ _ _ _ (WF_lookup_ne p hwf target key ptr ptr2 hl hk hkey)]
  | none =>
    simp only [Option.map_none']
    unfold PRepInfo.Add
    dsimp only
    refine ⟨?_, ?_⟩
    · rw [lookup_mapSet_self]
      simp only [Option.map_some']
      rw [Heap.deref_append_new]
    · intro key hkey
      rw [lookup_mapSet_ne _ _ _ _ hkey]
      cases hk : p.preps.lookup key with
      | none => rfl
      | some ptr2 =>
        have hv2 := WF_lookup_valid p hwf key ptr2 hk
        simp only [Option.map_some']
        rw [Heap.deref_append_old _ _ _ hv2]

theorem accumInv_SetStatus (E : Deps) (p : PRepInfo) (hwf : p.WF) (r : Int)
    (hCP0 : E.CalcPower p.bondRequirement 0 0 = 0) (target : List Nat)
    (status : EnableStatus) (hinv : p.accumInv r) :
    (p.SetStatus E target status).accumInv r := by
  obtain ⟨h1, h2⟩ := SetStatus_GetPRep E p hwf target status
  have hN : (p.SetStatus E target status).electedPRepCount = p.electedPRepCount :=
    (fixedPart_rank p _ (SetStatus_fixedPart E p target status)).2.1
  intro key x hx
  rw [hN]
  by_cases hk : key = target
  · subst hk
    rw [h1] at hx
    simp only [Option.some.injEq] at hx
    cases hg : p.GetPRep key with
    | some y =>
      rw [hg] at hx
      subst hx
      exact hinv key y hg
    | none =>
      rw [hg] at hx
      subst hx
      simp only [PRep.UpdatePower, PRep.calcPower, PRep.GetVotedValue, NewPRep]
      simp [hCP0]
  · rw [h2 key hk] at hx
    exact hinv key x hx

theorem accumInv_applyOneVote (E : Deps) (vType : VoteType) (offset : Int) (p : PRepInfo)
    (hwf : p.WF) (r : Int)
    (hCP : ∀ b d : Int, 0 ≤ b → 0 ≤ d → 0 ≤ E.CalcPower p.bondRequirement b (d + b))
    (hCP0 : E.CalcPower p.bondRequirement 0 0 = 0)
    (v : List Nat × Int)
    (hle : wrapInt64 (p.offsetLimit - offset) ≤ r)
    (hstake : (PRepInfo.applyOneVote E vType offset p v).stakesNonneg = true)
    (hinv : p.accumInv r) :
    (PRepInfo.applyOneVote E vType offset p v).accumInv (wrapInt64 (p.offsetLimit - offset)) := by
  obtain ⟨h1, h2⟩ := applyOneVote_GetPRep E vType offset p hwf v.1 v.2
  have hN : (PRepInfo.applyOneVote E vType offset p v).electedPRepCount
      = p.electedPRepCount :=
    (fixedPart_rank p _ (applyOneVote_fixedPart E vType offset p v)).2.1
  have hv : (v.1, v.2) = v := rfl
  rw [hv] at h1 h2
  intro key x hx
  rw [hN]
  have hst := stakesNonneg_GetPRep _ hstake key x hx
  by_cases hk : key = v.1
  · subst hk
    rw [h1] at hx
    simp only [Option.some.injEq] at hx
    have hr0 : ∃ r0 : PRep, r0 = (p.GetPRep v.1).getD
          ((NewPRep v.1 EnableStatus.ESDisablePermanent 0 0 0 false).UpdatePower E
            p.bondRequirement) ∧
        0 ≤ r0.bonded ∧ 0 ≤ r0.delegated ∧ 0 ≤ r0.power ∧
        (r0.rank < p.electedPRepCount →
          r0.GetVotedValue * r ≤ r0.accumulatedVoted ∧ r0.power * r ≤ r0.accumulatedPower) := by
      refine ⟨_, rfl, ?_⟩
      cases hg : p.GetPRep v.1 with
      | some y => exact hinv v.1 y hg
      | none =>
        simp only [Option.getD_none, PRep.UpdatePower, PRep.calcPower, PRep.GetVotedValue,
          NewPRep]
        simp [hCP0]
    obtain ⟨r0, hr0e, hb0, hd0, hp0, hacc0⟩ := hr0
    rw [← hr0e] at hx
    obtain ⟨_, _, f3, f4, f5⟩ := ApplyVote_fields E r0 vType v.2
      (wrapInt64 (p.offsetLimit - offset)) p.bondRequirement
    have fv := ApplyVote_GetVotedValue E r0 vType v.2 (wrapInt64 (p.offsetLimit - offset))
      p.bondRequirement
    have fa := ApplyVote_accumulatedVoted E r0 vType v.2 (wrapInt64 (p.offsetLimit - offset))
      p.bondRequirement
    rw [hx] at f3 f4 f5 fv fa
    have hpow : 0 ≤ x.power := by
      rw [f3]
      exact hCP _ _ hst.1 hst.2
    refine ⟨hst.1, hst.2, hpow, ?_⟩
    intro hrank
    rw [f5] at hrank
    obtain ⟨a1, a2⟩ := hacc0 hrank
    have hV0 : 0 ≤ r0.GetVotedValue := by
      unfold PRep.GetVotedValue
      omega
    have m1 := mul_le_mul_of_nonneg_left hle hV0
    have m2 := mul_le_mul_of_nonneg_left hle hp0
    rw [fv, fa, f4]
    constructor
    · linarith
    · linarith
  · rw [h2 key hk] at hx
    obtain ⟨b1, b2, b3, b4⟩ := hinv key x hx
    refine ⟨b1, b2, b3, ?_⟩
    intro hrank
    obtain ⟨a1, a2⟩ := b4 hrank
    have hV0 : 0 ≤ x.GetVotedValue := by
      unfold PRep.GetVotedValue
      omega
    have m1 := mul_le_mul_of_nonneg_left hle hV0
    have m2 := mul_le_mul_of_nonneg_left hle b3
    constructor
    · linarith
    · linarith

theorem accumInv_weaken (p : PRepInfo) (r r2 : Int) (hle : r2 ≤ r) (hinv : p.accumInv r) :
    p.accumInv r2 := by
  intro key x hx
  obtain ⟨b1, b2, b3, b4⟩ := hinv key x hx
  refine ⟨b1, b2, b3, ?_⟩
  intro hrank
  obtain ⟨a1, a2⟩ := b4 hrank
  have hV0 : 0 ≤ x.GetVotedValue := by
    unfold PRep.GetVotedValue
    omega
  have m1 := mul_le_mul_of_nonneg_left hle hV0
  have m2 := mul_le_mul_of_nonneg_left hle b3
  constructor
  · linarith
  · linarith

theorem accumInv_ApplyVote (E : Deps) (vType : VoteType) (offset : Int)
    (votes : List (List Nat × Int)) : ∀ (p : PRepInfo) (r : Int), p.WF →
    (∀ b d : Int, 0 ≤ b → 0 ≤ d → 0 ≤ E.CalcPower p.bondRequirement b (d + b)) →
    E.CalcPower p.bondRequirement 0 0 = 0 →
    wrapInt64 (p.offsetLimit - offset) ≤ r →
    votesKeepStake E vType offset p votes = true →
    p.accumInv r →
    (p.ApplyVote E vType votes offset).accumInv (wrapInt64 (p.offsetLimit - offset)) := by
  induction votes with
  | nil =>
    intro p r _ _ _ hle _ hinv
    exact accumInv_weaken p r _ hle hinv
  | cons v vs ih =>
    intro p r hwf hCP hCP0 hle hkeep hinv
    unfold votesKeepStake at hkeep
    rw [Bool.and_eq_true] at hkeep
    have hstep := accumInv_applyOneVote E vType offset p hwf r hCP hCP0 v hle hkeep.1 hinv
    obtain ⟨_, _, hO, hB, _⟩ := fixedPart_rank p _ (applyOneVote_fixedPart E vType offset p v)
    have := ih (PRepInfo.applyOneVote E vType offset p v) (wrapInt64 (p.offsetLimit - offset))
      (WF_applyOneVote E vType offset p v hwf) (by rw [hB]; exact hCP) (by rw [hB]; exact hCP0)
      (by rw [hO]) hkeep.2 hstep
    rw [hO] at this
    exact this

theorem accumInv_applyEvents (E : Deps) (events : List Event) :
    ∀ (p : PRepInfo) (r last : Int), p.WF →
    (∀ b d : Int, 0 ≤ b → 0 ≤ d → 0 ≤ E.CalcPower p.bondRequirement b (d + b)) →
    E.CalcPower p.bondRequirement 0 0 = 0 →
    p.offsetLimit < 2 ^ 63 → 0 ≤ last → 0 ≤ r → p.offsetLimit - last ≤ r →
    orderlyReplay E p last events = true →
    p.accumInv r →
    ∃ r2 : Int, 0 ≤ r2 ∧ (p.applyEvents E events).accumInv r2 := by
  induction events with
  | nil =>
    intro p r last _ _ _ _ _ hr _ _ hinv
    exact ⟨r, hr, hinv⟩
  | cons e es ih =>
    intro p r last hwf hCP hCP0 hol hlast hr hrl hrun hinv
    cases e with
    | enable target status =>
      unfold orderlyReplay at hrun
      obtain ⟨_, _, hO, hB, _⟩ := fixedPart_rank p _ (SetStatus_fixedPart E p target status)
      exact ih (p.SetStatus E target status) r last (WF_SetStatus E p target status hwf)
        (by rw [hB]; exact hCP) (by rw [hB]; exact hCP0) (by rw [hO]; exact hol) hlast hr
        (by rw [hO]; exact hrl) hrun (accumInv_SetStatus E p hwf r hCP0 target status hinv)
    | vote vType votes offset =>
      unfold orderlyReplay at hrun
      simp only [Bool.and_eq_true, decide_eq_true_eq] at hrun
      obtain ⟨⟨⟨h1, h2⟩, h3⟩, h4⟩ := hrun
      have hw : wrapInt64 (p.offsetLimit - offset) = p.offsetLimit - offset :=
        wrapInt64_eq _ (by omega) (by omega)
      obtain ⟨_, _, hO, hB, _⟩ := fixedPart_rank p _
        (ApplyVote_fixedPart E vType votes offset p)
      have hstep := accumInv_ApplyVote E vType offset votes p r hwf hCP hCP0
        (by rw [hw]; omega) h3 hinv
      rw [hw] at hstep
      exact ih (p.ApplyVote E vType votes offset) (p.offsetLimit - offset) offset
        (WF_ApplyVote E vType votes offset p hwf) (by rw [hB]; exact hCP)
        (by rw [hB]; exact hCP0) (by rw [hO]; exact hol) (by omega) (by omega)
        (by rw [hO]) h4 hstep

theorem addAll_fixed (E : Deps) (calls : List AddCall) : ∀ p : PRepInfo,
    (p.addAll E calls).electedPRepCount = p.electedPRepCount ∧
    (p.addAll E calls).offsetLimit = p.offsetLimit ∧
    (p.addAll E calls).bondRequirement = p.bondRequirement := by
  induction calls with
  | nil => intro p; exact ⟨rfl, rfl, rfl⟩
  | cons c cs ih => intro p; exact ih _

theorem addAll_stake (E : Deps) (calls : List AddCall) : ∀ p : PRepInfo,
    (∀ b d : Int, 0 ≤ b → 0 ≤ d → 0 ≤ E.CalcPower p.bondRequirement b (d + b)) →
    (∀ c ∈ calls, 0 ≤ c.delegated ∧ 0 ≤ c.bonded) →
    (∀ x ∈ p.heap, 0 ≤ x.bonded ∧ 0 ≤ x.delegated ∧ 0 ≤ x.power) →
    ∀ x ∈ (p.addAll E calls).heap, 0 ≤ x.bonded ∧ 0 ≤ x.delegated ∧ 0 ≤ x.power := by
  induction calls with
  | nil => intro p _ _ h; exact h
  | cons c cs ih =>
    intro p hCP hc h
    refine ih _ hCP (fun c2 hc2 => hc c2 (List.mem_cons_of_mem _ hc2)) ?_
    intro x hx
    unfold PRepInfo.Add at hx
    rcases List.mem_append.1 hx with h1 | h1
    · exact h x h1
    · rw [List.mem_singleton] at h1
      subst h1
      obtain ⟨hd, hb⟩ := hc c (List.mem_cons_self _ _)
      exact ⟨hb, hd, hCP _ _ hb hd⟩

theorem Sort_InitAccumulated_stake (p : PRepInfo) (hwf : p.WF) (ptr : Nat) :
    (p.Sort_.InitAccumulated.heap.deref ptr).bonded = (p.heap.deref ptr).bonded ∧
    (p.Sort_.InitAccumulated.heap.deref ptr).delegated = (p.heap.deref ptr).delegated ∧
    (p.Sort_.InitAccumulated.heap.deref ptr).power = (p.heap.deref ptr).power := by
  rw [InitAccumulated_deref p.Sort_ (WF_Sort p hwf), Sort_heap_deref p hwf]
  split_ifs <;> exact ⟨rfl, rfl, rfl⟩

theorem accumInv_loadPRepInfo (E : Deps) (br N offsetLimit : Int) (calls : List AddCall)
    (hCP : ∀ b d : Int, 0 ≤ b → 0 ≤ d → 0 ≤ E.CalcPower br b (d + b))
    (hcalls : ∀ c ∈ calls, 0 ≤ c.delegated ∧ 0 ≤ c.bonded) :
    (loadPRepInfo E br N offsetLimit calls).accumInv (wrapInt64 (offsetLimit + 1)) := by
  have hwf := WF_addAll E calls _ (WF_NewPRepInfo br N offsetLimit)
  obtain ⟨hN, hO, hB⟩ := addAll_fixed E calls (NewPRepInfo br N offsetLimit)
  have hfresh := addAll_fresh E calls (NewPRepInfo br N offsetLimit) (fun x hx => by
    simp [NewPRepInfo] at hx)
  have hstake := addAll_stake E calls (NewPRepInfo br N offsetLimit) hCP hcalls (fun x hx => by
    simp [NewPRepInfo] at hx)
  intro key x hx
  have hmem := mem_of_GetPRep _ key x hx
  have hseed := seeding_of_fresh _ hwf hfresh x hmem
  unfold PRepInfo.GetTermPeriod at hseed
  rw [hN, hO] at hseed
  have hNl : (loadPRepInfo E br N offsetLimit calls).electedPRepCount = N := hN
  rw [hNl]
  unfold loadPRepInfo PRepInfo.PReps at hmem
  obtain ⟨e, he, hxe⟩ := List.mem_map.1 hmem
  have he2 : e ∈ ((NewPRepInfo br N offsetLimit).addAll E calls).preps := he
  obtain ⟨s1, s2, s3⟩ := Sort_InitAccumulated_stake _ hwf e.2
  obtain ⟨t1, t2, t3⟩ := hstake _ (Heap.deref_mem _ e.2 (hwf.2.2.1 e he2).1)
  rw [← hxe]
  refine ⟨by rw [s1]; exact t1, by rw [s2]; exact t2, by rw [s3]; exact t3, ?_⟩
  intro hrank
  rw [← hxe] at hseed
  obtain ⟨a1, a2⟩ := hseed.1 hrank
  unfold PRep.GetVotedValue
  rw [a1, a2]
  exact ⟨le_refl _, le_refl _⟩

/-- C20 does not hold as stated. (1) `hx2` ranks outside the elected window of
`TestPRepInfo`, so it is not seeded; withdrawing its delegation of 2000 at offset 10
leaves stake 200 and 0 and makes `accumulatedVoted` and `accumulatedPower` -180000.
(2) The claim does not order the offsets: for the seeded `hx1` a delegation of 100000 at
offset 100 followed by its withdrawal at offset 0 gives `accumulatedVoted = -9888900`.
(3) With no vote event any offset limit is allowed: for an offset limit of -5 the term
period is -4 and the seeded `accumulatedVoted` is -4400. (4) Before `Sort` every prep has
rank 0 and none is seeded: a withdrawal of 1000 from `hx1` at offset 10 gives
`accumulatedVoted = -90000`. (5) A power function may be non-negative and still give 5
for zero stake: the late-materialised `hx6` then starts with power 5, and a delegation of
10 at offset 10 brings the power to 0 and `accumulatedPower` to -450. No stake is
negative in any of these states. -/
theorem accumulators_nonneg_counterexample :
    ((testPRepInfo.Sort_.InitAccumulated.ApplyVote goloop VoteType.vtDelegate
        [(hx 2, -2000)] 10).stakesNonneg = true ∧
      ((testPRepInfo.Sort_.InitAccumulated.ApplyVote goloop VoteType.vtDelegate
        [(hx 2, -2000)] 10).GetPRep (hx 2)).map
        (fun r => (r.rank, r.bonded, r.delegated, r.power, r.accumulatedVoted,
          r.accumulatedPower))
        = some (4, 200, 0, 200, -180000, -180000)) ∧
    ((testPRepInfo.Sort_.InitAccumulated.ApplyVote goloop VoteType.vtDelegate
        [(hx 1, 100000)] 100).stakesNonneg = true ∧
      ((testPRepInfo.Sort_.InitAccumulated.ApplyVote goloop VoteType.vtDelegate
        [(hx 1, 100000)] 100).ApplyVote goloop VoteType.vtDelegate
        [(hx 1, -100000)] 0).stakesNonneg = true ∧
      (((testPRepInfo.Sort_.InitAccumulated.ApplyVote goloop VoteType.vtDelegate
        [(hx 1, 100000)] 100).ApplyVote goloop VoteType.vtDelegate
        [(hx 1, -100000)] 0).GetPRep (hx 1)).map
        (fun r => (r.rank, r.bonded, r.delegated, r.accumulatedVoted))
        = some (1, 100, 1000, -9888900)) ∧
    ((loadPRepInfo goloop 500 4 (-5) testAddCalls).stakesNonneg = true ∧
      ((loadPRepInfo goloop 500 4 (-5) testAddCalls).GetPRep (hx 1)).map
        (fun r => (r.rank, r.bonded, r.delegated, r.accumulatedVoted))
        = some (1, 100, 1000, -4400)) ∧
    ((testPRepInfo.ApplyVote goloop VoteType.vtDelegate [(hx 1, -1000)] 10).stakesNonneg
        = true ∧
      ((testPRepInfo.ApplyVote goloop VoteType.vtDelegate [(hx 1, -1000)] 10).GetPRep
        (hx 1)).map (fun r => (r.rank, r.bonded, r.delegated, r.accumulatedVoted))
        = some (0, 100, 0, -90000)) ∧
    ((∀ br b v : Int, 0 ≤ oddPowerDeps.CalcPower br b v) ∧
      ((loadPRepInfo oddPowerDeps 500 4 100 []).ApplyVote oddPowerDeps VoteType.vtDelegate
        [(hx 6, 10)] 10).stakesNonneg = true ∧
      (((loadPRepInfo oddPowerDeps 500 4 100 []).ApplyVote oddPowerDeps VoteType.vtDelegate
        [(hx 6, 10)] 10).GetPRep (hx 6)).map
        (fun r => (r.rank, r.bonded, r.delegated, r.power, r.accumulatedPower))
        = some (0, 0, 10, 0, -450)) :=
  ⟨⟨by decide, by decide⟩, ⟨by decide, by decide, by decide⟩, ⟨by decide, by decide⟩,
    ⟨by decide, by decide⟩,
    ⟨fun _ _ v => by
        show 0 ≤ (if v = 0 then (5 : Int) else 0)
        split_ifs <;> omega,
      by decide, by decide⟩⟩

/-- C20, amended: in the order in which `loadPRepInfo` and `processEvents` make the calls
(one `Add` per record with non-negative stake, `Sort`, `InitAccumulated`, then status and
vote events whose offsets do not decrease, lie in `[0, offsetLimit]` and never drive a
stake below zero), with `offsetLimit >= -1`, and for a power function that is
non-negative for non-negative stake and 0 for zero stake, every known prep has
non-negative stake and power, and every known prep whose rank is below
`electedPRepCount` has non-negative `accumulatedVoted` and `accumulatedPower`. -/
theorem accumulators_nonneg (E : Deps) (bondRequirement electedPRepCount offsetLimit : Int)
    (calls : List AddCall) (events : List Event)
    (hCP : ∀ b d : Int, 0 ≤ b → 0 ≤ d → 0 ≤ E.CalcPower bondRequirement b (d + b))
    (hCP0 : E.CalcPower bondRequirement 0 0 = 0)
    (hol : -1 ≤ offsetLimit ∧ offsetLimit + 1 < 2 ^ 63)
    (hcalls : ∀ c ∈ calls, 0 ≤ c.delegated ∧ 0 ≤ c.bonded)
    (hrun : orderlyReplay E
      (loadPRepInfo E bondRequirement electedPRepCount offsetLimit calls) 0 events = true) :
    ∀ x ∈ ((loadPRepInfo E bondRequirement electedPRepCount offsetLimit calls).applyEvents E
        events).PReps,
      0 ≤ x.bonded ∧ 0 ≤ x.delegated ∧ 0 ≤ x.power ∧
      (x.rank < electedPRepCount → 0 ≤ x.accumulatedVoted ∧ 0 ≤ x.accumulatedPower) := by
  have hwf0 := WF_addAll E calls _ (WF_NewPRepInfo bondRequirement electedPRepCount offsetLimit)
  have hwf : (loadPRepInfo E bondRequirement electedPRepCount offsetLimit calls).WF :=
    WF_InitAccumulated _ (WF_Sort _ hwf0)
  obtain ⟨hN, hO, hB⟩ := addAll_fixed E calls
    (NewPRepInfo bondRequirement electedPRepCount offsetLimit)
  have hNl : (loadPRepInfo E bondRequirement electedPRepCount offsetLimit calls).electedPRepCount
      = electedPRepCount := hN
  have hOl : (loadPRepInfo E bondRequirement electedPRepCount offsetLimit calls).offsetLimit
      = offsetLimit := hO
  have hBl : (loadPRepInfo E bondRequirement electedPRepCount offsetLimit calls).bondRequirement
      = bondRequirement := hB
  have hT : wrapInt64 (offsetLimit + 1) = offsetLimit + 1 :=
    wrapInt64_eq _ (by omega) hol.2
  have hinv := accumInv_loadPRepInfo E bondRequirement electedPRepCount offsetLimit calls hCP
    hcalls
  rw [hT] at hinv
  obtain ⟨r2, hr2, hfin⟩ := accumInv_applyEvents E events
    (loadPRepInfo E bondRequirement electedPRepCount offsetLimit calls) (offsetLimit + 1) 0 hwf
    (by rw [hBl]; exact hCP) (by rw [hBl]; exact hCP0) (by rw [hOl]; omega) (le_refl _)
    (by omega) (by rw [hOl]; omega) hrun hinv
  have hwfF := (fixedPart_rank _ _ (applyEvents_fixedPart E events
    (loadPRepInfo E bondRequirement electedPRepCount offsetLimit calls))).2.1
  have hwfE : ∀ (es : List Event) (p : PRepInfo), p.WF → (p.applyEvents E es).WF := by
    intro es
    induction es with
    | nil => intro p h; exact h
    | cons e es ih =>
      intro p h
      cases e with
      | enable target status => exact ih _ (WF_SetStatus E p target status h)
      | vote vType votes offset => exact ih _ (WF_ApplyVote E vType votes offset p h)
  intro x hx
  obtain ⟨key, hkey⟩ := GetPRep_of_mem _ (hwfE events _ hwf) x hx
  obtain ⟨b1, b2, b3, b4⟩ := hfin key x hkey
  refine ⟨b1, b2, b3, ?_⟩
  intro hrank
  rw [hwfF, hNl] at b4
  obtain ⟨a1, a2⟩ := b4 hrank
  have hV0 : 0 ≤ x.GetVotedValue := by
    unfold PRep.GetVotedValue
    omega
  have m1 := mul_nonneg hV0 hr2
  have m2 := mul_nonneg b3 hr2
  constructor
  · linarith
  · linarith

theorem accumulators_nonneg_witness :
    ((∀ b d : Int, 0 ≤ b → 0 ≤ d → 0 ≤ goloop.CalcPower 500 b (d + b)) ∧
      goloop.CalcPower 500 0 0 = 0 ∧
      ((-1 : Int) ≤ 100 ∧ (100 : Int) + 1 < 2 ^ 63) ∧
      (∀ c ∈ testAddCalls, 0 ≤ c.delegated ∧ 0 ≤ c.bonded) ∧
      orderlyReplay goloop (loadPRepInfo goloop 500 4 100 testAddCalls) 0 testEvents = true) ∧
    (∀ x ∈ ((loadPRepInfo goloop 500 4 100 testAddCalls).applyEvents goloop
        testEvents).PReps,
      0 ≤ x.bonded ∧ 0 ≤ x.delegated ∧ 0 ≤ x.power ∧
      (x.rank < 4 → 0 ≤ x.accumulatedVoted ∧ 0 ≤ x.accumulatedPower)) ∧
    ((loadPRepInfo goloop 500 4 100 testAddCalls).applyEvents goloop
        testEvents).UpdateTotalAccumulatedPower = testPRepInfoReplayed :=
  have hCP : ∀ b d : Int, 0 ≤ b → 0 ≤ d → 0 ≤ goloop.CalcPower 500 b (d + b) := by
    intro b d hb hd
    show 0 ≤ CalcPower 500 b (d + b)
    unfold CalcPower
    have h1 : 0 ≤ b * 10000 / 500 := Int.ediv_nonneg (by omega) (by omega)
    simp only [show (500 : Int) ≠ 0 by omega, if_false]
    split_ifs <;> omega
  ⟨⟨hCP, by decide, by decide, by decide, by decide⟩,
    accumulators_nonneg goloop 500 4 100 testAddCalls testEvents hCP (by decide) (by decide)
      (by decide) (by decide),
    by decide⟩
/-! ## Properties that every allocated object keeps -/

theorem Heap.modify_all (Q : PRep → Prop) (h : Heap) (ptr : Nat) (f : PRep → PRep)
    (hf : ∀ q, Q q → Q (f q)) (hh : ∀ x ∈ h, Q x) : ∀ x ∈ h.modify ptr f, Q x := by
  intro x hx
  by_cases hv : ptr < h.length
  · unfold Heap.modify at hx
    rcases List.mem_or_eq_of_mem_set hx with hmem | heq
    · exact hh x hmem
    · rw [heq]
      exact hf _ (hh _ (Heap.deref_mem h ptr hv))
  · rw [Heap.modify_invalid h ptr f hv] at hx
    exact hh x hx

theorem setRanks_all (Q : PRep → Prop) (hQ : ∀ q idx, Q q → Q (q.SetRank idx))
    (l : List Nat) : ∀ (idx : Nat) (h : Heap), (∀ x ∈ h, Q x) →
    ∀ x ∈ setRanks idx l h, Q x := by
  induction l with
  | nil => intro idx h hh; simpa [setRanks] using hh
  | cons ptr rest ih =>
    intro idx h hh
    simp only [setRanks]
    exact ih (idx + 1) _ (Heap.modify_all Q h ptr _ (fun q hq => hQ q idx hq) hh)

theorem initLoop_all (Q : PRep → Prop) (N T : Int) (hQ : ∀ q, Q q → Q (q.InitAccumulated T))
    (l : List Nat) : ∀ (i : Nat) (h : Heap), (∀ x ∈ h, Q x) →
    ∀ x ∈ initLoop N T i l h, Q x := by
  induction l with
  | nil => intro i h hh; simpa [initLoop] using hh
  | cons ptr rest ih =>
    intro i h hh
    simp only [initLoop]
    split_ifs with hN
    · exact hh
    · exact ih (i + 1) _ (Heap.modify_all Q h ptr _ hQ hh)

theorem rewardLoop_all (Q : PRep → Prop) (E : Deps) (N tReward tot minBond w : Int)
    (hQ : ∀ q q2, Q q → q.CalculateReward E tReward tot minBond w = some q2 → Q q2)
    (l : List Nat) : ∀ (i : Nat) (h h2 : Heap), (∀ x ∈ h, Q x) →
    rewardLoop E N tReward tot minBond w i l h = some h2 → ∀ x ∈ h2, Q x := by
  induction l with
  | nil =>
    intro i h h2 hh hr
    simp only [rewardLoop, Option.some.injEq] at hr
    rw [← hr]; exact hh
  | cons ptr rest ih =>
    intro i h h2 hh hr
    simp only [rewardLoop] at hr
    split_ifs at hr with hN hrew
    · simp only [Option.some.injEq] at hr
      rw [← hr]; exact hh
    · exact ih (i + 1) h h2 hh hr
    · cases hc : (h.deref ptr).CalculateReward E tReward tot minBond w with
      | none => rw [hc] at hr; simp at hr
      | some q =>
        rw [hc] at hr
        simp only at hr
        by_cases hv : ptr < h.length
        · refine ih (i + 1) _ h2 ?_ hr
          exact Heap.modify_all Q h ptr _
            (fun _ _ => hQ _ q (hh _ (Heap.deref_mem h ptr hv)) hc) hh
        · rw [Heap.modify_invalid h ptr _ hv] at hr
          exact ih (i + 1) h h2 hh hr

theorem powerCurrent_ApplyVote (E : Deps) (br : Int) (q : PRep) (vType : VoteType)
    (amount period : Int) : (q.ApplyVote E vType amount period br).powerCurrent E br := by
  have h := (ApplyVote_fields E q vType amount period br).2.2.1
  exact h

theorem powerCurrent_Add (E : Deps) (p : PRepInfo) (target : List Nat) (status : EnableStatus)
    (delegated bonded commissionRate : Int) (pubkey : Bool)
    (hh : ∀ x ∈ p.heap, x.powerCurrent E p.bondRequirement) :
    ∀ x ∈ (p.Add E target status delegated bonded commissionRate pubkey).heap,
      x.powerCurrent E p.bondRequirement := by
  intro x hx
  simp only [PRepInfo.Add, List.mem_append, List.mem_singleton] at hx
  rcases hx with hx | hx
  · exact hh x hx
  · rw [hx]; rfl

theorem powerCurrent_applyOneVote (E : Deps) (vType : VoteType) (offset : Int) (p : PRepInfo)
    (vote : List Nat × Int) (hh : ∀ x ∈ p.heap, x.powerCurrent E p.bondRequirement) :
    (PRepInfo.applyOneVote E vType offset p vote).bondRequirement = p.bondRequirement ∧
    ∀ x ∈ (PRepInfo.applyOneVote E vType offset p vote).heap,
      x.powerCurrent E p.bondRequirement := by
  unfold PRepInfo.applyOneVote
  dsimp only
  split
  · refine ⟨rfl, ?_⟩
    exact Heap.modify_all _ p.heap _ _ (fun q _ => powerCurrent_ApplyVote E _ q _ _ _) hh
  · refine ⟨rfl, ?_⟩
    exact Heap.modify_all _ _ _ _ (fun q _ => powerCurrent_ApplyVote E _ q _ _ _)
      (powerCurrent_Add E p _ _ _ _ _ _ hh)

theorem powerCurrent_PRepInfo_ApplyVote (E : Deps) (vType : VoteType) (offset : Int)
    (votes : List (List Nat × Int)) : ∀ p : PRepInfo,
    (∀ x ∈ p.heap, x.powerCurrent E p.bondRequirement) →
    (p.ApplyVote E vType votes offset).bondRequirement = p.bondRequirement ∧
    ∀ x ∈ (p.ApplyVote E vType votes offset).heap, x.powerCurrent E p.bondRequirement := by
  induction votes with
  | nil => intro p hh; exact ⟨rfl, hh⟩
  | cons v vs ih =>
    intro p hh
    have h1 := powerCurrent_applyOneVote E vType offset p v hh
    have h2 := ih (PRepInfo.applyOneVote E vType offset p v) (by rw [h1.1]; exact h1.2)
    simp only [PRepInfo.ApplyVote, List.foldl_cons] at h2 ⊢
    rw [h1.1] at h2
    exact h2

theorem powerCurrent_of_Reachable (E : Deps) (p : PRepInfo) (h : PRepInfo.Reachable E p) :
    ∀ x ∈ p.heap, x.powerCurrent E p.bondRequirement := by
  induction h with
  | new br N offsetLimit => intro x hx; simp [NewPRepInfo] at hx
  | add target status delegated bonded commissionRate pubkey _ ih =>
    exact powerCurrent_Add E _ _ _ _ _ _ _ ih
  | @setStatus p target status _ ih =>
    unfold PRepInfo.SetStatus
    dsimp only
    split
    · exact Heap.modify_all _ p.heap _ (fun q => q.SetStatus status) (fun q hq => hq) ih
    · exact powerCurrent_Add E _ _ _ _ _ _ _ ih
  | @sort p _ ih =>
    exact setRanks_all _ (fun q idx hq => hq) _ 0 p.heap ih
  | @initAccumulated p _ ih =>
    exact initLoop_all _ _ _ (fun q hq => hq) _ 0 p.heap ih
  | @applyVote p vType votes offset _ ih =>
    have h := powerCurrent_PRepInfo_ApplyVote E vType offset votes p ih
    rw [h.1]; exact h.2
  | updateTotalAccumulatedPower _ ih => exact ih
  | @calculateReward p q totalReward totalMinWage minBond _ hq ih =>
    unfold PRepInfo.CalculateReward at hq
    split_ifs at hq with hN
    · simp only [Option.some.injEq] at hq
      rw [← hq]; exact ih
    · cases h1 : fundToPeriodIScore E totalReward p.GetTermPeriod with
      | none => rw [h1] at hq; simp at hq
      | some tReward =>
        cases h2 : fundToPeriodIScore E totalMinWage p.GetTermPeriod with
        | none => rw [h1, h2] at hq; simp at hq
        | some minWage =>
          rw [h1, h2] at hq
          simp only at hq
          cases h3 : rewardLoop E p.electedPRepCount tReward p.totalAccumulatedPower minBond
              (minWage / p.electedPRepCount) 0 p.rank p.heap with
          | none => rw [h3] at hq; simp at hq
          | some h2 =>
            rw [h3] at hq
            simp only [Option.some.injEq] at hq
            rw [← hq]
            refine rewardLoop_all _ E _ _ _ _ _ ?_ p.rank 0 p.heap h2 ih h3
            intro a a2 ha hc
            by_cases h0 : p.totalAccumulatedPower = 0
            · simp [PRep.CalculateReward, h0] at hc
            · rw [CalculateReward_eq_rewarded E a _ _ _ _ h0] at hc
              injection hc with hc
              rw [← hc]; exact ha

/-- C21: power is never stale: in every state of a `PRepInfo` that the methods `Add`,
`SetStatus`, `Sort`, `InitAccumulated`, `ApplyVote`, `UpdateTotalAccumulatedPower` and
`CalculateReward` produce from `NewPRepInfo`, every known prep (every object of the map,
however it is looked up) has `power = CalcPower(bondRequirement, bonded, delegated + bonded)`
for the bond requirement of the `PRepInfo`, which is `calcPower(bondRequirement)`. -/
theorem power_never_stale (E : Deps) (p : PRepInfo) (h : PRepInfo.Reachable E p) :
    (∀ x ∈ p.PReps, x.power = E.CalcPower p.bondRequirement x.bonded (x.delegated + x.bonded)) ∧
    (∀ (key : List Nat) (x : PRep), p.GetPRep key = some x →
      x.power = E.CalcPower p.bondRequirement x.bonded (x.delegated + x.bonded) ∧
      x.power = x.calcPower E p.bondRequirement) := by
  have hwf := WF_of_Reachable E p h
  have hall := powerCurrent_of_Reachable E p h
  have hP : ∀ x ∈ p.PReps,
      x.power = E.CalcPower p.bondRequirement x.bonded (x.delegated + x.bonded) := by
    intro x hx
    simp only [PRepInfo.PReps, List.mem_map] at hx
    obtain ⟨e, he, hxe⟩ := hx
    rw [← hxe]
    exact hall _ (Heap.deref_mem p.heap e.2 (hwf.2.2.1 e he).1)
  refine ⟨hP, ?_⟩
  intro key x hx
  exact ⟨hP x (mem_of_GetPRep p key x hx), hP x (mem_of_GetPRep p key x hx)⟩

theorem power_never_stale_witness :
    PRepInfo.Reachable goloop testPRepInfoReplayed ∧
    ((∀ x ∈ testPRepInfoReplayed.PReps,
      x.power = goloop.CalcPower testPRepInfoReplayed.bondRequirement x.bonded
        (x.delegated + x.bonded)) ∧
    (∀ (key : List Nat) (x : PRep), testPRepInfoReplayed.GetPRep key = some x →
      x.power = goloop.CalcPower testPRepInfoReplayed.bondRequirement x.bonded
        (x.delegated + x.bonded) ∧
      x.power = x.calcPower goloop testPRepInfoReplayed.bondRequirement)) ∧
    testPRepInfoReplayed.PReps.map (fun x => (x.bonded, x.delegated, x.power))
      = [(200, 1000, 1200), (400, 2000, 2400), (600, 3000, 3600), (40, 4000, 800),
         (50, 2000, 1000), (0, 6000, 0), (0, 0, 0)] :=
  have hreach : PRepInfo.Reachable goloop testPRepInfoReplayed :=
    PRepInfo.Reachable.updateTotalAccumulatedPower
      (PRepInfo.Reachable.setStatus (hx 7) EnableStatus.ESEnable
      (PRepInfo.Reachable.setStatus (hx 6) EnableStatus.ESEnable
      (PRepInfo.Reachable.setStatus (hx 4) EnableStatus.ESJail
      (PRepInfo.Reachable.setStatus (hx 5) EnableStatus.ESJail
      (PRepInfo.Reachable.setStatus (hx 3) EnableStatus.ESEnable
      (PRepInfo.Reachable.applyVote VoteType.vtDelegate
        [(hx 1, -1000), (hx 2, -2000), (hx 3, -3000), (hx 5, -3000)] 80
      (PRepInfo.Reachable.applyVote VoteType.vtBond [(hx 1, 100), (hx 2, 200), (hx 3, 300)] 30
      (PRepInfo.Reachable.applyVote VoteType.vtDelegate
        [(hx 1, 1000), (hx 2, 2000), (hx 3, 3000), (hx 6, 6000)] 10
      (PRepInfo.Reachable.initAccumulated
      (PRepInfo.Reachable.sort
      (PRepInfo.Reachable.add (hx 5) EnableStatus.ESUnjail 5000 50 500 true
      (PRepInfo.Reachable.add (hx 4) EnableStatus.ESEnable 4000 40 400 true
      (PRepInfo.Reachable.add (hx 3) EnableStatus.ESUnjail 3000 300 300 true
      (PRepInfo.Reachable.add (hx 2) EnableStatus.ESJail 2000 200 200 true
      (PRepInfo.Reachable.add (hx 1) EnableStatus.ESEnable 1000 100 100 true
      (PRepInfo.Reachable.new 500 4 100))))))))))))))))
  ⟨hreach, power_never_stale goloop testPRepInfoReplayed hreach, by decide⟩

/-! ## Stake after a vote -/

/-- C22 does not hold as stated: `TestPRep_ApplyVote` starts from a PRep with bond 100
and delegation 0, both non-negative; a bond vote that withdraws 120 leaves the stored
`bonded` at -20, and a delegation vote that withdraws 1 leaves `delegated` at -1. -/
theorem ApplyVote_stake_counterexample :
    0 ≤ (newTestPRep (hx 1) EnableStatus.ESEnable 100 0 true 0).bonded ∧
    0 ≤ (newTestPRep (hx 1) EnableStatus.ESEnable 100 0 true 0).delegated ∧
    ((newTestPRep (hx 1) EnableStatus.ESEnable 100 0 true 0).ApplyVote goloop
      VoteType.vtBond (-120) 200 100).bonded = -20 ∧
    ((newTestPRep (hx 1) EnableStatus.ESEnable 100 0 true 0).ApplyVote goloop
      VoteType.vtDelegate (-1) 200 500).delegated = -1 ∧
    ¬ (0 ≤ ((newTestPRep (hx 1) EnableStatus.ESEnable 100 0 true 0).ApplyVote goloop
        VoteType.vtBond (-120) 200 100).bonded ∧
      0 ≤ ((newTestPRep (hx 1) EnableStatus.ESEnable 100 0 true 0).ApplyVote goloop
        VoteType.vtBond (-120) 200 100).delegated) := by
  decide

/-- C22, amended: for every PRep with non-negative bonded and delegated and every amount,
`PRep.ApplyVote` stores the old stake of the vote's type plus `amount` and leaves the
other stake as it is, without a check; so the stored bonded and delegated are both
non-negative afterwards exactly when the amount is at least minus the stored stake of the
vote's type, that is when a withdrawal does not exceed that stake. -/
theorem ApplyVote_stake_nonneg (E : Deps) (p : PRep) (vType : VoteType)
    (amount period br : Int) (hb : 0 ≤ p.bonded) (hd : 0 ≤ p.delegated) :
    ((0 ≤ (p.ApplyVote E vType amount period br).bonded ∧
        0 ≤ (p.ApplyVote E vType amount period br).delegated) ↔
      -(if vType = VoteType.vtBond then p.bonded else p.delegated) ≤ amount) ∧
    (p.ApplyVote E vType amount period br).bonded
      = (if vType = VoteType.vtBond then p.bonded + amount else p.bonded) ∧
    (p.ApplyVote E vType amount period br).delegated
      = (if vType = VoteType.vtBond then p.delegated else p.delegated + amount) := by
  have h := ApplyVote_fields E p vType amount period br
  refine ⟨?_, h.1, h.2.1⟩
  rw [h.1, h.2.1]
  by_cases hv : vType = VoteType.vtBond
  · simp only [hv, if_true]
    constructor
    · intro hh; omega
    · intro hh; constructor <;> omega
  · simp only [hv, if_false]
    constructor
    · intro hh; omega
    · intro hh; constructor <;> omega

theorem ApplyVote_stake_nonneg_witness :
    (0 ≤ (newTestPRep (hx 1) EnableStatus.ESEnable 100 0 true 0).bonded ∧
      0 ≤ (newTestPRep (hx 1) EnableStatus.ESEnable 100 0 true 0).delegated) ∧
    (((0 ≤ ((newTestPRep (hx 1) EnableStatus.ESEnable 100 0 true 0).ApplyVote goloop
          VoteType.vtBond (-100) 200 100).bonded ∧
        0 ≤ ((newTestPRep (hx 1) EnableStatus.ESEnable 100 0 true 0).ApplyVote goloop
          VoteType.vtBond (-100) 200 100).delegated) ↔
      -(if VoteType.vtBond = VoteType.vtBond
          then (newTestPRep (hx 1) EnableStatus.ESEnable 100 0 true 0).bonded
          else (newTestPRep (hx 1) EnableStatus.ESEnable 100 0 true 0).delegated) ≤ -100) ∧
    ((newTestPRep (hx 1) EnableStatus.ESEnable 100 0 true 0).ApplyVote goloop
        VoteType.vtBond (-100) 200 100).bonded
      = (if VoteType.vtBond = VoteType.vtBond
          then (newTestPRep (hx 1) EnableStatus.ESEnable 100 0 true 0).bonded + -100
          else (newTestPRep (hx 1) EnableStatus.ESEnable 100 0 true 0).bonded) ∧
    ((newTestPRep (hx 1) EnableStatus.ESEnable 100 0 true 0).ApplyVote goloop
        VoteType.vtBond (-100) 200 100).delegated
      = (if VoteType.vtBond = VoteType.vtBond
          then (newTestPRep (hx 1) EnableStatus.ESEnable 100 0 true 0).delegated
          else (newTestPRep (hx 1) EnableStatus.ESEnable 100 0 true 0).delegated + -100)) ∧
    (((newTestPRep (hx 1) EnableStatus.ESEnable 100 0 true 0).ApplyVote goloop
        VoteType.vtBond (-100) 200 100).bonded = 0 ∧
      ((newTestPRep (hx 1) EnableStatus.ESEnable 100 0 true 0).ApplyVote goloop
        VoteType.vtBond 20 200 100).bonded = 120) :=
  ⟨by decide,
   ApplyVote_stake_nonneg goloop (newTestPRep (hx 1) EnableStatus.ESEnable 100 0 true 0)
     VoteType.vtBond (-100) 200 100 (by decide) (by decide),
   by decide⟩

/-! ## Events leave the ranking alone -/

theorem eventFrame_refl (x : PRep) : x.eventFrame x :=
  ⟨rfl, rfl, rfl, rfl, rfl, rfl, rfl⟩

theorem eventFrame_trans (x y z : PRep) (h1 : x.eventFrame y) (h2 : y.eventFrame z) :
    x.eventFrame z := by
  obtain ⟨a1, a2, a3, a4, a5, a6, a7⟩ := h1
  obtain ⟨b1, b2, b3, b4, b5, b6, b7⟩ := h2
  exact ⟨b1.trans a1, b2.trans a2, b3.trans a3, b4.trans a4, b5.trans a5, b6.trans a6,
    b7.trans a7⟩

theorem eventFrame_ApplyVote (E : Deps) (x : PRep) (vType : VoteType)
    (amount period br : Int) : x.eventFrame (x.ApplyVote E vType amount period br) := by
  unfold PRep.eventFrame PRep.ApplyVote
  dsimp only
  split_ifs <;> exact ⟨rfl, rfl, rfl, rfl, rfl, rfl, rfl⟩

theorem eventFrame_SetStatus (x : PRep) (status : EnableStatus) :
    x.eventFrame (x.SetStatus status) :=
  ⟨rfl, rfl, rfl, rfl, rfl, rfl, rfl⟩

theorem eventFrame_PRepInfo_SetStatus (E : Deps) (p : PRepInfo) (hwf : p.WF)
    (target : List Nat) (status : EnableStatus) (key : List Nat) (x : PRep)
    (hx : p.GetPRep key = some x) :
    ∃ y, (p.SetStatus E target status).GetPRep key = some y ∧ x.eventFrame y ∧
      y.bonded = x.bonded ∧ y.delegated = x.delegated ∧ y.power = x.power ∧
      y.accumulatedVoted = x.accumulatedVoted ∧ y.accumulatedPower = x.accumulatedPower := by
  have h := SetStatus_GetPRep E p hwf target status
  by_cases hk : key = target
  · subst hk
    rw [hx] at h
    exact ⟨_, h.1, eventFrame_SetStatus x status, rfl, rfl, rfl, rfl, rfl⟩
  · refine ⟨x, ?_, eventFrame_refl x, rfl, rfl, rfl, rfl, rfl⟩
    rw [h.2 key hk]; exact hx

theorem eventFrame_applyOneVote (E : Deps) (vType : VoteType) (offset : Int) (p : PRepInfo)
    (hwf : p.WF) (v : List Nat × Int) (key : List Nat) (x : PRep)
    (hx : p.GetPRep key = some x) :
    ∃ y, (PRepInfo.applyOneVote E vType offset p v).GetPRep key = some y ∧ x.eventFrame y ∧
      y.status = x.status := by
  have h := applyOneVote_GetPRep E vType offset p hwf v.1 v.2
  by_cases hk : key = v.1
  · subst hk
    rw [hx] at h
    refine ⟨_, h.1, ?_, ?_⟩
    · exact eventFrame_ApplyVote E x vType _ _ _
    · simp only [Option.getD_some]
      unfold PRep.ApplyVote
      dsimp only
      split_ifs <;> rfl
  · refine ⟨x, ?_, eventFrame_refl x, rfl⟩
    have h2 := h.2 key hk
    rw [← hx, ← h2]

theorem eventFrame_PRepInfo_ApplyVote (E : Deps) (vType : VoteType) (offset : Int)
    (votes : List (List Nat × Int)) : ∀ (p : PRepInfo), p.WF → ∀ (key : List Nat) (x : PRep),
    p.GetPRep key = some x →
    ∃ y, (p.ApplyVote E vType votes offset).GetPRep key = some y ∧ x.eventFrame y ∧
      y.status = x.status := by
  induction votes with
  | nil => intro p _ key x hx; exact ⟨x, hx, eventFrame_refl x, rfl⟩
  | cons v vs ih =>
    intro p hwf key x hx
    obtain ⟨y, hy, hxy, hs⟩ := eventFrame_applyOneVote E vType offset p hwf v key x hx
    obtain ⟨z, hz, hyz, hs2⟩ := ih _ (WF_applyOneVote E vType offset p v hwf) key y hy
    exact ⟨z, hz, eventFrame_trans x y z hxy hyz, hs2.trans hs⟩

theorem eventFrame_applyEvents (E : Deps) (events : List Event) :
    ∀ (p : PRepInfo), p.WF → ∀ (key : List Nat) (x : PRep), p.GetPRep key = some x →
    (p.applyEvents E events).WF ∧
    ∃ y, (p.applyEvents E events).GetPRep key = some y ∧ x.eventFrame y := by
  induction events with
  | nil => intro p hwf key x hx; exact ⟨hwf, x, hx, eventFrame_refl x⟩
  | cons e es ih =>
    intro p hwf key x hx
    cases e with
    | enable target status =>
      obtain ⟨y, hy, hxy, _⟩ := eventFrame_PRepInfo_SetStatus E p hwf target status key x hx
      obtain ⟨hw, z, hz, hyz⟩ := ih _ (WF_SetStatus E p target status hwf) key y hy
      exact ⟨hw, z, hz, eventFrame_trans x y z hxy hyz⟩
    | vote vType votes offset =>
      obtain ⟨y, hy, hxy, _⟩ := eventFrame_PRepInfo_ApplyVote E vType offset votes p hwf key x hx
      obtain ⟨hw, z, hz, hyz⟩ := ih _ (WF_ApplyVote E vType votes offset p hwf) key y hy
      exact ⟨hw, z, hz, eventFrame_trans x y z hxy hyz⟩

/-- C23: rank is stable under events: `PRepInfo.SetStatus` and `PRepInfo.ApplyVote`, and
so every replay of events, leave the rank sequence unchanged and leave every previously
known prep known with the same rank field (and the same owner, public-key flag, commission
rate and reward fields: a status event changes only the status, a vote event only stake,
power and accumulators). The ranking is not recomputed when an event changes the order
that `Bigger` decides: in the sorted test state, jailing `hx3` or bonding 10000 to `hx1`
keeps the rank sequence although a fresh `Sort` would give another one. -/
theorem rank_stable_under_events (E : Deps) (p : PRepInfo) (hwf : p.WF) :
    (∀ (target : List Nat) (status : EnableStatus),
      (p.SetStatus E target status).rank = p.rank ∧
      ∀ (key : List Nat) (x : PRep), p.GetPRep key = some x →
        ∃ y, (p.SetStatus E target status).GetPRep key = some y ∧ y.rank = x.rank ∧
          x.eventFrame y ∧ y.bonded = x.bonded ∧ y.delegated = x.delegated ∧
          y.power = x.power ∧ y.accumulatedVoted = x.accumulatedVoted ∧
          y.accumulatedPower = x.accumulatedPower) ∧
    (∀ (vType : VoteType) (votes : List (List Nat × Int)) (offset : Int),
      (p.ApplyVote E vType votes offset).rank = p.rank ∧
      ∀ (key : List Nat) (x : PRep), p.GetPRep key = some x →
        ∃ y, (p.ApplyVote E vType votes offset).GetPRep key = some y ∧ y.rank = x.rank ∧
          x.eventFrame y ∧ y.status = x.status) ∧
    (∀ events : List Event,
      (p.applyEvents E events).rank = p.rank ∧
      ∀ (key : List Nat) (x : PRep), p.GetPRep key = some x →
        ∃ y, (p.applyEvents E events).GetPRep key = some y ∧ y.rank = x.rank ∧
          x.eventFrame y) ∧
    ((testPRepInfo.Sort_.SetStatus goloop (hx 3) EnableStatus.ESJail).rank
        = testPRepInfo.Sort_.rank ∧
      (testPRepInfo.Sort_.SetStatus goloop (hx 3) EnableStatus.ESJail).Sort_.rank
        ≠ testPRepInfo.Sort_.rank ∧
      (testPRepInfo.Sort_.ApplyVote goloop VoteType.vtBond [(hx 1, 10000)] 10).rank
        = testPRepInfo.Sort_.rank ∧
      (testPRepInfo.Sort_.ApplyVote goloop VoteType.vtBond [(hx 1, 10000)] 10).Sort_.rank
        ≠ testPRepInfo.Sort_.rank) := by
  refine ⟨?_, ?_, ?_, ⟨by decide, by decide, by decide, by decide⟩⟩
  · intro target status
    refine ⟨(fixedPart_rank _ _ (SetStatus_fixedPart E p target status)).1, ?_⟩
    intro key x hx
    obtain ⟨y, hy, hf, h1, h2, h3, h4, h5⟩ :=
      eventFrame_PRepInfo_SetStatus E p hwf target status key x hx
    exact ⟨y, hy, hf.1, hf, h1, h2, h3, h4, h5⟩
  · intro vType votes offset
    refine ⟨(fixedPart_rank _ _ (ApplyVote_fixedPart E vType votes offset p)).1, ?_⟩
    intro key x hx
    obtain ⟨y, hy, hf, hs⟩ := eventFrame_PRepInfo_ApplyVote E vType offset votes p hwf key x hx
    exact ⟨y, hy, hf.1, hf, hs⟩
  · intro events
    refine ⟨(fixedPart_rank _ _ (applyEvents_fixedPart E events p)).1, ?_⟩
    intro key x hx
    obtain ⟨_, y, hy, hf⟩ := eventFrame_applyEvents E events p hwf key x hx
    exact ⟨y, hy, hf.1, hf⟩

theorem rank_stable_under_events_witness :
    testPRepInfo.Sort_.InitAccumulated.WF ∧
    (((testPRepInfo.Sort_.InitAccumulated.applyEvents goloop testEvents).rank
        = testPRepInfo.Sort_.InitAccumulated.rank ∧
      ∀ (key : List Nat) (x : PRep), testPRepInfo.Sort_.InitAccumulated.GetPRep key = some x →
        ∃ y, (testPRepInfo.Sort_.InitAccumulated.applyEvents goloop testEvents).GetPRep key
            = some y ∧ y.rank = x.rank ∧ x.eventFrame y) ∧
    ((testPRepInfo.Sort_.InitAccumulated.applyEvents goloop testEvents).rank = [2, 0, 4, 3, 1] ∧
      [hx 3, hx 1, hx 5, hx 4, hx 2, hx 6, hx 7].map (fun key =>
        ((testPRepInfo.Sort_.InitAccumulated.applyEvents goloop testEvents).GetPRep key).map
          (fun r => r.rank))
        = [some 0, some 1, some 2, some 3, some 4, some 0, some 0] ∧
      (testPRepInfo.Sort_.InitAccumulated.applyEvents goloop testEvents).Sort_.rank
        = [2, 0, 1, 4, 3, 5, 6])) :=
  ⟨by decide,
   (rank_stable_under_events goloop testPRepInfo.Sort_.InitAccumulated (by decide)).2.2.1
     testEvents,
   by decide, by decide, by decide⟩

/-! ## Status events -/

theorem Heap.modify_idem (h : Heap) (ptr : Nat) (f : PRep → PRep)
    (hf : ∀ q, f (f q) = f q) : (h.modify ptr f).modify ptr f = h.modify ptr f := by
  by_cases hv : ptr < h.length
  · have h1 : (h.modify ptr f).deref ptr = f (h.deref ptr) := Heap.deref_modify_self h ptr f hv
    have h2 : (h.modify ptr f).modify ptr f = (h.modify ptr f).set ptr (f (f (h.deref ptr))) := by
      rw [← h1]; rfl
    rw [h2, hf]
    unfold Heap.modify
    exact List.set_set _ _ h ptr
  · have hv2 : ¬ ptr < (h.modify ptr f).length := by rw [Heap.length_modify]; exact hv
    exact Heap.modify_invalid _ ptr f hv2

theorem Heap.modify_fix (h : Heap) (ptr : Nat) (f : PRep → PRep)
    (hf : f (h.deref ptr) = h.deref ptr) : h.modify ptr f = h := by
  by_cases hv : ptr < h.length
  · unfold Heap.modify
    rw [hf]
    apply List.ext_getElem
    · simp
    · intro n h1 h2
      by_cases hn : ptr = n
      · subst hn
        simp [Heap.deref, List.getD, List.getElem?_eq_getElem hv]
      · simp [List.getElem_set_ne hn]
  · exact Heap.modify_invalid h ptr f hv

theorem SetStatus_idem (E : Deps) (p : PRepInfo) (target : List Nat) (status : EnableStatus) :
    (p.SetStatus E target status).SetStatus E target status = p.SetStatus E target status := by
  cases hl : p.preps.lookup target with
  | some ptr =>
    have h1 : p.SetStatus E target status
        = { p with heap := p.heap.modify ptr (fun q => q.SetStatus status) } := by
      simp only [PRepInfo.SetStatus, hl]
    rw [h1]
    simp only [PRepInfo.SetStatus, hl]
    rw [Heap.modify_idem p.heap ptr (fun q => q.SetStatus status) (fun q => rfl)]
  | none =>
    have h1 : p.SetStatus E target status = p.Add E target status 0 0 0 false := by
      simp only [PRepInfo.SetStatus, hl]
    rw [h1]
    have h2 : (p.Add E target status 0 0 0 false).preps.lookup target = some p.heap.length := by
      simp only [PRepInfo.Add]
      exact lookup_mapSet_self target p.heap.length p.preps
    simp only [PRepInfo.SetStatus, h2]
    have h3 : (p.Add E target status 0 0 0 false).heap.modify p.heap.length
        (fun q => q.SetStatus status) = (p.Add E target status 0 0 0 false).heap := by
      apply Heap.modify_fix
      simp only [PRepInfo.Add]
      rw [Heap.deref_append_new]
      rfl
    rw [h3]

/-- C24: `PRepInfo.SetStatus(target, status)` is an idempotent upsert. If `target` is
known, that prep keeps every field but its status, which becomes `status`, and no object
is added; if `target` is unknown, the new entry is `NewPRep(target, status, 0, 0, 0,
false)` with its power updated: status `status`, zero bonded and delegated, commission
rate 0, pubkey false, and power `CalcPower(bondRequirement, 0, 0)`, which is zero (the
hypothesis on `icutils.CalcPower`, which is not part of these sources). Every prep under
another key is unchanged, and so are the rank sequence, the term parameters and the total.
In both cases `GetPRep(target).Status() = status` afterwards, and a second `SetStatus` with
the same arguments leaves the state as the first one left it. -/
theorem SetStatus_upsert (E : Deps) (p : PRepInfo) (hwf : p.WF) (target : List Nat)
    (status : EnableStatus) (hCP0 : E.CalcPower p.bondRequirement 0 0 = 0) :
    (∀ x : PRep, p.GetPRep target = some x →
      (p.SetStatus E target status).GetPRep target = some { x with status := status } ∧
      (p.SetStatus E target status).preps = p.preps ∧
      (p.SetStatus E target status).heap.length = p.heap.length) ∧
    (p.GetPRep target = none →
      ∃ y : PRep, (p.SetStatus E target status).GetPRep target = some y ∧
        y = { NewPRep target status 0 0 0 false with
              power := E.CalcPower p.bondRequirement 0 0 } ∧
        y.status = status ∧ y.bonded = 0 ∧ y.delegated = 0 ∧ y.power = 0 ∧
        y.commissionRate = 0 ∧ y.pubkey = false ∧ y.owner = target ∧ y.rank = 0 ∧
        y.accumulatedVoted = 0 ∧ y.accumulatedPower = 0) ∧
    (∀ key : List Nat, key ≠ target →
      (p.SetStatus E target status).GetPRep key = p.GetPRep key) ∧
    (p.SetStatus E target status).fixedPart = p.fixedPart ∧
    ((p.SetStatus E target status).GetPRep target).map (fun r => r.status) = some status ∧
    (p.SetStatus E target status).SetStatus E target status = p.SetStatus E target status := by
  have h := SetStatus_GetPRep E p hwf target status
  refine ⟨?_, ?_, h.2, SetStatus_fixedPart E p target status, ?_,
    SetStatus_idem E p target status⟩
  · intro x hx
    rw [hx] at h
    refine ⟨h.1, ?_, ?_⟩
    · cases hl : p.preps.lookup target with
      | some ptr => simp only [PRepInfo.SetStatus, hl]
      | none => simp [PRepInfo.GetPRep, hl] at hx
    · cases hl : p.preps.lookup target with
      | some ptr => simp only [PRepInfo.SetStatus, hl, Heap.length_modify]
      | none => simp [PRepInfo.GetPRep, hl] at hx
  · intro hx
    rw [hx] at h
    refine ⟨_, h.1, ?_, rfl, rfl, rfl, ?_, rfl, rfl, rfl, rfl, rfl, rfl⟩
    · simp [PRep.UpdatePower, PRep.calcPower, PRep.GetVotedValue, NewPRep]
    · simp [PRep.UpdatePower, PRep.calcPower, PRep.GetVotedValue, NewPRep, hCP0]
  · rw [h.1]
    cases p.GetPRep target <;> rfl

theorem SetStatus_upsert_witness :
    (testPRepInfo.Sort_.InitAccumulated.WF ∧
      goloop.CalcPower testPRepInfo.Sort_.InitAccumulated.bondRequirement 0 0 = 0) ∧
    ((testPRepInfo.Sort_.InitAccumulated.SetStatus goloop (hx 7) EnableStatus.ESEnable).GetPRep
        (hx 7)).map (fun r => r.status) = some EnableStatus.ESEnable ∧
    ((testPRepInfo.Sort_.InitAccumulated.GetPRep (hx 7) = none ∧
      (testPRepInfo.Sort_.InitAccumulated.SetStatus goloop (hx 7) EnableStatus.ESEnable).GetPRep
        (hx 7) = some { NewPRep (hx 7) EnableStatus.ESEnable 0 0 0 false with power := 0 }) ∧
     (testPRepInfo.Sort_.InitAccumulated.GetPRep (hx 4)).map
        (fun r => (r.status, r.bonded, r.delegated, r.power, r.rank, r.accumulatedVoted))
        = some (EnableStatus.ESEnable, 40, 4000, 800, 3, 408040) ∧
     ((testPRepInfo.Sort_.InitAccumulated.SetStatus goloop (hx 4) EnableStatus.ESJail).GetPRep
        (hx 4)).map
        (fun r => (r.status, r.bonded, r.delegated, r.power, r.rank, r.accumulatedVoted))
        = some (EnableStatus.ESJail, 40, 4000, 800, 3, 408040) ∧
     (∀ br : Int, CalcPower br 0 0 = 0)) :=
  ⟨⟨by decide, by decide⟩,
   (SetStatus_upsert goloop testPRepInfo.Sort_.InitAccumulated (by decide) (hx 7)
     EnableStatus.ESEnable (by decide)).2.2.2.2.1,
   ⟨by decide, by decide⟩, by decide, by decide,
   fun br => by unfold CalcPower; split_ifs <;> simp⟩

/-! ## Snapshot records and added entries -/

theorem Add_GetPRep_self (E : Deps) (p : PRepInfo) (target : List Nat) (status : EnableStatus)
    (delegated bonded commissionRate : Int) (pubkey : Bool) :
    (p.Add E target status delegated bonded commissionRate pubkey).GetPRep target
      = some ((NewPRep target status delegated bonded commissionRate pubkey).UpdatePower E
          p.bondRequirement) := by
  simp only [PRepInfo.GetPRep, PRepInfo.Add]
  rw [lookup_mapSet_self, Option.map_some', Heap.deref_append_new]

theorem Add_GetPRep_other (E : Deps) (p : PRepInfo) (hwf : p.WF) (target : List Nat)
    (status : EnableStatus) (delegated bonded commissionRate : Int) (pubkey : Bool)
    (key : List Nat) (hne : key ≠ target) :
    (p.Add E target status delegated bonded commissionRate pubkey).GetPRep key
      = p.GetPRep key := by
  simp only [PRepInfo.GetPRep, PRepInfo.Add]
  rw [lookup_mapSet_ne target key _ _ hne]
  cases hl : p.preps.lookup key with
  | none => rfl
  | some ptr =>
    simp only [Option.map_some']
    rw [Heap.deref_append_old _ _ _ (WF_lookup_valid p hwf key ptr hl)]

theorem addAll_GetPRep_none (E : Deps) (calls : List AddCall) (key : List Nat) :
    ∀ p : PRepInfo, p.WF → p.GetPRep key = none → key ∉ calls.map (fun c => c.target) →
    (p.addAll E calls).GetPRep key = none := by
  induction calls with
  | nil => intro p _ hp _; exact hp
  | cons c cs ih =>
    intro p hwf hp hk
    simp only [List.map_cons, List.mem_cons, not_or] at hk
    simp only [PRepInfo.addAll]
    apply ih _ (WF_Add E p _ _ _ _ _ _ hwf) _ hk.2
    rw [Add_GetPRep_other E p hwf _ _ _ _ _ _ key hk.1]
    exact hp

theorem Equal_iff (p p1 : PRep) : p.Equal p1 = true ↔ p = p1 := by
  have hc : ∀ a b : Int, (bigCmp a b == 0) = true ↔ a = b := by
    intro a b
    unfold bigCmp
    split_ifs with h1 h2
    · simp; omega
    · simp [h2]
    · simp [h2]
  constructor
  · intro h
    simp only [PRep.Equal, Bool.and_eq_true, hc, beq_iff_eq] at h
    obtain ⟨⟨⟨⟨⟨⟨⟨⟨⟨⟨⟨⟨h1, h2⟩, h3⟩, h4⟩, h5⟩, h6⟩, h7⟩, h8⟩, h9⟩, h10⟩, h11⟩, h12⟩, h13⟩ := h
    cases p; cases p1
    simp only [PRep.mk.injEq]
    simp only at h1 h2 h3 h4 h5 h6 h7 h8 h9 h10 h11 h12 h13
    exact ⟨h1, h2, h3, h4, h5, h6, h7, h8, h9, h10, h11, h12, h13⟩
  · intro h
    subst h
    simp [PRep.Equal, hc]

/-- C25: snapshot round trip: for every PRep `p`, `ToVoted(p)` carries the bonded,
delegated and commission rate of `p`, and the status of `p` except that
`ESEnableAtNextTerm` is written as `ESEnable` (so the written status is never
`ESEnableAtNextTerm`). When these four values are loaded with `PRepInfo.Add`, as
`loadPRepInfo` does, into any `PRepInfo` and with any public-key flag, the loaded prep
has these four values, and its `ToVoted` is the same record again: identical status,
bonded, delegated and commission rate. -/
theorem ToVoted_round_trip (E : Deps) (p : PRep) (pi : PRepInfo) (pubkey : Bool) :
    p.ToVoted.bonded = p.bonded ∧ p.ToVoted.delegated = p.delegated ∧
    p.ToVoted.commissionRate = p.commissionRate ∧
    p.ToVoted.status
      = (if p.status = EnableStatus.ESEnableAtNextTerm then EnableStatus.ESEnable
         else p.status) ∧
    p.ToVoted.status ≠ EnableStatus.ESEnableAtNextTerm ∧
    (∃ q : PRep,
      (pi.Add E p.owner p.ToVoted.status p.ToVoted.delegated p.ToVoted.bonded
        p.ToVoted.commissionRate pubkey).GetPRep p.owner = some q ∧
      q.status = p.ToVoted.status ∧ q.bonded = p.ToVoted.bonded ∧
      q.delegated = p.ToVoted.delegated ∧ q.commissionRate = p.ToVoted.commissionRate ∧
      q.ToVoted = p.ToVoted ∧
      q.ToVoted.status = p.ToVoted.status ∧ q.ToVoted.bonded = p.ToVoted.bonded ∧
      q.ToVoted.delegated = p.ToVoted.delegated ∧
      q.ToVoted.commissionRate = p.ToVoted.commissionRate) ∧
    ((newTestPRep (hx 1) EnableStatus.ESEnable 100 0 true 500).ToVoted
      = { status := EnableStatus.ESEnable, bonded := 100, delegated := 0,
          bondedDelegation := 0, commissionRate := 500 } ∧
      (newTestPRep (hx 1) EnableStatus.ESEnableAtNextTerm 100 0 true 500).ToVoted.status
        = EnableStatus.ESEnable) := by
  have hne : p.ToVoted.status ≠ EnableStatus.ESEnableAtNextTerm := by
    unfold PRep.ToVoted
    dsimp only
    split_ifs with h
    · decide
    · exact h
  refine ⟨rfl, rfl, rfl, rfl, hne, ?_, ⟨by decide, by decide⟩⟩
  refine ⟨_, Add_GetPRep_self E pi p.owner _ _ _ _ pubkey, rfl, rfl, rfl, rfl, ?_⟩
  have hv : ((NewPRep p.owner p.ToVoted.status p.ToVoted.delegated p.ToVoted.bonded
      p.ToVoted.commissionRate pubkey).UpdatePower E pi.bondRequirement).ToVoted
      = p.ToVoted := by
    have h1 : ((NewPRep p.owner p.ToVoted.status p.ToVoted.delegated p.ToVoted.bonded
        p.ToVoted.commissionRate pubkey).UpdatePower E pi.bondRequirement).ToVoted.status
        = p.ToVoted.status := by
      show (if p.ToVoted.status = EnableStatus.ESEnableAtNextTerm then EnableStatus.ESEnable
        else p.ToVoted.status) = p.ToVoted.status
      rw [if_neg hne]
    cases hp : p.ToVoted with
    | mk status delegated bonded bondedDelegation commissionRate =>
      rw [hp] at h1
      have hb0 : bondedDelegation = 0 := by
        have := congrArg (fun v => v.bondedDelegation) hp
        simp only [PRep.ToVoted] at this
        exact this.symm
      subst hb0
      simp only at h1
      simp only [PRep.ToVoted, Voted.mk.injEq, true_and, and_true]
      refine ⟨?_, rfl, rfl, rfl⟩
      simpa [PRep.ToVoted] using h1
  exact ⟨hv, by rw [hv], by rw [hv], by rw [hv], by rw [hv]⟩

/-- C28: `Add` then `GetPRep`: after `Add(addr, status, delegated, bonded, commissionRate,
pubkey)` the lookup of the key of `addr` returns a prep `r` to which `NewPRep` of the same
arguments is `Equal` once `UpdatePower(bondRequirement)` has been applied to it; before
that it is `Equal` to `r` exactly when the computed power is zero, so it is not `Equal`
whenever that power is non-zero. The rank, the accumulators and the reward fields of `r`
are zero. A lookup under another key returns what it returned before the `Add`, so a key
never added to a new `PRepInfo` is looked up as nil. `TestPRepInfo` checks the two
comparisons for its five records. -/
theorem Add_then_GetPRep (E : Deps) (p : PRepInfo) (addr : List Nat) (status : EnableStatus)
    (delegated bonded commissionRate : Int) (pubkey : Bool) :
    (∃ r : PRep,
      (p.Add E addr status delegated bonded commissionRate pubkey).GetPRep addr = some r ∧
      ((NewPRep addr status delegated bonded commissionRate pubkey).UpdatePower E
        p.bondRequirement).Equal r = true ∧
      r.power = E.CalcPower p.bondRequirement bonded (delegated + bonded) ∧
      (r.power ≠ 0 →
        (NewPRep addr status delegated bonded commissionRate pubkey).Equal r = false) ∧
      ((NewPRep addr status delegated bonded commissionRate pubkey).Equal r = true ↔
        r.power = 0) ∧
      r.rank = 0 ∧ r.accumulatedVoted = 0 ∧ r.accumulatedPower = 0 ∧
      r.commission = 0 ∧ r.voterReward = 0 ∧ r.wage = 0 ∧
      r.owner = addr ∧ r.status = status ∧ r.delegated = delegated ∧ r.bonded = bonded ∧
      r.commissionRate = commissionRate ∧ r.pubkey = pubkey) ∧
    (p.WF → ∀ key : List Nat, key ≠ addr →
      (p.Add E addr status delegated bonded commissionRate pubkey).GetPRep key
        = p.GetPRep key) ∧
    (∀ (br N offsetLimit : Int) (key : List Nat),
      (NewPRepInfo br N offsetLimit).GetPRep key = none) ∧
    (∀ (br N offsetLimit : Int) (calls : List AddCall) (key : List Nat),
      key ∉ calls.map (fun c => c.target) →
      ((NewPRepInfo br N offsetLimit).addAll E calls).GetPRep key = none) ∧
    ([hx 1, hx 2, hx 3, hx 4, hx 5, hx 6].map (fun key =>
        (testPRepInfo.GetPRep key).map (fun r => (r.power, r.rank)))
      = [some (1100, 0), some (2200, 0), some (3300, 0), some (800, 0), some (1000, 0), none] ∧
     (testAddCalls.map (fun c =>
        (testPRepInfo.GetPRep c.target).map (fun r =>
          ((NewPRep c.target c.status c.delegated c.bonded c.commissionRate c.pubkey).Equal r,
           ((NewPRep c.target c.status c.delegated c.bonded c.commissionRate
              c.pubkey).UpdatePower goloop testPRepInfo.bondRequirement).Equal r)))
      = [some (false, true), some (false, true), some (false, true), some (false, true),
         some (false, true)])) := by
  refine ⟨?_, ?_, ?_, ?_, ⟨by decide, by decide⟩⟩
  · refine ⟨_, Add_GetPRep_self E p addr status delegated bonded commissionRate pubkey,
      (Equal_iff _ _).2 rfl, rfl, ?_, ?_, rfl, rfl, rfl, rfl, rfl, rfl, rfl, rfl, rfl, rfl,
      rfl, rfl⟩
    · intro hne
      cases hE : (NewPRep addr status delegated bonded commissionRate pubkey).Equal
          ((NewPRep addr status delegated bonded commissionRate pubkey).UpdatePower E
            p.bondRequirement) with
      | false => rfl
      | true =>
        have h := (Equal_iff _ _).1 hE
        have h2 := congrArg PRep.power h
        exact absurd h2.symm hne
    · rw [Equal_iff]
      constructor
      · intro h
        exact (congrArg PRep.power h).symm
      · intro h
        simp only [PRep.UpdatePower, NewPRep, PRep.mk.injEq, true_and, and_true] at h ⊢
        exact h.symm
  · intro hwf key hne
    exact Add_GetPRep_other E p hwf addr status delegated bonded commissionRate pubkey key hne
  · intro br N offsetLimit key
    rfl
  · intro br N offsetLimit calls key hk
    exact addAll_GetPRep_none E calls key _ (WF_NewPRepInfo br N offsetLimit) rfl hk

/-! ## The phases of the term calculation -/

theorem runInOrder_spec {σ ε : Type} (P : Phases σ ε) (l : List Phase) : ∀ r : σ,
    (runInOrder P l r).1 <+: l ∧
    (runInOrder P l r).2.1 = stateAfter P (runInOrder P l r).1 r ∧
    ((runInOrder P l r).2.2 = none ↔ allSucceed P (runInOrder P l r).1 r) ∧
    ((runInOrder P l r).2.2 = none → (runInOrder P l r).1 = l) ∧
    (∀ e, (runInOrder P l r).2.2 = some e →
      ∃ pre f, (runInOrder P l r).1 = pre ++ [f] ∧ allSucceed P pre r ∧
        P.run f (stateAfter P pre r) = ((runInOrder P l r).2.1, some e)) := by
  induction l with
  | nil =>
    intro r
    simp [runInOrder, stateAfter, allSucceed]
  | cons f fs ih =>
    intro r
    rcases hrun : P.run f r with ⟨r1, _ | err⟩
    · obtain ⟨i1, i2, i3, i4, i5⟩ := ih r1
      simp only [runInOrder, hrun, stateAfter, allSucceed, true_and]
      refine ⟨?_, i2, i3, ?_, ?_⟩
      · obtain ⟨s, hs⟩ := i1
        exact ⟨s, by rw [List.cons_append, hs]⟩
      · intro h; rw [i4 h]
      · intro e he
        obtain ⟨pre, g, h1, h2, h3⟩ := i5 e he
        refine ⟨f :: pre, g, by rw [h1]; rfl, ?_, ?_⟩
        · simp only [allSucceed, hrun, true_and]; exact h2
        · simp only [stateAfter, hrun]; exact h3
    · simp only [runInOrder, hrun, stateAfter, allSucceed]
      refine ⟨?_, trivial, ?_, ?_, ?_⟩
      · exact ⟨fs, rfl⟩
      · simp
      · intro h; cases h
      · intro e he
        refine ⟨[], f, rfl, trivial, ?_⟩
        simp only [stateAfter, hrun]
        cases he; rfl

theorem runInOrder_append {σ ε : Type} (P : Phases σ ε) (pre post : List Phase) : ∀ r : σ,
    allSucceed P pre r →
    runInOrder P (pre ++ post) r
      = (pre ++ (runInOrder P post (stateAfter P pre r)).1,
         (runInOrder P post (stateAfter P pre r)).2) := by
  induction pre with
  | nil => intro r _; rfl
  | cons f fs ih =>
    intro r h
    obtain ⟨h1, h2⟩ := h
    rcases hrun : P.run f r with ⟨r1, _ | err⟩
    · rw [hrun] at h2
      have h3 := ih r1 h2
      show runInOrder P (f :: (fs ++ post)) r = _
      simp only [runInOrder, hrun, stateAfter]
      rw [h3]
      rfl
    · rw [hrun] at h1; cases h1

theorem Calculate_traced {σ ε : Type} (P : Phases σ ε) (r : σ) (t0 : List Phase) :
    iiss4Reward.Calculate P.traced (r, t0)
      = (((runInOrder P (iiss4Reward.schedule P r) r).2.1,
          t0 ++ (runInOrder P (iiss4Reward.schedule P r) r).1),
         (runInOrder P (iiss4Reward.schedule P r) r).2.2) ∧
    iiss4Reward.Calculate P r = (runInOrder P (iiss4Reward.schedule P r) r).2 := by
  unfold iiss4Reward.Calculate iiss4Reward.schedule scheduledPhases Phases.traced
  simp only [stateAfter, List.cons_append, List.nil_append, runInOrder]
  obtain ⟨r1, e1, h1⟩ : ∃ r1 e1, P.run Phase.processClaim r = (r1, e1) := ⟨_, _, rfl⟩
  simp only [h1]
  cases e1 with
  | some e1 => simp
  | none =>
    obtain ⟨r2, e2, h2⟩ : ∃ r2 e2, P.run Phase.loadPRepInfo r1 = (r2, e2) := ⟨_, _, rfl⟩
    simp only [h2]
    cases e2 with
    | some e2 => simp
    | none =>
      obtain ⟨r3, e3, h3⟩ : ∃ r3 e3, P.run Phase.processEvents r2 = (r3, e3) := ⟨_, _, rfl⟩
      simp only [h3]
      cases e3 with
      | some e3 => simp
      | none =>
        by_cases hN : P.GetElectedPRepCount r3 = 0
        · simp only [hN, if_true, List.nil_append, runInOrder]
          obtain ⟨r6, e6, h6⟩ : ∃ r6 e6, P.run Phase.processBTP r3 = (r6, e6) := ⟨_, _, rfl⟩
          simp only [h6]
          cases e6 with
          | some e6 => simp
          | none =>
            obtain ⟨r7, e7, h7⟩ : ∃ r7 e7, P.run Phase.processCommissionRate r6 = (r7, e7) :=
              ⟨_, _, rfl⟩
            simp only [h7]
            cases e7 <;> simp
        · simp only [hN, if_false, List.cons_append, List.nil_append, runInOrder]
          obtain ⟨r4, e4, h4⟩ : ∃ r4 e4, P.run Phase.processPrepReward r3 = (r4, e4) :=
            ⟨_, _, rfl⟩
          simp only [h4]
          cases e4 with
          | some e4 => simp
          | none =>
            obtain ⟨r5, e5, h5⟩ : ∃ r5 e5, P.run Phase.processVoterReward r4 = (r5, e5) :=
              ⟨_, _, rfl⟩
            simp only [h5]
            cases e5 with
            | some e5 => simp
            | none =>
              obtain ⟨r6, e6, h6⟩ : ∃ r6 e6, P.run Phase.processBTP r5 = (r6, e6) :=
                ⟨_, _, rfl⟩
              simp only [h6]
              cases e6 with
              | some e6 => simp
              | none =>
                obtain ⟨r7, e7, h7⟩ :
                    ∃ r7 e7, P.run Phase.processCommissionRate r6 = (r7, e7) := ⟨_, _, rfl⟩
                simp only [h7]
                cases e7 <;> simp

theorem runInOrder_all {σ ε : Type} (P : Phases σ ε) (l : List Phase) (r : σ)
    (h : allSucceed P l r) : runInOrder P l r = (l, stateAfter P l r, none) := by
  have h1 := runInOrder_append P l [] r h
  simpa [runInOrder] using h1

theorem runInOrder_runs_next {σ ε : Type} (P : Phases σ ε) (pre : List Phase) (f : Phase)
    (post : List Phase) (r : σ) (h : allSucceed P pre r) :
    pre ++ [f] <+: (runInOrder P (pre ++ f :: post) r).1 := by
  rw [runInOrder_append P pre (f :: post) r h]
  obtain ⟨r1, e1, h1⟩ : ∃ r1 e1, P.run f (stateAfter P pre r) = (r1, e1) := ⟨_, _, rfl⟩
  cases e1 with
  | some e1 =>
    simp only [runInOrder, h1]
    exact ⟨[], List.append_nil _⟩
  | none =>
    simp only [runInOrder, h1]
    exact ⟨(runInOrder P post r1).1, by simp⟩

theorem Calculate_success_iff {σ ε : Type} (P : Phases σ ε) (r : σ) :
    ((iiss4Reward.Calculate P r).2 = none ↔ allSucceed P (iiss4Reward.schedule P r) r) ∧
    (allSucceed P (iiss4Reward.schedule P r) r →
      iiss4Reward.Calculate P r = (stateAfter P (iiss4Reward.schedule P r) r, none) ∧
      iiss4Reward.executed P r = iiss4Reward.schedule P r) := by
  have hc := Calculate_traced P r []
  have hs := runInOrder_spec P (iiss4Reward.schedule P r) r
  have hex : iiss4Reward.executed P r = (runInOrder P (iiss4Reward.schedule P r) r).1 := by
    unfold iiss4Reward.executed
    rw [hc.1]
    simp
  constructor
  · constructor
    · intro h
      rw [hc.2] at h
      have h2 := hs.2.2.1.1 h
      rw [hs.2.2.2.1 h] at h2
      exact h2
    · intro h
      rw [hc.2, runInOrder_all P _ r h]
  · intro h
    rw [hex, hc.2, runInOrder_all P _ r h]
    exact ⟨rfl, rfl⟩

/-- C26: `iiss4Reward.Calculate` aborts on the first failing phase. With the phases taken
as functions from the state to the state they leave and an error or nil, `Calculate` does
what running its schedule in order up to the first error does: the schedule is claim
processing, `loadPRepInfo`, `processEvents`, the two reward phases unless the elected
count is zero, `processBTP`, `processCommissionRate`; the phases it runs (each recorded
by the phase itself) are a prefix of the schedule; the state it leaves is the state after
exactly these phases, so no later phase has run; when it returns an error, all phases
before the last one run succeeded and the last one returned that very error; it returns
nil exactly when every phase it ran succeeded, and then it ran the whole schedule. -/
theorem Calculate_aborts_on_first_error {σ ε : Type} (P : Phases σ ε) (r : σ) :
    (iiss4Reward.schedule P r
        = [Phase.processClaim, Phase.loadPRepInfo, Phase.processEvents,
            Phase.processPrepReward, Phase.processVoterReward, Phase.processBTP,
            Phase.processCommissionRate] ∨
      iiss4Reward.schedule P r
        = [Phase.processClaim, Phase.loadPRepInfo, Phase.processEvents, Phase.processBTP,
            Phase.processCommissionRate]) ∧
    iiss4Reward.Calculate P r = (runInOrder P (iiss4Reward.schedule P r) r).2 ∧
    iiss4Reward.executed P r = (runInOrder P (iiss4Reward.schedule P r) r).1 ∧
    iiss4Reward.executed P r <+: iiss4Reward.schedule P r ∧
    (iiss4Reward.Calculate P r).1 = stateAfter P (iiss4Reward.executed P r) r ∧
    (∀ e, (iiss4Reward.Calculate P r).2 = some e →
      ∃ pre f, iiss4Reward.executed P r = pre ++ [f] ∧ allSucceed P pre r ∧
        P.run f (stateAfter P pre r) = ((iiss4Reward.Calculate P r).1, some e)) ∧
    ((iiss4Reward.Calculate P r).2 = none ↔ allSucceed P (iiss4Reward.executed P r) r) ∧
    ((iiss4Reward.Calculate P r).2 = none →
      iiss4Reward.executed P r = iiss4Reward.schedule P r) ∧
    (iiss4Reward.Calculate (testPhases (some Phase.processEvents) 4) 0
        = (3, some Phase.processEvents) ∧
      iiss4Reward.executed (testPhases (some Phase.processEvents) 4) 0
        = [Phase.processClaim, Phase.loadPRepInfo, Phase.processEvents] ∧
      iiss4Reward.Calculate (testPhases (some Phase.processVoterReward) 4) 0
        = (5, some Phase.processVoterReward) ∧
      iiss4Reward.executed (testPhases (some Phase.processVoterReward) 4) 0
        = [Phase.processClaim, Phase.loadPRepInfo, Phase.processEvents,
            Phase.processPrepReward, Phase.processVoterReward] ∧
      iiss4Reward.Calculate (testPhases none 4) 0 = (7, none) ∧
      iiss4Reward.executed (testPhases none 4) 0
        = [Phase.processClaim, Phase.loadPRepInfo, Phase.processEvents,
            Phase.processPrepReward, Phase.processVoterReward, Phase.processBTP,
            Phase.processCommissionRate]) := by
  have hc := Calculate_traced P r []
  have hs := runInOrder_spec P (iiss4Reward.schedule P r) r
  have hex : iiss4Reward.executed P r = (runInOrder P (iiss4Reward.schedule P r) r).1 := by
    unfold iiss4Reward.executed
    rw [hc.1]
    simp
  refine ⟨?_, hc.2, hex, ?_, ?_, ?_, ?_, ?_,
    ⟨by decide, by decide, by decide, by decide, by decide, by decide⟩⟩
  · unfold iiss4Reward.schedule scheduledPhases
    split_ifs
    · right; rfl
    · left; rfl
  · rw [hex]; exact hs.1
  · rw [hex, hc.2]; exact hs.2.1
  · intro e he
    rw [hex, hc.2]
    rw [hc.2] at he
    exact hs.2.2.2.2 e he
  · rw [hex, hc.2]; exact hs.2.2.1
  · intro h
    rw [hex]
    rw [hc.2] at h
    exact hs.2.2.2.1 h

/-- C27: zero-elected skip path. The elected count is the global count that `Calculate`
reads after `processEvents`. When it is 0, `Calculate` runs neither `processPrepReward`
nor `processVoterReward`: what it runs is a prefix of claim processing, `loadPRepInfo`,
`processEvents`, `processBTP`, `processCommissionRate`; it still runs `processBTP` once
the first three phases have succeeded and `processCommissionRate` once `processBTP` has,
and it returns success exactly when these five phases succeed. When the count is not 0,
both reward phases are run after `processEvents`, `processPrepReward` first and
`processVoterReward` once that has succeeded, and success needs all seven phases. -/
theorem Calculate_zero_elected_skip {σ ε : Type} (P : Phases σ ε) (r : σ) :
    (P.GetElectedPRepCount
        (stateAfter P [Phase.processClaim, Phase.loadPRepInfo, Phase.processEvents] r) = 0 →
      Phase.processPrepReward ∉ iiss4Reward.executed P r ∧
      Phase.processVoterReward ∉ iiss4Reward.executed P r ∧
      iiss4Reward.executed P r <+:
        [Phase.processClaim, Phase.loadPRepInfo, Phase.processEvents, Phase.processBTP,
          Phase.processCommissionRate] ∧
      (allSucceed P [Phase.processClaim, Phase.loadPRepInfo, Phase.processEvents] r →
        [Phase.processClaim, Phase.loadPRepInfo, Phase.processEvents, Phase.processBTP]
          <+: iiss4Reward.executed P r) ∧
      (allSucceed P
          [Phase.processClaim, Phase.loadPRepInfo, Phase.processEvents, Phase.processBTP] r →
        iiss4Reward.executed P r
          = [Phase.processClaim, Phase.loadPRepInfo, Phase.processEvents, Phase.processBTP,
              Phase.processCommissionRate]) ∧
      ((iiss4Reward.Calculate P r).2 = none ↔
        allSucceed P
          [Phase.processClaim, Phase.loadPRepInfo, Phase.processEvents, Phase.processBTP,
            Phase.processCommissionRate] r) ∧
      (allSucceed P
          [Phase.processClaim, Phase.loadPRepInfo, Phase.processEvents, Phase.processBTP,
            Phase.processCommissionRate] r →
        iiss4Reward.Calculate P r
          = (stateAfter P
              [Phase.processClaim, Phase.loadPRepInfo, Phase.processEvents, Phase.processBTP,
                Phase.processCommissionRate] r, none))) ∧
    (P.GetElectedPRepCount
        (stateAfter P [Phase.processClaim, Phase.loadPRepInfo, Phase.processEvents] r) ≠ 0 →
      iiss4Reward.executed P r <+:
        [Phase.processClaim, Phase.loadPRepInfo, Phase.processEvents,
          Phase.processPrepReward, Phase.processVoterReward, Phase.processBTP,
          Phase.processCommissionRate] ∧
      (allSucceed P [Phase.processClaim, Phase.loadPRepInfo, Phase.processEvents] r →
        [Phase.processClaim, Phase.loadPRepInfo, Phase.processEvents,
          Phase.processPrepReward] <+: iiss4Reward.executed P r) ∧
      (allSucceed P [Phase.processClaim, Phase.loadPRepInfo, Phase.processEvents,
          Phase.processPrepReward] r →
        [Phase.processClaim, Phase.loadPRepInfo, Phase.processEvents,
          Phase.processPrepReward, Phase.processVoterReward] <+: iiss4Reward.executed P r) ∧
      ((iiss4Reward.Calculate P r).2 = none ↔
        allSucceed P
          [Phase.processClaim, Phase.loadPRepInfo, Phase.processEvents,
            Phase.processPrepReward, Phase.processVoterReward, Phase.processBTP,
            Phase.processCommissionRate] r)) ∧
    (iiss4Reward.Calculate (testPhases none 0) 0 = (5, none) ∧
      iiss4Reward.executed (testPhases none 0) 0
        = [Phase.processClaim, Phase.loadPRepInfo, Phase.processEvents, Phase.processBTP,
            Phase.processCommissionRate] ∧
      iiss4Reward.Calculate (testPhases (some Phase.processPrepReward) 0) 0 = (5, none) ∧
      iiss4Reward.Calculate (testPhases (some Phase.processVoterReward) 0) 0 = (5, none) ∧
      iiss4Reward.Calculate (testPhases (some Phase.processBTP) 0) 0
        = (4, some Phase.processBTP) ∧
      iiss4Reward.Calculate (testPhases (some Phase.processPrepReward) 4) 0
        = (4, some Phase.processPrepReward) ∧
      iiss4Reward.executed (testPhases none 4) 0
        = [Phase.processClaim, Phase.loadPRepInfo, Phase.processEvents,
            Phase.processPrepReward, Phase.processVoterReward, Phase.processBTP,
            Phase.processCommissionRate]) := by
  have hc := Calculate_traced P r []
  have hs := runInOrder_spec P (iiss4Reward.schedule P r) r
  have hex : iiss4Reward.executed P r = (runInOrder P (iiss4Reward.schedule P r) r).1 := by
    unfold iiss4Reward.executed
    rw [hc.1]
    simp
  have hsucc := Calculate_success_iff P r
  refine ⟨?_, ?_, ⟨by decide, by decide, by decide, by decide, by decide, by decide,
    by decide⟩⟩
  · intro h0
    have hsch : iiss4Reward.schedule P r
        = [Phase.processClaim, Phase.loadPRepInfo, Phase.processEvents, Phase.processBTP,
            Phase.processCommissionRate] := by
      unfold iiss4Reward.schedule scheduledPhases
      rw [if_pos h0]; rfl
    rw [hsch] at hs hex hsucc
    have hpre : iiss4Reward.executed P r <+:
        [Phase.processClaim, Phase.loadPRepInfo, Phase.processEvents, Phase.processBTP,
          Phase.processCommissionRate] := by
      rw [hex]; exact hs.1
    refine ⟨?_, ?_, hpre, ?_, ?_, hsucc.1, fun h => (hsucc.2 h).1⟩
    · intro hm
      have := hpre.subset hm
      revert this; decide
    · intro hm
      have := hpre.subset hm
      revert this; decide
    · intro h3
      rw [hex]
      exact runInOrder_runs_next P
        [Phase.processClaim, Phase.loadPRepInfo, Phase.processEvents] Phase.processBTP
        [Phase.processCommissionRate] r h3
    · intro h4
      have hp := runInOrder_runs_next P
        [Phase.processClaim, Phase.loadPRepInfo, Phase.processEvents, Phase.processBTP]
        Phase.processCommissionRate [] r h4
      rw [hex]
      exact hs.1.eq_of_length_le (by simpa using hp.length_le)
  · intro h0
    have hsch : iiss4Reward.schedule P r
        = [Phase.processClaim, Phase.loadPRepInfo, Phase.processEvents,
            Phase.processPrepReward, Phase.processVoterReward, Phase.processBTP,
            Phase.processCommissionRate] := by
      unfold iiss4Reward.schedule scheduledPhases
      rw [if_neg h0]; rfl
    rw [hsch] at hs hex hsucc
    refine ⟨by rw [hex]; exact hs.1, ?_, ?_, hsucc.1⟩
    · intro h3
      rw [hex]
      exact runInOrder_runs_next P
        [Phase.processClaim, Phase.loadPRepInfo, Phase.processEvents] Phase.processPrepReward
        [Phase.processVoterReward, Phase.processBTP, Phase.processCommissionRate] r h3
    · intro h4
      rw [hex]
      exact runInOrder_runs_next P
        [Phase.processClaim, Phase.loadPRepInfo, Phase.processEvents,
          Phase.processPrepReward] Phase.processVoterReward
        [Phase.processBTP, Phase.processCommissionRate] r h4

/-! ## The accumulated power as an integral -/

theorem applyVotes_accumulatedPower (E : Deps) (calls : List VoteCall) :
    ∀ (q : PRep) (held : Int),
    (applyVotes E q calls).accumulatedPower
      = q.accumulatedPower - q.power * held + powerIntegral q.power held (powerTrace E q calls) := by
  induction calls with
  | nil =>
    intro q held
    simp only [applyVotes, powerTrace, powerIntegral]
    ring
  | cons v vs ih =>
    intro q held
    have hf := (ApplyVote_fields E q v.vType v.amount v.period v.bondRequirement).2.2.2.1
    simp only [applyVotes, powerTrace, powerIntegral]
    rw [ih _ v.period, hf]
    ring

theorem powerTrace_length (E : Deps) (calls : List VoteCall) :
    ∀ q : PRep, (powerTrace E q calls).length = calls.length := by
  induction calls with
  | nil => intro q; rfl
  | cons v vs ih => intro q; simp only [powerTrace, List.length_cons, ih]

theorem powerIntegral_nonneg : ∀ (l : List (Int × Int)) (power held : Int),
    0 ≤ power → orderlyTrace held l = true → 0 ≤ powerIntegral power held l := by
  intro l
  induction l with
  | nil =>
    intro power held hp ho
    simp only [orderlyTrace, decide_eq_true_eq] at ho
    simp only [powerIntegral]
    exact mul_nonneg hp ho
  | cons a rest ih =>
    intro power held hp ho
    obtain ⟨power1, r⟩ := a
    simp only [orderlyTrace, Bool.and_eq_true, decide_eq_true_eq] at ho
    obtain ⟨⟨h1, h2⟩, h3⟩ := ho
    simp only [powerIntegral]
    have := ih power1 r h2 h3
    have h4 : 0 ≤ power * (held - r) := mul_nonneg hp (by omega)
    omega

/-- C30: `accumulatedPower` is the time integral of the power. For every PRep with stored
power `P0` that is seeded by `InitAccumulated(T)` and every sequence of `ApplyVote` calls
(under one bond requirement or several), with `P_i` the power after the i-th call and
`r_i` its remaining offsets, the final `accumulatedPower` is
`P0*(T - r_1) + P_1*(r_1 - r_2) + ... + P_n*r_n` (`P0*T` without a call), the value of
`powerIntegral`, written out here for one, two and three calls. It is non-negative when
`T ≥ r_1 ≥ ... ≥ r_n ≥ 0` and every `P_i` is non-negative, and a call that leaves the
power unchanged leaves `accumulatedPower` unchanged. -/
theorem accumulatedPower_eq_powerIntegral (E : Deps) (p : PRep) (T : Int)
    (calls : List VoteCall) :
    (applyVotes E (p.InitAccumulated T) calls).accumulatedPower
      = powerIntegral p.power T (powerTrace E (p.InitAccumulated T) calls) ∧
    (0 ≤ p.power → orderlyTrace T (powerTrace E (p.InitAccumulated T) calls) = true →
      0 ≤ (applyVotes E (p.InitAccumulated T) calls).accumulatedPower) ∧
    (∀ (q : PRep) (v : VoteCall),
      (q.ApplyVote E v.vType v.amount v.period v.bondRequirement).power = q.power →
      (q.ApplyVote E v.vType v.amount v.period v.bondRequirement).accumulatedPower
        = q.accumulatedPower) ∧
    (∀ P0 P1 r1 : Int, powerIntegral P0 T [(P1, r1)] = P0 * (T - r1) + P1 * r1) ∧
    (∀ P0 P1 r1 P2 r2 : Int,
      powerIntegral P0 T [(P1, r1), (P2, r2)] = P0 * (T - r1) + P1 * (r1 - r2) + P2 * r2) ∧
    (∀ P0 P1 r1 P2 r2 P3 r3 : Int,
      powerIntegral P0 T [(P1, r1), (P2, r2), (P3, r3)]
        = P0 * (T - r1) + P1 * (r1 - r2) + P2 * (r2 - r3) + P3 * r3) ∧
    (∀ (P0 P1 r1 : Int) (rest : List (Int × Int)),
      powerIntegral P0 T ((P1, r1) :: rest) = P0 * (T - r1) + powerIntegral P1 r1 rest) ∧
    (powerTrace E (p.InitAccumulated T) calls).length = calls.length := by
  have heq : (applyVotes E (p.InitAccumulated T) calls).accumulatedPower
      = powerIntegral p.power T (powerTrace E (p.InitAccumulated T) calls) := by
    rw [applyVotes_accumulatedPower E calls (p.InitAccumulated T) T]
    simp only [PRep.InitAccumulated]
    ring
  refine ⟨heq, ?_, ?_, ?_, ?_, ?_, ?_, ?_⟩
  · intro hp ho
    rw [heq]
    exact powerIntegral_nonneg _ _ _ hp ho
  · intro q v hpow
    have hf := (ApplyVote_fields E q v.vType v.amount v.period v.bondRequirement).2.2.2.1
    rw [hf, hpow]
    ring
  · intro P0 P1 r1
    simp only [powerIntegral]
  · intro P0 P1 r1 P2 r2
    simp only [powerIntegral]
    ring
  · intro P0 P1 r1 P2 r2 P3 r3
    simp only [powerIntegral]
    ring
  · intro P0 P1 r1 rest
    simp only [powerIntegral]
  · exact powerTrace_length E calls _

theorem accumulatedPower_eq_powerIntegral_witness :
    (0 ≤ testSeededPRep.power ∧
      orderlyTrace 100 (powerTrace goloop (testSeededPRep.InitAccumulated 100) testVoteCalls)
        = true) ∧
    0 ≤ (applyVotes goloop (testSeededPRep.InitAccumulated 100) testVoteCalls).accumulatedPower ∧
    (testSeededPRep.power = 150 ∧
      powerTrace goloop (testSeededPRep.InitAccumulated 100) testVoteCalls
        = [(170, 80), (170, 60), (120, 10)] ∧
      (applyVotes goloop (testSeededPRep.InitAccumulated 100) testVoteCalls).accumulatedPower
        = 150 * (100 - 80) + 170 * (80 - 60) + 170 * (60 - 10) + 120 * 10) :=
  ⟨⟨by decide, by decide⟩,
   (accumulatedPower_eq_powerIntegral goloop testSeededPRep 100 testVoteCalls).2.1
     (by decide) (by decide),
   by decide, by decide, by decide⟩

/-! ## The divisions of the reward computation -/

theorem share_bounds (t ap tot : Int) (h1 : 0 < ap) (h2 : ap ≤ tot) :
    (0 ≤ t → 0 ≤ t * ap / tot ∧ t * ap / tot ≤ t) ∧
    (t ≤ 0 → t ≤ t * ap / tot ∧ t * ap / tot ≤ 0) := by
  have htot : 0 < tot := lt_of_lt_of_le h1 h2
  constructor
  · intro ht
    constructor
    · exact Int.ediv_nonneg (mul_nonneg ht (le_of_lt h1)) (le_of_lt htot)
    · exact Int.ediv_le_of_le_mul htot (mul_le_mul_of_nonneg_left h2 ht)
  · intro ht
    constructor
    · exact Int.le_ediv_of_mul_le htot (mul_le_mul_of_nonpos_left h2 ht)
    · apply Int.ediv_le_of_le_mul htot
      rw [zero_mul]
      exact mul_nonpos_of_nonpos_of_nonneg ht (le_of_lt h1)

theorem total_ge_of_rewardable (p : PRepInfo)
    (hacc : ∀ ptr ∈ p.rank, 0 ≤ (p.heap.deref ptr).accumulatedPower) (ptr : Nat)
    (hptr : ptr ∈ p.rank.take p.electedPRepCount.toNat)
    (hrew : (p.heap.deref ptr).IsRewardable p.electedPRepCount = true) :
    0 < (p.heap.deref ptr).accumulatedPower ∧
    (p.heap.deref ptr).accumulatedPower ≤ p.UpdateTotalAccumulatedPower.totalAccumulatedPower ∧
    0 < p.UpdateTotalAccumulatedPower.totalAccumulatedPower ∧
    0 < p.electedPRepCount := by
  have hpos : 0 < (p.heap.deref ptr).accumulatedPower := by
    simp only [PRep.IsRewardable, Bool.and_eq_true, decide_eq_true_eq] at hrew
    exact hrew.2
  have hsum : p.UpdateTotalAccumulatedPower.totalAccumulatedPower
      = ((p.rank.take p.electedPRepCount.toNat).map
          (fun ptr => (p.heap.deref ptr).accumulatedPower)).sum := by
    simp only [PRepInfo.UpdateTotalAccumulatedPower]
    rw [sumAccumulatedPower_eq]
    simp
  have hle : (p.heap.deref ptr).accumulatedPower
      ≤ p.UpdateTotalAccumulatedPower.totalAccumulatedPower := by
    rw [hsum]
    apply List.single_le_sum
    · intro x hx
      simp only [List.mem_map] at hx
      obtain ⟨y, hy, hxy⟩ := hx
      rw [← hxy]
      exact hacc y (List.mem_of_mem_take hy)
    · exact List.mem_map.2 ⟨ptr, hptr, rfl⟩
  refine ⟨hpos, hle, lt_of_lt_of_le hpos hle, ?_⟩
  by_contra hN
  have h0 : p.electedPRepCount.toNat = 0 := by omega
  rw [h0] at hptr
  simp at hptr

theorem CalculateReward_explicit (E : Deps) (p : PRepInfo)
    (totalReward totalMinWage minBond : Int) (hwf : p.WF) (hN : p.electedPRepCount ≠ 0)
    (hM : E.MonthBlock ≠ 0)
    (hdiv : p.totalAccumulatedPower = 0 → ∀ ptr ∈ p.rank.take p.electedPRepCount.toNat,
      (p.heap.deref ptr).IsRewardable p.electedPRepCount = false) :
    ∃ (q : PRepInfo) (S W : Int),
      p.CalculateReward E totalReward totalMinWage minBond = some q ∧
      fundToPeriodIScore E totalReward p.GetTermPeriod = some S ∧
      fundToPeriodIScore E totalMinWage p.GetTermPeriod = some W ∧
      ∀ ptr, q.heap.deref ptr =
        if ptr ∈ p.rank.take p.electedPRepCount.toNat ∧
            (p.heap.deref ptr).IsRewardable p.electedPRepCount = true
        then (p.heap.deref ptr).rewarded E S p.totalAccumulatedPower minBond
          (W / p.electedPRepCount)
        else p.heap.deref ptr := by
  have hS : ∃ S, fundToPeriodIScore E totalReward p.GetTermPeriod = some S := by
    simp [fundToPeriodIScore, hM]
  have hW : ∃ W, fundToPeriodIScore E totalMinWage p.GetTermPeriod = some W := by
    simp [fundToPeriodIScore, hM]
  obtain ⟨S, hS⟩ := hS
  obtain ⟨W, hW⟩ := hW
  have hwin : (p.electedPRepCount - ((0 : Nat) : Int)).toNat = p.electedPRepCount.toNat := by
    simp
  by_cases htot : p.totalAccumulatedPower = 0
  · have hnone := hdiv htot
    have hloop := rewardLoop_none_rewardable E p.electedPRepCount S p.totalAccumulatedPower
      minBond (W / p.electedPRepCount) p.heap p.rank 0 (by rw [hwin]; exact hnone)
    refine ⟨p, S, W, ?_, hS, hW, ?_⟩
    · simp only [PRepInfo.CalculateReward, if_neg hN, hS, hW, hloop]
    · intro ptr
      split_ifs with h
      · rw [hnone ptr h.1] at h
        exact absurd h.2 (by simp)
      · rfl
  · obtain ⟨h2, hloop, _, hderef⟩ := rewardLoop_spec E p.electedPRepCount S
      p.totalAccumulatedPower minBond (W / p.electedPRepCount) htot p.rank 0 p.heap
      hwf.2.2.2.1 hwf.2.2.2.2
    refine ⟨{ p with heap := h2 }, S, W, ?_, hS, hW, ?_⟩
    · simp only [PRepInfo.CalculateReward, if_neg hN, hS, hW, hloop]
    · intro ptr
      rw [hderef ptr, hwin]

/-- C29 does not hold as stated, in its bound on the share: in the state of
`TestPRepInfo` before `CalculateReward` every accumulated power is non-negative and the
total is up to date; with a reward fund of -1000000000 the scaled fund is -77932099 and
the rewardable `hx1` gets the share -15658782, which is above the scaled fund. The same
happens with a positive reward fund when the term period is negative: in
`negativeTermInfo` the scaled fund is -2 and the share of `hx1` is -1. -/
theorem share_bound_counterexample :
    ((∀ ptr ∈ testPRepInfoReplayed.rank,
        0 ≤ (testPRepInfoReplayed.heap.deref ptr).accumulatedPower) ∧
      testPRepInfoReplayed.UpdateTotalAccumulatedPower = testPRepInfoReplayed ∧
      0 ∈ testPRepInfoReplayed.rank.take testPRepInfoReplayed.electedPRepCount.toNat ∧
      (testPRepInfoReplayed.heap.deref 0).IsRewardable testPRepInfoReplayed.electedPRepCount
        = true ∧
      fundToPeriodIScore goloop (-1000000000) testPRepInfoReplayed.GetTermPeriod
        = some (-77932099) ∧
      (testPRepInfoReplayed.UpdateTotalAccumulatedPower.CalculateReward goloop (-1000000000)
          10000000 300).map
        (fun q => (q.heap.deref 0).commission + (q.heap.deref 0).voterReward)
        = some (-15658782) ∧
      ¬ ((-15658782 : Int) ≤ -77932099)) ∧
    ((∀ ptr ∈ negativeTermInfo.rank, 0 ≤ (negativeTermInfo.heap.deref ptr).accumulatedPower) ∧
      0 ∈ negativeTermInfo.rank.take negativeTermInfo.electedPRepCount.toNat ∧
      (negativeTermInfo.heap.deref 0).IsRewardable negativeTermInfo.electedPRepCount = true ∧
      fundToPeriodIScore goloop 1296 negativeTermInfo.GetTermPeriod = some (-2) ∧
      (negativeTermInfo.UpdateTotalAccumulatedPower.CalculateReward goloop 1296 0 0).map
        (fun q => (q.heap.deref 0).commission + (q.heap.deref 0).voterReward)
        = some (-1) ∧
      ¬ ((-1 : Int) ≤ -2)) :=
  ⟨⟨by decide, by decide, by decide, by decide, by decide, by decide, by decide⟩,
   ⟨by decide, by decide, by decide, by decide, by decide, by decide⟩⟩

/-- C29, amended: no division by zero in the reward computation: for every `PRepInfo` in
which every ranked prep has non-negative `accumulatedPower`, after
`UpdateTotalAccumulatedPower`, whenever `PRepInfo.CalculateReward` reaches
`PRep.CalculateReward` for a prep (one of the first `electedPRepCount` ranked entries with
`IsRewardable` true), `totalAccumulatedPower` is strictly positive and at least that
prep's `accumulatedPower`, so that call returns, and the call of the `PRepInfo` returns
for every argument (with `MonthBlock` not zero). The prep's share lies between 0 and the
scaled fund: it is at most the scaled fund when that is non-negative, and at least the
scaled fund and at most 0 when that is negative. The division by `electedPRepCount` is
only reached when `electedPRepCount` is not 0: with a count of 0 the call returns the
unchanged state, and a reached prep implies a positive count. -/
theorem reward_divisions_defined (E : Deps) (p : PRepInfo)
    (totalReward totalMinWage minBond : Int) (hwf : p.WF)
    (hacc : ∀ ptr ∈ p.rank, 0 ≤ (p.heap.deref ptr).accumulatedPower) :
    (∀ ptr ∈ p.UpdateTotalAccumulatedPower.rank.take
        p.UpdateTotalAccumulatedPower.electedPRepCount.toNat,
      (p.UpdateTotalAccumulatedPower.heap.deref ptr).IsRewardable
        p.UpdateTotalAccumulatedPower.electedPRepCount = true →
      0 < p.UpdateTotalAccumulatedPower.totalAccumulatedPower ∧
      (p.UpdateTotalAccumulatedPower.heap.deref ptr).accumulatedPower
        ≤ p.UpdateTotalAccumulatedPower.totalAccumulatedPower ∧
      p.UpdateTotalAccumulatedPower.electedPRepCount ≠ 0 ∧
      ∀ tReward minWage : Int,
        (p.UpdateTotalAccumulatedPower.heap.deref ptr).CalculateReward E tReward
          p.UpdateTotalAccumulatedPower.totalAccumulatedPower minBond minWage ≠ none) ∧
    (E.MonthBlock ≠ 0 →
      ∃ (q : PRepInfo) (S : Int),
        p.UpdateTotalAccumulatedPower.CalculateReward E totalReward totalMinWage minBond
          = some q ∧
        (p.electedPRepCount ≠ 0 → fundToPeriodIScore E totalReward p.GetTermPeriod = some S) ∧
        ∀ ptr ∈ p.rank.take p.electedPRepCount.toNat,
          (p.heap.deref ptr).IsRewardable p.electedPRepCount = true →
          (q.heap.deref ptr).commission + (q.heap.deref ptr).voterReward
            = S * (p.heap.deref ptr).accumulatedPower
                / p.UpdateTotalAccumulatedPower.totalAccumulatedPower ∧
          (0 ≤ S →
            0 ≤ (q.heap.deref ptr).commission + (q.heap.deref ptr).voterReward ∧
            (q.heap.deref ptr).commission + (q.heap.deref ptr).voterReward ≤ S) ∧
          (S ≤ 0 →
            S ≤ (q.heap.deref ptr).commission + (q.heap.deref ptr).voterReward ∧
            (q.heap.deref ptr).commission + (q.heap.deref ptr).voterReward ≤ 0)) ∧
    (p.electedPRepCount = 0 →
      p.UpdateTotalAccumulatedPower.CalculateReward E totalReward totalMinWage minBond
        = some p.UpdateTotalAccumulatedPower) := by
  refine ⟨?_, ?_, ?_⟩
  · intro ptr hptr hrew
    obtain ⟨h1, h2, h3, h4⟩ := total_ge_of_rewardable p hacc ptr hptr hrew
    refine ⟨h3, h2, ne_of_gt h4, ?_⟩
    intro tReward minWage
    rw [CalculateReward_eq_rewarded E _ _ _ _ _ (ne_of_gt h3)]
    simp
  · intro hM
    by_cases hN : p.electedPRepCount = 0
    · refine ⟨p.UpdateTotalAccumulatedPower, 0, ?_, fun h => absurd hN h, ?_⟩
      · simp only [PRepInfo.CalculateReward]
        rw [if_pos (show p.UpdateTotalAccumulatedPower.electedPRepCount = 0 from hN)]
      · intro ptr hptr
        rw [hN] at hptr
        simp at hptr
    · have hdiv : p.UpdateTotalAccumulatedPower.totalAccumulatedPower = 0 →
          ∀ ptr ∈ p.UpdateTotalAccumulatedPower.rank.take
            p.UpdateTotalAccumulatedPower.electedPRepCount.toNat,
          (p.UpdateTotalAccumulatedPower.heap.deref ptr).IsRewardable
            p.UpdateTotalAccumulatedPower.electedPRepCount = false := by
        intro h0 ptr hptr
        cases hr : (p.UpdateTotalAccumulatedPower.heap.deref ptr).IsRewardable
            p.UpdateTotalAccumulatedPower.electedPRepCount with
        | false => rfl
        | true =>
          have := (total_ge_of_rewardable p hacc ptr hptr hr).2.2.1
          omega
      obtain ⟨q, S, W, hq, hS, _, hderef⟩ := CalculateReward_explicit E
        p.UpdateTotalAccumulatedPower totalReward totalMinWage minBond
        (WF_UpdateTotalAccumulatedPower p hwf) hN hM hdiv
      refine ⟨q, S, hq, fun _ => hS, ?_⟩
      intro ptr hptr hrew
      obtain ⟨h1, h2, h3, h4⟩ := total_ge_of_rewardable p hacc ptr hptr hrew
      have hd := hderef ptr
      rw [if_pos ⟨hptr, hrew⟩] at hd
      have hshare : (q.heap.deref ptr).commission + (q.heap.deref ptr).voterReward
          = S * (p.heap.deref ptr).accumulatedPower
              / p.UpdateTotalAccumulatedPower.totalAccumulatedPower := by
        rw [hd]
        simp only [PRep.rewarded]
        show _ + (S * (p.heap.deref ptr).accumulatedPower
          / p.UpdateTotalAccumulatedPower.totalAccumulatedPower - _) = _
        ring
      have hb := share_bounds S _ _ h1 h2
      rw [hshare]
      exact ⟨rfl, hb.1, hb.2⟩
  · intro hN
    simp only [PRepInfo.CalculateReward]
    rw [if_pos (show p.UpdateTotalAccumulatedPower.electedPRepCount = 0 from hN)]

theorem reward_divisions_defined_witness :
    (testPRepInfoReplayed.WF ∧
      ∀ ptr ∈ testPRepInfoReplayed.rank,
        0 ≤ (testPRepInfoReplayed.heap.deref ptr).accumulatedPower) ∧
    (∀ ptr ∈ testPRepInfoReplayed.UpdateTotalAccumulatedPower.rank.take
        testPRepInfoReplayed.UpdateTotalAccumulatedPower.electedPRepCount.toNat,
      (testPRepInfoReplayed.UpdateTotalAccumulatedPower.heap.deref ptr).IsRewardable
        testPRepInfoReplayed.UpdateTotalAccumulatedPower.electedPRepCount = true →
      0 < testPRepInfoReplayed.UpdateTotalAccumulatedPower.totalAccumulatedPower ∧
      (testPRepInfoReplayed.UpdateTotalAccumulatedPower.heap.deref ptr).accumulatedPower
        ≤ testPRepInfoReplayed.UpdateTotalAccumulatedPower.totalAccumulatedPower ∧
      testPRepInfoReplayed.UpdateTotalAccumulatedPower.electedPRepCount ≠ 0 ∧
      ∀ tReward minWage : Int,
        (testPRepInfoReplayed.UpdateTotalAccumulatedPower.heap.deref ptr).CalculateReward
          goloop tReward testPRepInfoReplayed.UpdateTotalAccumulatedPower.totalAccumulatedPower
          300 minWage ≠ none) ∧
    ((testPRepInfoReplayed.rank.take testPRepInfoReplayed.electedPRepCount.toNat).map
        (fun ptr => ((testPRepInfoReplayed.heap.deref ptr).IsRewardable 4,
          (testPRepInfoReplayed.heap.deref ptr).accumulatedPower))
      = [(true, 558300), (true, 186100), (false, 101000), (false, 80800)] ∧
     testPRepInfoReplayed.UpdateTotalAccumulatedPower.totalAccumulatedPower = 926200 ∧
     fundToPeriodIScore goloop 1000000000 testPRepInfoReplayed.GetTermPeriod = some 77932098 ∧
     (testPRepInfoReplayed.UpdateTotalAccumulatedPower.CalculateReward goloop 1000000000
        10000000 300).map
        (fun q => (testPRepInfoReplayed.rank.take 4).map (fun ptr =>
          (q.heap.deref ptr).commission + (q.heap.deref ptr).voterReward))
      = some [46976344, 15658781, 0, 0]) :=
  ⟨⟨by decide, by decide⟩,
   (reward_divisions_defined goloop testPRepInfoReplayed 1000000000 10000000 300 (by decide)
     (by decide)).1,
   by decide, by decide, by decide, by decide⟩

/-! ## The wage fund -/

theorem CalculateReward_returns_explicit (E : Deps) (p q : PRepInfo)
    (totalReward totalMinWage minBond : Int) (hwf : p.WF) (hN : p.electedPRepCount ≠ 0)
    (hq : p.CalculateReward E totalReward totalMinWage minBond = some q) :
    ∃ S W : Int,
      fundToPeriodIScore E totalReward p.GetTermPeriod = some S ∧
      fundToPeriodIScore E totalMinWage p.GetTermPeriod = some W ∧
      q.preps = p.preps ∧
      ∀ ptr, q.heap.deref ptr =
        if ptr ∈ p.rank.take p.electedPRepCount.toNat ∧
            (p.heap.deref ptr).IsRewardable p.electedPRepCount = true
        then (p.heap.deref ptr).rewarded E S p.totalAccumulatedPower minBond
          (W / p.electedPRepCount)
        else p.heap.deref ptr := by
  have hM : E.MonthBlock ≠ 0 := by
    intro h0
    simp [PRepInfo.CalculateReward, hN, fundToPeriodIScore, h0] at hq
  have hdiv : p.totalAccumulatedPower = 0 → ∀ ptr ∈ p.rank.take p.electedPRepCount.toNat,
      (p.heap.deref ptr).IsRewardable p.electedPRepCount = false := by
    intro htot
    have hS : ∃ S, fundToPeriodIScore E totalReward p.GetTermPeriod = some S := by
      simp [fundToPeriodIScore, hM]
    have hW : ∃ W, fundToPeriodIScore E totalMinWage p.GetTermPeriod = some W := by
      simp [fundToPeriodIScore, hM]
    obtain ⟨S, hS⟩ := hS
    obtain ⟨W, hW⟩ := hW
    simp only [PRepInfo.CalculateReward, if_neg hN, hS, hW] at hq
    cases hl : rewardLoop E p.electedPRepCount S p.totalAccumulatedPower minBond
        (W / p.electedPRepCount) 0 p.rank p.heap with
    | none => rw [hl] at hq; simp at hq
    | some h2 =>
      rw [htot] at hl
      have h := (rewardLoop_zero E p.electedPRepCount S minBond (W / p.electedPRepCount)
        p.rank 0 p.heap h2 hl).2
      simpa using h
  obtain ⟨q2, S, W, hq2, hS, hW, hderef⟩ := CalculateReward_explicit E p totalReward
    totalMinWage minBond hwf hN hM hdiv
  rw [hq] at hq2
  injection hq2 with hq2
  subst hq2
  refine ⟨S, W, hS, hW, ?_, hderef⟩
  have hh := (CalculateReward_heap E p q totalReward totalMinWage minBond hwf hq).1
  rw [hh]

theorem sum_map_le_length (l : List Nat) (g : Nat → Int) (w : Int)
    (h : ∀ x ∈ l, g x ≤ w) : (l.map g).sum ≤ (l.length : Int) * w := by
  induction l with
  | nil => simp
  | cons x xs ih =>
    have h1 := h x (List.mem_cons_self _ _)
    have h2 := ih (fun y hy => h y (List.mem_cons_of_mem _ hy))
    simp only [List.map_cons, List.sum_cons, List.length_cons]
    push_cast
    linarith

/-- C31 does not hold as stated. (1) With an offset limit of -3 the term period is -2
and the scaled wage fund of 1296 is `F = -2`; with two elected preps the wage is -1, the
one rewardable prep gets it, and the sum of the wages, -1, is more than `F`. (2) With an
offset limit of `2^62` the product `period * IScoreICXRatio` wraps in `int64` to 1000: the
wage that `hx1` and `hx4` of the test records get is 1929, neither 0 nor `floor(F / 4)` for
the stated `F`. In both states all reward fields were zero, `electedPRepCount > 0` and
`totalMinWage ≥ 0`. -/
theorem wage_fund_counterexample :
    ((∀ r ∈ negativeTermInfo.UpdateTotalAccumulatedPower.PReps,
        r.commission = 0 ∧ r.voterReward = 0 ∧ r.wage = 0) ∧
      0 < negativeTermInfo.UpdateTotalAccumulatedPower.electedPRepCount ∧
      (negativeTermInfo.UpdateTotalAccumulatedPower.CalculateReward goloop 0 1296 0).map
        (fun q => q.PReps.map (fun r => r.wage)) = some [-1, 0] ∧
      Int.fdiv (1296 * ((negativeTermInfo.offsetLimit + 1) * goloop.IScoreICXRatio))
        goloop.MonthBlock = -2 ∧
      ¬ (([-1, 0] : List Int).sum ≤ -2)) ∧
    ((loadPRepInfo goloop 500 4 (2 ^ 62) testAddCalls).UpdateTotalAccumulatedPower.PReps.map
        (fun r => (r.commission, r.voterReward, r.wage))
        = [(0, 0, 0), (0, 0, 0), (0, 0, 0), (0, 0, 0), (0, 0, 0)] ∧
      ((loadPRepInfo goloop 500 4 (2 ^ 62)
          testAddCalls).UpdateTotalAccumulatedPower.CalculateReward goloop 1000000000 10000000
          0).map (fun q => q.PReps.map (fun r => r.wage))
        = some [1929, 0, 0, 1929, 0] ∧
      wrapInt64 ((2 ^ 62 + 1) * goloop.IScoreICXRatio) = 1000 ∧
      Int.fdiv (Int.fdiv (10000000 * ((2 ^ 62 + 1) * goloop.IScoreICXRatio))
        goloop.MonthBlock) 4 = 8895999263941720495756) :=
  ⟨⟨by decide, by decide, by decide, by decide, by decide⟩,
   ⟨by decide, by decide, by decide, by decide⟩⟩

/-- C31, amended: no over-distribution of the wage fund when the term period is not
negative and the scaling does not wrap. For a `PRepInfo` with `electedPRepCount = N > 0`,
`offsetLimit ≥ -1`, `offsetLimit + 1` and `(offsetLimit + 1) * IScoreICXRatio` within
`int64` (`MonthBlock > 0`, `IScoreICXRatio ≥ 0`), `totalMinWage ≥ 0` and all reward fields
zero, after every returning `CalculateReward(totalReward, totalMinWage, minBond)` each
prep's wage is 0 or `floor(F / N)` with
`F = floor(totalMinWage * ((offsetLimit+1) * IScoreICXRatio) / MonthBlock)`, at most `N`
preps have a non-zero wage, and the sum of the wages over all preps is at most `F`. The
call returns whenever `totalAccumulatedPower` is not zero. -/
theorem wage_no_over_distribution (E : Deps) (p : PRepInfo)
    (totalReward totalMinWage minBond : Int) (hwf : p.WF)
    (hN : 0 < p.electedPRepCount) (hM : 0 < E.MonthBlock) (hR : 0 ≤ E.IScoreICXRatio)
    (hMW : 0 ≤ totalMinWage)
    (hzero : ∀ r ∈ p.PReps, r.commission = 0 ∧ r.voterReward = 0 ∧ r.wage = 0)
    (hT : -1 ≤ p.offsetLimit ∧ p.offsetLimit + 1 < 2 ^ 63)
    (hTR : (p.offsetLimit + 1) * E.IScoreICXRatio < 2 ^ 63) :
    (∀ q : PRepInfo, p.CalculateReward E totalReward totalMinWage minBond = some q →
      (∀ r ∈ q.PReps,
        r.wage = 0 ∨
        r.wage = Int.fdiv
          (Int.fdiv (totalMinWage * ((p.offsetLimit + 1) * E.IScoreICXRatio)) E.MonthBlock)
          p.electedPRepCount) ∧
      (q.PReps.filter (fun r => decide (r.wage ≠ 0))).length ≤ p.electedPRepCount.toNat ∧
      (q.PReps.map (fun r => r.wage)).sum
        ≤ Int.fdiv (totalMinWage * ((p.offsetLimit + 1) * E.IScoreICXRatio)) E.MonthBlock) ∧
    (p.totalAccumulatedPower ≠ 0 →
      ∃ q : PRepInfo, p.CalculateReward E totalReward totalMinWage minBond = some q) := by
  have hN0 : p.electedPRepCount ≠ 0 := ne_of_gt hN
  constructor
  swap
  · intro htot
    obtain ⟨q, _, _, hq, _⟩ := CalculateReward_explicit E p totalReward totalMinWage minBond
      hwf hN0 (ne_of_gt hM) (fun h => absurd h htot)
    exact ⟨q, hq⟩
  intro q hq
  obtain ⟨S, W, _, hW, hpreps, hderef⟩ := CalculateReward_returns_explicit E p q totalReward
    totalMinWage minBond hwf hN0 hq
  have hperiod : p.GetTermPeriod = p.offsetLimit + 1 := by
    unfold PRepInfo.GetTermPeriod
    exact wrapInt64_eq _ (by have := hT.1; omega) hT.2
  have hprod0 : 0 ≤ (p.offsetLimit + 1) * E.IScoreICXRatio :=
    mul_nonneg (by have := hT.1; omega) hR
  rw [hperiod, fundToPeriodIScore_eq E totalMinWage (p.offsetLimit + 1) hM
    (by omega) hTR] at hW
  injection hW with hW
  have hF0 : 0 ≤ Int.fdiv (totalMinWage * ((p.offsetLimit + 1) * E.IScoreICXRatio))
      E.MonthBlock := by
    rw [Int.fdiv_eq_ediv _ (le_of_lt hM)]
    exact Int.ediv_nonneg (mul_nonneg hMW hprod0) (le_of_lt hM)
  rw [Int.fdiv_eq_ediv
    (Int.fdiv (totalMinWage * ((p.offsetLimit + 1) * E.IScoreICXRatio)) E.MonthBlock)
    (le_of_lt hN)]
  rw [hW] at hF0 ⊢
  have hw0 : 0 ≤ W / p.electedPRepCount := Int.ediv_nonneg hF0 (le_of_lt hN)
  -- the wage of a known prep after the call
  have hwage : ∀ e ∈ p.preps, (q.heap.deref e.2).wage =
      if e.2 ∈ p.rank.take p.electedPRepCount.toNat ∧
          (p.heap.deref e.2).IsRewardable p.electedPRepCount = true ∧
          minBond ≤ (p.heap.deref e.2).bonded
      then W / p.electedPRepCount else 0 := by
    intro e he
    have hold : (p.heap.deref e.2).wage = 0 :=
      (hzero _ (List.mem_map.2 ⟨e, he, rfl⟩)).2.2
    rw [hderef e.2]
    by_cases hc : e.2 ∈ p.rank.take p.electedPRepCount.toNat ∧
        (p.heap.deref e.2).IsRewardable p.electedPRepCount = true
    · rw [if_pos hc]
      by_cases hb : minBond ≤ (p.heap.deref e.2).bonded
      · rw [if_pos ⟨hc.1, hc.2, hb⟩]
        simp only [PRep.rewarded, if_pos hb]
      · rw [if_neg (fun h => hb h.2.2)]
        simp only [PRep.rewarded, if_neg hb]
        exact hold
    · rw [if_neg hc, if_neg (fun h => hc ⟨h.1, h.2.1⟩)]
      exact hold
  have hPReps : q.PReps = p.preps.map (fun e => q.heap.deref e.2) := by
    unfold PRepInfo.PReps
    rw [hpreps]
  have hwin : (p.rank.take p.electedPRepCount.toNat).length ≤ p.electedPRepCount.toNat :=
    List.length_take_le _ _
  have hwinnd : (p.rank.take p.electedPRepCount.toNat).Nodup :=
    hwf.2.2.2.1.sublist (List.take_sublist _ _)
  refine ⟨?_, ?_, ?_⟩
  · intro r hr
    rw [hPReps] at hr
    obtain ⟨e, he, hre⟩ := List.mem_map.1 hr
    rw [← hre, hwage e he]
    split_ifs
    · right; rfl
    · left; rfl
  · rw [hPReps, List.filter_map, List.length_map]
    have hsub : p.preps.filter
        ((fun r : PRep => decide (r.wage ≠ 0)) ∘ fun e => q.heap.deref e.2)
        = p.preps.filter (fun e => decide ((q.heap.deref e.2).wage ≠ 0)) := rfl
    rw [hsub]
    have hlen : (p.preps.filter (fun e => decide ((q.heap.deref e.2).wage ≠ 0))).length
        = ((p.preps.filter (fun e => decide ((q.heap.deref e.2).wage ≠ 0))).map
            Prod.snd).length := by
      rw [List.length_map]
    rw [hlen]
    have hnd : ((p.preps.filter (fun e => decide ((q.heap.deref e.2).wage ≠ 0))).map
        Prod.snd).Nodup :=
      hwf.2.1.sublist (List.Sublist.map _ (List.filter_sublist _))
    have hss : (p.preps.filter (fun e => decide ((q.heap.deref e.2).wage ≠ 0))).map Prod.snd
        ⊆ p.rank.take p.electedPRepCount.toNat := by
      intro ptr hptr
      obtain ⟨e, he, hpe⟩ := List.mem_map.1 hptr
      rw [List.mem_filter] at he
      have hne : (q.heap.deref e.2).wage ≠ 0 := by simpa using he.2
      rw [hwage e he.1] at hne
      by_cases hc : e.2 ∈ p.rank.take p.electedPRepCount.toNat ∧
          (p.heap.deref e.2).IsRewardable p.electedPRepCount = true ∧
          minBond ≤ (p.heap.deref e.2).bonded
      · rw [← hpe]; exact hc.1
      · rw [if_neg hc] at hne
        exact absurd rfl hne
    exact le_trans (List.subperm_of_subset hnd hss).length_le hwin
  · -- the sum over the map is a sum over the elected window
    have hsum : (q.PReps.map (fun r => r.wage)).sum
        = ((p.preps.map Prod.snd).map (fun ptr =>
            if ptr ∈ p.preps.map Prod.snd then (q.heap.deref ptr).wage else 0)).sum := by
      rw [hPReps, List.map_map, List.map_map]
      apply congrArg
      apply List.map_congr_left
      intro e he
      have hm : e.2 ∈ p.preps.map Prod.snd := List.mem_map.2 ⟨e, he, rfl⟩
      simp only [Function.comp, if_pos hm]
    have hg : ∀ ptr, (0 : Int) ≤
        (if ptr ∈ p.preps.map Prod.snd then (q.heap.deref ptr).wage else 0) ∧
        (if ptr ∈ p.preps.map Prod.snd then (q.heap.deref ptr).wage else 0)
          ≤ W / p.electedPRepCount ∧
        (ptr ∉ p.rank.take p.electedPRepCount.toNat →
          (if ptr ∈ p.preps.map Prod.snd then (q.heap.deref ptr).wage else 0) = 0) := by
      intro ptr
      by_cases hm : ptr ∈ p.preps.map Prod.snd
      · obtain ⟨e, he, hpe⟩ := List.mem_map.1 hm
        rw [if_pos hm, ← hpe, hwage e he]
        split_ifs with hc
        · exact ⟨hw0, le_refl _, fun h => absurd hc.1 h⟩
        · exact ⟨le_refl _, hw0, fun _ => rfl⟩
      · rw [if_neg hm]
        exact ⟨le_refl _, hw0, fun _ => rfl⟩
    have h1 := sum_le_of_support (p.preps.map Prod.snd) (p.rank.take p.electedPRepCount.toNat)
      (fun ptr => if ptr ∈ p.preps.map Prod.snd then (q.heap.deref ptr).wage else 0)
      hwf.2.1 hwinnd (fun x => (hg x).1) (fun x hx => (hg x).2.2 hx)
    have h2 := sum_map_le_length (p.rank.take p.electedPRepCount.toNat)
      (fun ptr => if ptr ∈ p.preps.map Prod.snd then (q.heap.deref ptr).wage else 0)
      (W / p.electedPRepCount) (fun x _ => (hg x).2.1)
    have h3 : ((p.rank.take p.electedPRepCount.toNat).length : Int) ≤ p.electedPRepCount := by
      have : ((p.electedPRepCount.toNat : Nat) : Int) = p.electedPRepCount :=
        Int.toNat_of_nonneg (le_of_lt hN)
      have h4 : ((p.rank.take p.electedPRepCount.toNat).length : Int)
          ≤ ((p.electedPRepCount.toNat : Nat) : Int) := by exact_mod_cast hwin
      omega
    have h5 : ((p.rank.take p.electedPRepCount.toNat).length : Int) * (W / p.electedPRepCount)
        ≤ p.electedPRepCount * (W / p.electedPRepCount) :=
      mul_le_mul_of_nonneg_right h3 hw0
    have h6 : p.electedPRepCount * (W / p.electedPRepCount) ≤ W :=
      Int.mul_ediv_self_le hN0
    rw [hsum]
    linarith

theorem wage_no_over_distribution_witness :
    (testPRepInfoReplayed.WF ∧ 0 < testPRepInfoReplayed.electedPRepCount ∧
      0 < goloop.MonthBlock ∧ 0 ≤ goloop.IScoreICXRatio ∧ (0 : Int) ≤ 10000000 ∧
      (∀ r ∈ testPRepInfoReplayed.PReps, r.commission = 0 ∧ r.voterReward = 0 ∧ r.wage = 0) ∧
      (-1 ≤ testPRepInfoReplayed.offsetLimit ∧ testPRepInfoReplayed.offsetLimit + 1 < 2 ^ 63) ∧
      (testPRepInfoReplayed.offsetLimit + 1) * goloop.IScoreICXRatio < 2 ^ 63) ∧
    (∃ q : PRepInfo,
      testPRepInfoReplayed.CalculateReward goloop 1000000000 10000000 300 = some q) ∧
    ((testPRepInfoReplayed.CalculateReward goloop 1000000000 10000000 300).map
        (fun q => (q.PReps.map (fun r => r.wage),
          (q.PReps.filter (fun r => decide (r.wage ≠ 0))).length,
          (q.PReps.map (fun r => r.wage)).sum))
      = some ([0, 0, 194830, 0, 0, 0, 0], 1, 194830) ∧
     Int.fdiv (10000000 * ((testPRepInfoReplayed.offsetLimit + 1) * goloop.IScoreICXRatio))
        goloop.MonthBlock = 779320 ∧
     Int.fdiv 779320 testPRepInfoReplayed.electedPRepCount = 194830) :=
  ⟨⟨by decide, by decide, by decide, by decide, by decide, by decide, by decide, by decide⟩,
   (wage_no_over_distribution goloop testPRepInfoReplayed 1000000000 10000000 300 (by decide)
     (by decide) (by decide) (by decide) (by decide) (by decide) (by decide) (by decide)).2
     (by decide),
   by decide, by decide, by decide⟩

/-! ## Preps created by an event -/

theorem lookup_none_of_GetPRep (p : PRepInfo) (key : List Nat) (h : p.GetPRep key = none) :
    p.preps.lookup key = none := by
  unfold PRepInfo.GetPRep at h
  cases hl : p.preps.lookup key with
  | none => rfl
  | some ptr => rw [hl] at h; simp at h

theorem heap_length_not_ranked (p : PRepInfo) (hwf : p.WF) : p.heap.length ∉ p.rank := by
  intro hm
  have := hwf.2.2.2.2 _ hm
  omega

theorem Sort_top_ranked (E : Deps) (p0 : PRepInfo) (hwf : p0.WF) (hne : p0.preps ≠ [])
    (events : List Event) :
    ∃ (key : List Nat) (x : PRep),
      (p0.Sort_.InitAccumulated.applyEvents E events).GetPRep key = some x ∧ x.rank = 0 := by
  have hperm := Sort_rank_perm p0
  have hlen : p0.Sort_.rank.length = p0.preps.length := by
    rw [hperm.length_eq, List.length_map]
  have hpos : 0 < p0.Sort_.rank.length := by
    rw [hlen]
    exact List.length_pos.2 hne
  cases hr : p0.Sort_.rank with
  | nil => rw [hr] at hpos; simp at hpos
  | cons ptr0 rest =>
    have hmem : ptr0 ∈ p0.Sort_.rank := by rw [hr]; exact List.mem_cons_self _ _
    obtain ⟨e, he, hptr⟩ := List.mem_map.1 (hperm.mem_iff.1 hmem)
    have hl : p0.preps.lookup e.1 = some e.2 := lookup_of_mem p0.preps hwf.1 e he
    have hd := Sort_heap_deref p0 hwf ptr0
    rw [if_pos hmem] at hd
    have hidx : p0.Sort_.rank.indexOf ptr0 = 0 := by rw [hr]; simp
    have hrank0 : (p0.Sort_.heap.deref ptr0).rank = 0 := by
      rw [hd, hidx]; rfl
    have hwfS := WF_Sort p0 hwf
    have hrank1 : (p0.Sort_.InitAccumulated.heap.deref ptr0).rank = 0 := by
      rw [InitAccumulated_deref p0.Sort_ hwfS ptr0]
      split_ifs
      · exact hrank0
      · exact hrank0
    have hget : p0.Sort_.InitAccumulated.GetPRep e.1
        = some (p0.Sort_.InitAccumulated.heap.deref ptr0) := by
      have hp : p0.Sort_.InitAccumulated.preps = p0.preps := rfl
      unfold PRepInfo.GetPRep
      rw [hp, hl, hptr]
      rfl
    obtain ⟨_, y, hy, hf⟩ := eventFrame_applyEvents E events p0.Sort_.InitAccumulated
      (WF_InitAccumulated _ hwfS) e.1 _ hget
    exact ⟨e.1, y, hy, hf.1.trans hrank1⟩

/-- C32 does not hold as stated: when `Sort` has run on a `PRepInfo` without preps, a prep
that `SetStatus` or `ApplyVote` creates afterwards is the only known prep, so the rank
fields of the known preps are still pairwise distinct. -/
theorem late_prep_counterexample :
    ((NewPRepInfo 500 4 100).Sort_.InitAccumulated.GetPRep (hx 7) = none ∧
      ((NewPRepInfo 500 4 100).Sort_.InitAccumulated.SetStatus goloop (hx 7)
        EnableStatus.ESEnable).PReps.map (fun r => (r.owner, r.rank)) = [(hx 7, 0)] ∧
      (((NewPRepInfo 500 4 100).Sort_.InitAccumulated.SetStatus goloop (hx 7)
        EnableStatus.ESEnable).PReps.map (fun r => r.rank)).Nodup) ∧
    ((NewPRepInfo 500 4 100).Sort_.InitAccumulated.GetPRep (hx 6) = none ∧
      ((NewPRepInfo 500 4 100).Sort_.InitAccumulated.ApplyVote goloop VoteType.vtBond
        [(hx 6, 1000)] 10).PReps.map (fun r => (r.owner, r.rank)) = [(hx 6, 0)] ∧
      (((NewPRepInfo 500 4 100).Sort_.InitAccumulated.ApplyVote goloop VoteType.vtBond
        [(hx 6, 1000)] 10).PReps.map (fun r => r.rank)).Nodup) :=
  ⟨⟨by decide, by decide, by decide⟩, ⟨by decide, by decide, by decide⟩⟩

/-- C32, amended: late-materialised preps are unranked. A prep first created by
`PRepInfo.SetStatus` or by a vote of `PRepInfo.ApplyVote` has rank field 0 and its object
is not an element of the rank sequence, and later events keep it so. Hence it shares the
rank 0 with every other known prep of rank 0: ranks are no longer pairwise distinct as
soon as `Sort` has ranked at least one prep (after `Sort`, `InitAccumulated` and any
events, some known prep has rank 0). For the event sequence of a bond vote to the unknown
`hx6` followed by `SetStatus` to enabled, in the sorted and seeded state of `TestPRepInfo`,
that prep satisfies `IsRewardable(electedPRepCount)` with accumulated power 90000, while
`UpdateTotalAccumulatedPower` stores 626200, the sum over the four elected preps without
it, and `PRepInfo.CalculateReward` leaves its commission, voter reward and wage at zero. -/
theorem late_prep_unranked (E : Deps) (p : PRepInfo) (hwf : p.WF) (target : List Nat)
    (hnew : p.GetPRep target = none) :
    (∀ status : EnableStatus,
      ∃ y : PRep, (p.SetStatus E target status).GetPRep target = some y ∧ y.rank = 0 ∧
        (p.SetStatus E target status).preps.lookup target = some p.heap.length ∧
        p.heap.length ∉ (p.SetStatus E target status).rank ∧
        (∀ events : List Event,
          ∃ y2 : PRep, ((p.SetStatus E target status).applyEvents E events).GetPRep target
              = some y2 ∧ y2.rank = 0 ∧
            ((p.SetStatus E target status).applyEvents E events).rank = p.rank) ∧
        (∀ (key : List Nat) (x : PRep), p.GetPRep key = some x → x.rank = 0 →
          key ≠ target ∧
          ∃ x2 : PRep, (p.SetStatus E target status).GetPRep key = some x2 ∧
            x2.rank = y.rank)) ∧
    (∀ (vType : VoteType) (amount offset : Int),
      ∃ y : PRep,
        (PRepInfo.applyOneVote E vType offset p (target, amount)).GetPRep target = some y ∧
        y.rank = 0 ∧
        (PRepInfo.applyOneVote E vType offset p (target, amount)).preps.lookup target
          = some p.heap.length ∧
        p.heap.length ∉ (PRepInfo.applyOneVote E vType offset p (target, amount)).rank ∧
        (∀ events : List Event,
          ∃ y2 : PRep,
            ((PRepInfo.applyOneVote E vType offset p (target, amount)).applyEvents E
              events).GetPRep target = some y2 ∧ y2.rank = 0 ∧
            ((PRepInfo.applyOneVote E vType offset p (target, amount)).applyEvents E
              events).rank = p.rank) ∧
        (∀ (key : List Nat) (x : PRep), p.GetPRep key = some x → x.rank = 0 →
          key ≠ target ∧
          ∃ x2 : PRep,
            (PRepInfo.applyOneVote E vType offset p (target, amount)).GetPRep key = some x2 ∧
            x2.rank = y.rank)) ∧
    (∀ p0 : PRepInfo, p0.WF → p0.preps ≠ [] → ∀ events : List Event,
      ∃ (key : List Nat) (x : PRep),
        (p0.Sort_.InitAccumulated.applyEvents E events).GetPRep key = some x ∧ x.rank = 0) ∧
    (testPRepInfo.Sort_.InitAccumulated.GetPRep (hx 6) = none ∧
      (((testPRepInfo.Sort_.InitAccumulated.ApplyVote goloop VoteType.vtBond
          [(hx 6, 1000)] 10).SetStatus goloop (hx 6)
          EnableStatus.ESEnable).UpdateTotalAccumulatedPower.GetPRep (hx 6)).map
        (fun r => (r.rank, r.IsRewardable 4, r.accumulatedPower))
        = some (0, true, 90000) ∧
      ((testPRepInfo.Sort_.InitAccumulated.ApplyVote goloop VoteType.vtBond
          [(hx 6, 1000)] 10).SetStatus goloop (hx 6)
          EnableStatus.ESEnable).UpdateTotalAccumulatedPower.totalAccumulatedPower
        = 111100 + 333300 + 80800 + 101000 ∧
      ((testPRepInfo.Sort_.InitAccumulated.ApplyVote goloop VoteType.vtBond
          [(hx 6, 1000)] 10).SetStatus goloop (hx 6)
          EnableStatus.ESEnable).UpdateTotalAccumulatedPower.PReps.map
        (fun r => (r.rank, r.accumulatedPower))
        = [(1, 111100), (4, 0), (0, 333300), (3, 80800), (2, 101000), (0, 90000)] ∧
      (((testPRepInfo.Sort_.InitAccumulated.ApplyVote goloop VoteType.vtBond
          [(hx 6, 1000)] 10).SetStatus goloop (hx 6)
          EnableStatus.ESEnable).UpdateTotalAccumulatedPower.CalculateReward goloop
          1000000000 10000000 300).map
        (fun q => (q.GetPRep (hx 6)).map
          (fun r => (r.bonded, r.commission, r.voterReward, r.wage)))
        = some (some (1000, 0, 0, 0))) := by
  have hl := lookup_none_of_GetPRep p target hnew
  have hother : ∀ (key : List Nat) (x : PRep), p.GetPRep key = some x → key ≠ target := by
    intro key x hx hk
    rw [hk, hnew] at hx
    cases hx
  refine ⟨?_, ?_, fun p0 hwf0 hne events => Sort_top_ranked E p0 hwf0 hne events,
    ⟨by decide, by decide, by decide, by decide, by decide⟩⟩
  · intro status
    have hS := SetStatus_GetPRep E p hwf target status
    rw [hnew] at hS
    have hrk : (p.SetStatus E target status).rank = p.rank :=
      (fixedPart_rank _ _ (SetStatus_fixedPart E p target status)).1
    refine ⟨_, hS.1, rfl, ?_, ?_, ?_, ?_⟩
    · simp only [PRepInfo.SetStatus, hl, PRepInfo.Add]
      exact lookup_mapSet_self target p.heap.length p.preps
    · rw [hrk]; exact heap_length_not_ranked p hwf
    · intro events
      obtain ⟨_, y2, hy2, hf⟩ := eventFrame_applyEvents E events (p.SetStatus E target status)
        (WF_SetStatus E p target status hwf) target _ hS.1
      refine ⟨y2, hy2, hf.1, ?_⟩
      rw [(fixedPart_rank _ _ (applyEvents_fixedPart E events _)).1, hrk]
    · intro key x hx h0
      refine ⟨hother key x hx, x, ?_, h0⟩
      rw [hS.2 key (hother key x hx)]; exact hx
  · intro vType amount offset
    have hV := applyOneVote_GetPRep E vType offset p hwf target amount
    rw [hnew] at hV
    have hrk : (PRepInfo.applyOneVote E vType offset p (target, amount)).rank = p.rank :=
      (fixedPart_rank _ _ (applyOneVote_fixedPart E vType offset p (target, amount))).1
    have hr0 : (((none : Option PRep).getD
        ((NewPRep target EnableStatus.ESDisablePermanent 0 0 0 false).UpdatePower E
          p.bondRequirement)).ApplyVote E vType amount (wrapInt64 (p.offsetLimit - offset))
        p.bondRequirement).rank = 0 := by
      rw [(ApplyVote_fields E _ vType amount _ _).2.2.2.2]
      rfl
    refine ⟨_, hV.1, hr0, ?_, ?_, ?_, ?_⟩
    · simp only [PRepInfo.applyOneVote, hl, PRepInfo.Add]
      exact lookup_mapSet_self target p.heap.length p.preps
    · rw [hrk]; exact heap_length_not_ranked p hwf
    · intro events
      obtain ⟨_, y2, hy2, hf⟩ := eventFrame_applyEvents E events
        (PRepInfo.applyOneVote E vType offset p (target, amount))
        (WF_applyOneVote E vType offset p (target, amount) hwf) target _ hV.1
      refine ⟨y2, hy2, hf.1.trans hr0, ?_⟩
      rw [(fixedPart_rank _ _ (applyEvents_fixedPart E events _)).1, hrk]
    · intro key x hx h0
      refine ⟨hother key x hx, x, ?_, h0.trans hr0.symm⟩
      rw [hV.2 key (hother key x hx)]; exact hx

theorem late_prep_unranked_witness :
    (testPRepInfo.Sort_.InitAccumulated.WF ∧
      testPRepInfo.Sort_.InitAccumulated.GetPRep (hx 7) = none) ∧
    (∃ y : PRep,
      (testPRepInfo.Sort_.InitAccumulated.SetStatus goloop (hx 7)
        EnableStatus.ESEnable).GetPRep (hx 7) = some y ∧ y.rank = 0 ∧
      (testPRepInfo.Sort_.InitAccumulated.SetStatus goloop (hx 7)
        EnableStatus.ESEnable).preps.lookup (hx 7)
        = some testPRepInfo.Sort_.InitAccumulated.heap.length ∧
      testPRepInfo.Sort_.InitAccumulated.heap.length ∉
        (testPRepInfo.Sort_.InitAccumulated.SetStatus goloop (hx 7)
          EnableStatus.ESEnable).rank ∧
      (∀ events : List Event,
        ∃ y2 : PRep, ((testPRepInfo.Sort_.InitAccumulated.SetStatus goloop (hx 7)
            EnableStatus.ESEnable).applyEvents goloop events).GetPRep (hx 7) = some y2 ∧
          y2.rank = 0 ∧
          ((testPRepInfo.Sort_.InitAccumulated.SetStatus goloop (hx 7)
            EnableStatus.ESEnable).applyEvents goloop events).rank
            = testPRepInfo.Sort_.InitAccumulated.rank) ∧
      (∀ (key : List Nat) (x : PRep),
        testPRepInfo.Sort_.InitAccumulated.GetPRep key = some x → x.rank = 0 →
        key ≠ hx 7 ∧
        ∃ x2 : PRep, (testPRepInfo.Sort_.InitAccumulated.SetStatus goloop (hx 7)
            EnableStatus.ESEnable).GetPRep key = some x2 ∧ x2.rank = y.rank)) ∧
    ((testPRepInfo.Sort_.InitAccumulated.SetStatus goloop (hx 7)
        EnableStatus.ESEnable).PReps.map (fun r => (r.owner, r.rank))
      = [(hx 1, 1), (hx 2, 4), (hx 3, 0), (hx 4, 3), (hx 5, 2), (hx 7, 0)] ∧
     (testPRepInfo.Sort_.InitAccumulated.SetStatus goloop (hx 7)
        EnableStatus.ESEnable).rank = [2, 0, 4, 3, 1] ∧
     testPRepInfo.Sort_.InitAccumulated.heap.length = 5) :=
  ⟨⟨by decide, by decide⟩,
   (late_prep_unranked goloop testPRepInfo.Sort_.InitAccumulated (by decide) (hx 7)
     (by decide)).1 EnableStatus.ESEnable,
   by decide, by decide, by decide⟩

/-! ## `Clone` and `Equal` -/

/-- C33 fails on the code: `Clone` copies twelve of the thirteen fields that `Equal`
compares and leaves out `rank`, so the copy has rank 0. The copy is `Equal` to the
original exactly when the original has rank 0; `hx1` of `TestPRepInfo` has rank 1 after
`Sort` (the test clones it in that state) and its copy is not `Equal` to it. Every other
field is copied. -/
theorem Clone_drops_rank :
    (∀ p : PRep, p.Clone = { p with rank := 0 }) ∧
    (∀ p : PRep, p.Clone.Equal p = true ↔ p.rank = 0) ∧
    (∀ p : PRep, p.rank ≠ 0 → p.Clone.Equal p = false) ∧
    (∀ p : PRep, ({ p.Clone with rank := p.rank } : PRep).Equal p = true) ∧
    ((testPRepInfo.Sort_.GetPRep (hx 1)).map (fun r => (r.rank, r.Clone.rank, r.Clone.Equal r))
      = some (1, 0, false)) := by
  have hiff : ∀ p : PRep, p.Clone.Equal p = true ↔ p.rank = 0 := by
    intro p
    rw [Equal_iff]
    constructor
    · intro h
      have h2 := congrArg PRep.rank h
      exact h2.symm
    · intro h
      cases p
      simp only [PRep.Clone, PRep.mk.injEq, true_and, and_true] at h ⊢
      exact h.symm
  refine ⟨fun p => rfl, hiff, ?_, ?_, by decide⟩
  · intro p hne
    cases hE : p.Clone.Equal p with
    | false => rfl
    | true => exact absurd ((hiff p).1 hE) hne
  · intro p
    rw [Equal_iff]
    cases p
    rfl
